import Mathlib

/-!
# Verification of the detail-extraction pipeline of the Amazon scraper

Shallow embedding of `internal/scraper/amazon/amazon_product_scraper.go`, of
`utils/parser.go` and of the worker pool of `internal/app/app.go`.

Modelling conventions:
* a Go `string` is the list of its code points (`Str`); every marker the code searches for is
  ASCII, so byte-wise and code-point-wise search isolate the same text on valid UTF-8;
* `error` results are `Option`: `none` is `nil`;
* a `float64` price is the rational number it denotes (prices are finite and never NaN, see
  `utils.ParsePrice`); `int` is `Int`;
* a browser page is the record of the answers it gives to the queries made during one visit;
  every query is taken to return (a `Must...` call that panics ends the process, and a query
  without timeout whose element never appears does not return: both are outside the model).
-/

namespace AmazonScraper

/-- A Go string, as its sequence of code points. -/
abbrev Str := List Char

/-! ## Package `strings` -/

namespace strings

/-- Go `strings.HasPrefix`. -/
def HasPrefix (s pre : Str) : Bool := pre.isPrefixOf s

/-- Go `strings.HasSuffix`. -/
def HasSuffix (s suf : Str) : Bool := suf.isSuffixOf s

/-- Go `strings.Index`: position of the first occurrence of `sub` in `s`; `none` is `-1`. -/
def Index : Str → Str → Option Nat
  | [], sub => if sub = [] then some 0 else none
  | c :: s, sub =>
    if HasPrefix (c :: s) sub then some 0 else (Index s sub).map (· + 1)

/-- Go `strings.Contains`. -/
def Contains (s sub : Str) : Bool := (Index s sub).isSome

/-- Go `strings.TrimPrefix`. -/
def TrimPrefix (s pre : Str) : Str := if HasPrefix s pre then s.drop pre.length else s

/-- Go `strings.TrimSuffix`. -/
def TrimSuffix (s suf : Str) : Str :=
  if HasSuffix s suf then s.take (s.length - suf.length) else s

/-- Go `unicode.IsSpace`: the code points with the Unicode White_Space property. -/
def IsSpace (c : Char) : Bool :=
  let n := c.toNat
  (9 ≤ n ∧ n ≤ 13) || n = 32 || n = 0x85 || n = 0xA0 || n = 0x1680 ||
  (0x2000 ≤ n ∧ n ≤ 0x200A) || n = 0x2028 || n = 0x2029 || n = 0x202F || n = 0x205F ||
  n = 0x3000

/-- Go `strings.TrimSpace`: drops leading and trailing white space. -/
def TrimSpace (s : Str) : Str :=
  ((s.dropWhile IsSpace).reverse.dropWhile IsSpace).reverse

/-- Go `unicode.ToLower` on one code point. ASCII letters are lowered by adding 32; the case
table for code points from 128 up is the parameter `table`. -/
def lowerRune (table : Char → Char) (c : Char) : Char :=
  if c.toNat < 128 then
    (if 65 ≤ c.toNat ∧ c.toNat ≤ 90 then Char.ofNat (c.toNat + 32) else c)
  else table c

/-- Go `strings.ToLower`: maps every code point through `unicode.ToLower`. -/
def ToLower (table : Char → Char) (s : Str) : Str := s.map (lowerRune table)

end strings

/-! ## `models.Product` -/

/-- Go `time.Time`, as a count of ticks since the zero instant. -/
structure Time where
  ticks : Nat
deriving DecidableEq, Repr

/-- Go `Time.IsZero`. -/
def Time.IsZero (t : Time) : Bool := t.ticks == 0

/-- Go `models.Product`. -/
structure Product where
  ID : Int
  SourceSite : Str
  ProductURL : Str
  Category : Str
  Status : Str
  TitleEnglish : Str
  TitleFarsi : Str
  DescriptionEnglish : Str
  DescriptionFarsi : Str
  Brand : Str
  Availability : Str
  OriginalPrice : ℚ
  DiscountPrice : ℚ
  DiscountPercent : Int
  MainImageURL : Str
  GalleryImageURLs : List Str
  Specifications : Str
  CountryOfOrigin : Str
  ScrapedAt : Time
  PostedToWP : Bool
  WPPostID : Int
deriving DecidableEq

/-- Go `ImageInfo`: one descriptor of the embedded image array (`main` holds pixel sizes). -/
structure ImageInfo where
  HiRes : Str
  Thumb : Str
  Large : Str
  Main : List (Str × List Int)
deriving DecidableEq

/-! ## The browser page -/

/-- A `rod.Element`, by the answers it gives. -/
structure Element where
  /-- The result of `el.Text()`; `none` when it returns an error. -/
  Text : Option Str
  /-- The result of `el.HTML()`; `none` when it returns an error. -/
  HTML : Option Str
  /-- Whether `el.WaitVisible()` returns `nil`. -/
  WaitVisible : Bool
  /-- Whether `el.Click(...)` returns `nil`. -/
  Click : Bool

/-- A `rod.Page` during one visit, by the answers it gives to each query of the scraper. -/
structure Page where
  /-- Whether `page.Timeout(60s).WaitLoad()` returns `nil`. -/
  WaitLoad : Bool
  /-- The result of `page.Has(selector)`; `none` when it returns an error. -/
  Has : Str → Option Bool
  /-- The result of `page.Element(selector)` within its timeout; `none` on error. -/
  Element : Str → Option Element
  /-- The successive polls of `page.Elements("script")` that fit before the 15 s deadline of
  `extractGallery`: `none` is a failed poll, otherwise the `script.HTML()` of each script
  (`none` when that call fails). -/
  Scripts : List (Option (List (Option Str)))
  /-- The reading of `time.Now()` when the record is stamped. -/
  Now : Time

/-- The libraries the extractors call and whose code is outside the repository. -/
structure Libs where
  /-- The table of `unicode.ToLower` for code points from 128 up. -/
  lowerTable : Char → Char
  /-- Go `json.Unmarshal` into `[]ImageInfo`; `none` when it returns an error. -/
  unmarshalImages : Str → Option (List ImageInfo)
  /-- The goquery pass that strips every attribute of a table and renders it. -/
  cleanHTML : Str → Str

/-! ## `float64` arithmetic on finite values -/

namespace float64

/-- The exponent of the binade of a positive rational `x`: the `e` with `2^e ≤ x < 2^(e+1)`. -/
def ilog2 (x : ℚ) : Int :=
  let e : Int := (Nat.log2 x.num.natAbs : Int) - (Nat.log2 x.den : Int)
  if (2 : ℚ) ^ e ≤ x then e else e - 1

/-- Rounding to the nearest integer, ties to the even one. -/
def roundEven (x : ℚ) : Int :=
  let f := ⌊x⌋
  let r := x - f
  if r < 1 / 2 then f else if 1 / 2 < r then f + 1 else if f % 2 = 0 then f else f + 1

/-- The IEEE 754 binary64 value nearest to `x` (ties to even), subnormals included; overflow is
left to the caller. -/
def round (x : ℚ) : ℚ :=
  if x = 0 then 0 else
    let e := max (ilog2 |x|) (-1022)
    let ulp : ℚ := (2 : ℚ) ^ (e - 52)
    (roundEven (x / ulp) : ℚ) * ulp

/-- The largest finite binary64 value. -/
def maxFloat : ℚ := (2 ^ 53 - 1) * 2 ^ 971

/-- Go `a - b` on `float64`. -/
def sub (a b : ℚ) : ℚ := round (a - b)

/-- Go `a / b` on `float64`, for `b ≠ 0`. -/
def div (a b : ℚ) : ℚ := round (a / b)

/-- Go `a * b` on `float64`. -/
def mul (a b : ℚ) : ℚ := round (a * b)

/-- Go `int(x)`: truncation toward zero. -/
def toInt (x : ℚ) : Int := if 0 ≤ x then ⌊x⌋ else ⌈x⌉

end float64

/-! ## Package `utils` and the regular expressions of the price extractor -/

namespace utils

/-- The regexp class `\d`: an ASCII decimal digit. -/
def isDigit (c : Char) : Bool := 48 ≤ c.toNat ∧ c.toNat ≤ 57

/-- The regexp class `\s`: tab, line feed, form feed, carriage return, space. -/
def isReSpace (c : Char) : Bool :=
  c.toNat = 9 || c.toNat = 10 || c.toNat = 12 || c.toNat = 13 || c.toNat = 32

/-- The value of a string of decimal digits. -/
def digitsValue (ds : Str) : Nat := ds.foldl (fun acc c => 10 * acc + (c.toNat - 48)) 0

/-- Go `priceRegex.FindString` for the pattern `[\d,]+(?:\.\d+)?`: the leftmost match, `""`
when there is none. -/
def priceRegexFindString : Str → Str
  | [] => []
  | c :: s =>
    if isDigit c ∨ c = ',' then
      let run := (c :: s).takeWhile (fun x => isDigit x || x == ',')
      match (c :: s).dropWhile (fun x => isDigit x || x == ',') with
      | '.' :: r =>
        let frac := r.takeWhile isDigit
        if frac = [] then run else run ++ '.' :: frac
      | _ => run
    else priceRegexFindString s

/-- Go `strconv.ParseFloat(s, 64)` on the strings `ParsePrice` passes to it (decimal digits
with at most one point): the correctly rounded value, `none` for a syntax or range error. -/
def ParseFloat (s : Str) : Option ℚ :=
  let ip := s.takeWhile isDigit
  let finish (v : ℚ) : Option ℚ :=
    if float64.maxFloat < float64.round v then none else some (float64.round v)
  match s.dropWhile isDigit with
  | [] => if ip = [] then none else finish (digitsValue ip)
  | '.' :: fr =>
    if fr.all isDigit ∧ (ip ≠ [] ∨ fr ≠ []) then
      finish ((digitsValue ip : ℚ) + (digitsValue fr : ℚ) / 10 ^ fr.length)
    else none
  | _ => none

/-- Go `utils.ParsePrice`. -/
def ParsePrice (priceStr : Str) : ℚ :=
  if priceStr = [] then 0 else
    let foundPrice := priceRegexFindString priceStr
    if foundPrice = [] then 0 else
      let cleanedStr := foundPrice.filter (fun c => c != ',')
      match ParseFloat cleanedStr with
      | some price => price
      | none => 0

/-- Go `strconv.Atoi` on a string of decimal digits: `none` when it is empty or exceeds
the range of `int`. -/
def Atoi (s : Str) : Option Int :=
  if s = [] then none
  else if digitsValue s < 2 ^ 63 then some (digitsValue s) else none

/-- Go `FindString` for the pattern `\d+`: the leftmost maximal run of digits, `""` when
there is none. -/
def digitsRegexFindString (s : Str) : Str := (s.dropWhile (fun c => !isDigit c)).takeWhile isDigit

/-- A match of `(\d+)\s*percent savings` that starts at the head of `s`: its group 1. -/
def savingsMatchAt (s : Str) : Option Str :=
  let ds := s.takeWhile isDigit
  if ds = [] then none
  else if strings.HasPrefix ((s.dropWhile isDigit).dropWhile isReSpace) "percent savings".toList
  then some ds else none

/-- Go `FindStringSubmatch` for the pattern `(\d+)\s*percent savings`: group 1 of the leftmost
match, `none` when there is no match. -/
def savingsRegexFindStringSubmatch : Str → Option Str
  | [] => none
  | c :: s =>
    match savingsMatchAt (c :: s) with
    | some ds => some ds
    | none => savingsRegexFindStringSubmatch s

end utils

/-! ## The field extractors of `amazon_product_scraper.go` -/

/-- The text of the element at `selector`, when both `page.Element` and `el.Text` succeed. -/
def elementText (page : Page) (selector : String) : Option Str :=
  match page.Element selector.toList with
  | some el => el.Text
  | none => none

/-- Go `handleCaptcha`: `none` is `nil`, `some ()` an error. -/
def handleCaptcha (page : Page) : Option Unit :=
  match page.Has "form[action=\"/errors/validateCaptcha\"]".toList with
  | none => some ()
  | some false => none
  | some true =>
    match page.Element "form[action=\"/errors/validateCaptcha\"] button[type=\"submit\"]".toList with
    | none => some ()
    | some continueButton =>
      if !continueButton.Click then some ()
      else
        match page.Has "#ppd".toList with
        | some true => none
        | _ => some ()

/-- Go `extractTitle`. -/
def extractTitle (page : Page) : Str :=
  match elementText page "#productTitle" with
  | some title => strings.TrimSpace title
  | none => []

/-- Go `extractBrand`. -/
def extractBrand (page : Page) : Str :=
  match elementText page "#bylineInfo" with
  | some text =>
    strings.TrimSpace
      (strings.TrimSuffix
        (strings.TrimPrefix (strings.TrimPrefix text "Visit the ".toList) "Brand: ".toList)
        " Store".toList)
  | none =>
    match elementText page ".po-brand .po-break-word" with
    | some brand => strings.TrimSpace brand
    | none => []

/-- The selector loop of `extractAvailability`. -/
def extractAvailability.loop (page : Page) : List String → Str
  | [] => "Unknown".toList
  | selector :: rest =>
    match elementText page selector with
    | some availability =>
      if strings.TrimSpace availability ≠ [] then strings.TrimSpace availability
      else extractAvailability.loop page rest
    | none => extractAvailability.loop page rest

/-- Go `extractAvailability`. -/
def extractAvailability (page : Page) : Str :=
  extractAvailability.loop page ["#availability", ".a-section.a-spacing-none span.a-size-medium"]

/-- Strategies 1 and 2 of `extractPrices` (lines 231-292): the prices and the percentage read
from the page, `0` for what was not found. -/
def extractPrices.read (page : Page) : ℚ × ℚ × Int :=
  let discount : ℚ :=
    match elementText page ".priceToPay .a-offscreen" with
    | some text => utils.ParsePrice text
    | none => 0
  let original : ℚ :=
    match elementText page "span[data-a-strike='true'] .a-offscreen" with
    | some text => utils.ParsePrice text
    | none => 0
  let percent : Int :=
    match elementText page ".savingsPercentage" with
    | some text =>
      (match utils.Atoi (utils.digitsRegexFindString text) with
       | some p => p
       | none => 0)
    | none => 0
  let original : ℚ :=
    if original = 0 then
      (match elementText page "span.aok-offscreen:contains(\"List Price:\")" with
       | some text => utils.ParsePrice text
       | none => original)
    else original
  match elementText page "span.aok-offscreen:contains(\"percent savings\")" with
  | some text =>
    let discount := if discount = 0 then utils.ParsePrice text else discount
    let percent : Int :=
      if percent = 0 then
        (match utils.savingsRegexFindStringSubmatch text with
         | some m =>
           (match utils.Atoi m with
            | some p => p
            | none => percent)
         | none => percent)
      else percent
    (original, discount, percent)
  | none => (original, discount, percent)

/-- Strategy 3 of `extractPrices` (lines 294-310): the final sanity checks and calculations
on the values the earlier strategies left. -/
def extractPrices.reconcile (original discount : ℚ) (percent : Int) : ℚ × ℚ × Int :=
  let original := if original = 0 ∧ 0 < discount then discount else original
  let percent :=
    if percent = 0 ∧ discount < original ∧ 0 < discount then
      float64.toInt (float64.mul (float64.div (float64.sub original discount) original) 100)
    else percent
  (original, discount, percent)

/-- Go `extractPrices`: returns `(original, discount, percent)`. -/
def extractPrices (page : Page) : ℚ × ℚ × Int :=
  let r := extractPrices.read page
  extractPrices.reconcile r.1 r.2.1 r.2.2

/-! ## Embedded image array recovery: `extractGallery` -/

/-- The polling loop of `extractGallery` (lines 320-338): the first script, of the first poll
that has one, whose HTML contains `'colorImages'`; `none` when the deadline passes. -/
def extractGallery.findScript : List (Option (List (Option Str))) → Option Str
  | [] => none
  | none :: polls => extractGallery.findScript polls
  | some scripts :: polls =>
    match scripts.findSome? (fun h =>
        match h with
        | some html => if strings.Contains html "'colorImages'".toList then some html else none
        | none => none) with
    | some html => some html
    | none => extractGallery.findScript polls

/-- The bracket scan of `extractGallery` (lines 359-373) over the text from index `i` on, with
the current `balance`: the index of the `]` that brings the balance to zero; `none` is `-1`. -/
def extractGallery.scan : Str → Nat → Int → Option Nat
  | [], _, _ => none
  | c :: rest, i, balance =>
    if c = '[' then extractGallery.scan rest (i + 1) (balance + 1)
    else if c = ']' then
      (if balance - 1 = 0 then some i else extractGallery.scan rest (i + 1) (balance - 1))
    else extractGallery.scan rest (i + 1) balance

/-- The stages of `extractGallery` at which the recovery of the array text can stop. -/
inductive GalleryFailure
  | noMarker
  | noOpeningBracket
  | noClosingBracket
deriving DecidableEq, Repr

/-- Lines 345-380 of `extractGallery`: the text `jsonArrayStr` isolated from the script. -/
def extractGallery.jsonArrayStr (scriptContent : Str) : Except GalleryFailure Str :=
  match strings.Index scriptContent "'initial':".toList with
  | none => .error .noMarker
  | some startIndex =>
    match strings.Index (scriptContent.drop startIndex) "[".toList with
    | none => .error .noOpeningBracket
    | some k =>
      let jsonStartIndex := k + startIndex
      match extractGallery.scan (scriptContent.drop jsonStartIndex) jsonStartIndex 0 with
      | none => .error .noClosingBracket
      | some jsonEndIndex => .ok ((scriptContent.take (jsonEndIndex + 1)).drop jsonStartIndex)

/-- The gallery loop of `extractGallery` (lines 410-415) over `images[1:]`; `seenImages` lists
the keys of the map. -/
def extractGallery.galleryLoop : List ImageInfo → List Str → List Str → List Str
  | [], _, gallery => gallery
  | img :: rest, seenImages, gallery =>
    if img.HiRes ≠ [] ∧ img.HiRes ∉ seenImages then
      extractGallery.galleryLoop rest (img.HiRes :: seenImages) (gallery ++ [img.HiRes])
    else extractGallery.galleryLoop rest seenImages gallery

/-- Lines 394-424 of `extractGallery`: the main image and the gallery of a parsed array. -/
def extractGallery.classify (images : List ImageInfo) : Str × List Str :=
  match images with
  | [] => ([], [])
  | first :: rest =>
    if first.HiRes ≠ [] then
      (first.HiRes, extractGallery.galleryLoop rest [first.HiRes] [])
    else ([], extractGallery.galleryLoop rest [] [])

/-- Lines 345-424 of `extractGallery`, on the script that was found. -/
def extractGallery.fromScript (lib : Libs) (scriptContent : Str) : Str × List Str :=
  match extractGallery.jsonArrayStr scriptContent with
  | .error _ => ([], [])
  | .ok jsonArrayStr =>
    match lib.unmarshalImages jsonArrayStr with
    | none => ([], [])
    | some images => extractGallery.classify images

/-- Go `extractGallery`: returns `(mainImage, gallery)`. -/
def extractGallery (lib : Libs) (page : Page) : Str × List Str :=
  match extractGallery.findScript page.Scripts with
  | none => ([], [])
  | some scriptContent => extractGallery.fromScript lib scriptContent

/-- Go `extractAllDetailsAsHTML`: returns `(specifications, description)`. -/
def extractAllDetailsAsHTML (lib : Libs) (page : Page) : Str × Str :=
  let overview : Str :=
    match page.Element "#productOverview_feature_div table".toList with
    | some el =>
      (match el.HTML with
       | some html => "<h2>Product Overview</h2>\n".toList ++ lib.cleanHTML html
       | none => [])
    | none => []
  let details : Str :=
    match elementText page "#detailBullets_feature_div" with
    | some text => "<h2>Product Details</h2>\n".toList ++ strings.TrimSpace text
    | none => []
  let information : Str :=
    match elementText page "#prodDetails" with
    | some text => "<h2>Product Information</h2>\n".toList ++ strings.TrimSpace text
    | none => []
  let bullets : Str :=
    match elementText page "#feature-bullets" with
    | some text => strings.TrimSpace text ++ "\n".toList
    | none => []
  let description : Str :=
    match elementText page "#productDescription" with
    | some text => strings.TrimSpace text
    | none => []
  (strings.TrimSpace (overview ++ details ++ information), strings.TrimSpace (bullets ++ description))

/-! ## The page extraction orchestrator: `ScrapeProductDetails` -/

/-- The operations `ScrapeProductDetails` performs on the browser and the record, in the
order of the source. -/
inductive Call
  | MustPage
  | Sleep
  | WaitLoad
  | titleProbe
  | handleCaptcha
  | containerWait
  | WaitVisible
  | extractTitle
  | extractBrand
  | extractAvailability
  | extractPrices
  | extractGallery
  | extractAllDetailsAsHTML
  | stampScrapedAt
  | MustClose
deriving DecidableEq, Repr

/-- The errors `ScrapeProductDetails` returns, by the `fmt.Errorf` that builds them. -/
inductive ScrapeError
  | loadFailed
  | robotCheck
  | captchaFailed
  | noContainer
  | notVisible
  | noTitle
deriving DecidableEq, Repr

/-- The result of one call of `ScrapeProductDetails`: the record as the call leaves it, the
returned error (`none` is `nil`) and the operations performed. -/
structure Outcome where
  product : Product
  err : Option ScrapeError
  calls : List Call

/-- The robot check of lines 49-59: whether the title probe returns the robot-check error. -/
def robotCheckDetected (lib : Libs) (page : Page) : Bool :=
  match page.Has "title".toList with
  | some true =>
    (match elementText page "title" with
     | some titleText =>
       strings.Contains (strings.ToLower lib.lowerTable titleText) "robot check".toList ||
       strings.Contains (strings.ToLower lib.lowerTable titleText) "captcha".toList
     | none => false)
  | _ => false

/-- The container wait of lines 69-86: `#ppd`, else the first fallback selector that is
found; `none` when all fail. -/
def findContainer (page : Page) : Option Element :=
  match page.Element "#ppd".toList with
  | some el => some el
  | none =>
    ["#dp", "#centerCol", "#productDetails"].findSome? (fun sel => page.Element sel.toList)

/-- The calls made before the field extractors run. -/
def callsToContainer : List Call :=
  [.MustPage, .Sleep, .WaitLoad, .titleProbe, .handleCaptcha, .containerWait]

/-- Go `ScrapeProductDetails`, on the page `page` that `browser.MustPage` opens. -/
def ScrapeProductDetails (lib : Libs) (page : Page) (product : Product) : Outcome :=
  if product.TitleEnglish ≠ [] ∨ product.ScrapedAt.IsZero = false then
    { product := product, err := none, calls := [] }
  else if page.WaitLoad = false then
    { product := product, err := some .loadFailed,
      calls := [.MustPage, .Sleep, .WaitLoad, .MustClose] }
  else if robotCheckDetected lib page then
    { product := product, err := some .robotCheck,
      calls := [.MustPage, .Sleep, .WaitLoad, .titleProbe, .MustClose] }
  else
    match handleCaptcha page with
    | some _ =>
      { product := product, err := some .captchaFailed,
        calls := [.MustPage, .Sleep, .WaitLoad, .titleProbe, .handleCaptcha, .MustClose] }
    | none =>
      match findContainer page with
      | none =>
        { product := product, err := some .noContainer,
          calls := callsToContainer ++ [.MustClose] }
      | some el =>
        if el.WaitVisible = false then
          { product := product, err := some .notVisible,
            calls := callsToContainer ++ [.WaitVisible, .MustClose] }
        else
          let title := extractTitle page
          let prices := extractPrices page
          let images := extractGallery lib page
          let details := extractAllDetailsAsHTML lib page
          { product :=
              { product with
                TitleEnglish := title
                Brand := extractBrand page
                Availability := extractAvailability page
                OriginalPrice := prices.1
                DiscountPrice := prices.2.1
                DiscountPercent := prices.2.2
                MainImageURL := images.1
                GalleryImageURLs := images.2
                Specifications := details.1
                DescriptionEnglish := details.2
                ScrapedAt := page.Now }
            err := if title = [] then some .noTitle else none
            calls := callsToContainer ++
              [.WaitVisible, .extractTitle, .extractBrand, .extractAvailability, .extractPrices,
               .extractGallery, .extractAllDetailsAsHTML, .stampScrapedAt, .MustClose] }

/-! ## The worker of `App.RunDetailScraper` -/

/-- Go `const maxRetries = 3`. -/
def maxRetries : Nat := 3

/-- The retry loop of a worker (`app.go`, lines 99-109) from attempt number `attempt`, with
`maxRetries + 1 - attempt` iterations left in the first argument. `scrape k` is the call of
`amazonScraper.ScrapeProductDetails` at attempt `k`. Returns the record as the loop leaves it
and the outcomes of the calls made, in order. -/
def retryLoop (scrape : Nat → Product → Outcome) : Nat → Nat → Product → Product × List Outcome
  | 0, _, product => (product, [])
  | left + 1, attempt, product =>
    let r := scrape attempt product
    if r.err = none then (r.product, [r])
    else
      let rest := retryLoop scrape left (attempt + 1) r.product
      (rest.1, r :: rest.2)

/-- The body of `for product := range jobs` up to the send: the retry loop from attempt 1. -/
def processJob (scrape : Nat → Product → Outcome) (product : Product) : Product × List Outcome :=
  retryLoop scrape maxRetries 1 product

/-- The call of a worker at attempt `k`: `ScrapeProductDetails` on the page its browser
opens at that attempt. -/
def scrapeWith (lib : Libs) (visit : Nat → Page) (attempt : Nat) (product : Product) : Outcome :=
  ScrapeProductDetails lib (visit attempt) product

/-! ## The worker pool of `App.RunDetailScraper`

The goroutines and the two buffered channels of lines 83-130 as a transition system: one
action is one channel operation (or one run of a worker's retry loop), and a schedule is any
interleaving of them. Every product carries the position it has in `productsToScrape`, a
ghost tag by which the results are traced back to the inputs. Launching a worker's browser is
folded into its `ready` state. -/

/-- A product tagged with its position in `productsToScrape`. -/
abbrev Job := Nat × Product

/-- Where a worker goroutine stands. -/
inductive WorkerState
  /-- At `for product := range jobs`, waiting to receive. -/
  | ready
  /-- Holding a received product, before its retry loop. -/
  | scraping (job : Job)
  /-- After the retry loop, at `results <- product`. -/
  | sending (job : Job)
  /-- Past the `range` loop: `jobs` was closed and drained. -/
  | exited

/-- The job a worker holds, if any. -/
def WorkerState.held : WorkerState → List Job
  | .scraping job => [job]
  | .sending job => [job]
  | _ => []

/-- The state of the pool. -/
structure PoolState where
  /-- The products the main routine has not sent to `jobs` yet (loop of lines 116-118). -/
  toSend : List Job
  /-- Whether `close(jobs)` has run. -/
  jobsClosed : Bool
  /-- The buffer of the channel `jobs`. -/
  jobs : List Job
  /-- The worker goroutines. -/
  workers : List WorkerState
  /-- The buffer of the channel `results`. -/
  results : List Job
  /-- The results the collecting loop has received, in order. -/
  collected : List Job
  /-- The records passed to `UpdateProductDetails`, in order. -/
  updated : List Product

/-- One atomic operation of the main routine or of a worker. -/
inductive Action
  /-- Main: `jobs <- p`. -/
  | send
  /-- Main: `close(jobs)`. -/
  | close
  /-- Worker `w`: receives the next product from `jobs`. -/
  | receive (w : Nat)
  /-- Worker `w`: leaves the `range` loop. -/
  | leave (w : Nat)
  /-- Worker `w`: runs its retry loop; `visit k` is the page its browser opens at attempt `k`. -/
  | scrape (w : Nat) (visit : Nat → Page)
  /-- Worker `w`: `results <- product`. -/
  | emit (w : Nat)
  /-- Main: `detailedProduct := <-results` and the database update. -/
  | collect

/-- The pool when the workers have been started: `K = len(productsToScrape)`. -/
def PoolState.init (productsToScrape : List Product) (numWorkers : Nat) : PoolState :=
  { toSend := productsToScrape.enum
    jobsClosed := false
    jobs := []
    workers := List.replicate numWorkers .ready
    results := []
    collected := []
    updated := [] }

/-- The effect of one action, `none` when the action is not enabled (the goroutine is blocked
or is not at that point). `K` is the capacity of both channels and the bound of the
collecting loop. -/
def PoolState.step (lib : Libs) (K : Nat) (s : PoolState) : Action → Option PoolState
  | .send =>
    match s.toSend with
    | job :: rest =>
      if s.jobs.length < K then some { s with toSend := rest, jobs := s.jobs ++ [job] } else none
    | [] => none
  | .close =>
    if s.toSend = [] ∧ s.jobsClosed = false then some { s with jobsClosed := true } else none
  | .receive w =>
    match s.workers.get? w, s.jobs with
    | some .ready, job :: rest =>
      some { s with jobs := rest, workers := s.workers.set w (.scraping job) }
    | _, _ => none
  | .leave w =>
    match s.workers.get? w with
    | some .ready =>
      if s.jobs = [] ∧ s.jobsClosed = true then
        some { s with workers := s.workers.set w .exited }
      else none
    | _ => none
  | .scrape w visit =>
    match s.workers.get? w with
    | some (.scraping job) =>
      some { s with
        workers := s.workers.set w (.sending (job.1, (processJob (scrapeWith lib visit) job.2).1)) }
    | _ => none
  | .emit w =>
    match s.workers.get? w with
    | some (.sending job) =>
      if s.results.length < K then
        some { s with results := s.results ++ [job], workers := s.workers.set w .ready }
      else none
    | _ => none
  | .collect =>
    if s.jobsClosed = true ∧ s.collected.length < K then
      match s.results with
      | r :: rest =>
        some { s with
          results := rest
          collected := s.collected ++ [r]
          updated := if r.2.TitleEnglish ≠ [] then s.updated ++ [r.2] else s.updated }
      | [] => none
    else none

/-- The state a schedule leads to; `none` when one of its actions is not enabled. -/
def PoolState.run (lib : Libs) (K : Nat) : PoolState → List Action → Option PoolState
  | s, [] => some s
  | s, a :: rest =>
    match s.step lib K a with
    | some s' => PoolState.run lib K s' rest
    | none => none

/-- The main routine is past its collecting loop: the task finishes. -/
def PoolState.finished (K : Nat) (s : PoolState) : Prop :=
  s.jobsClosed = true ∧ s.collected.length = K

/-- Every product sent to `results` so far, in the order sent. -/
def PoolState.sent (s : PoolState) : List Job := s.collected ++ s.results

/-! ## The deals grid crawler: `amazon_deals.go` -/

/-- Go `strings.TrimRight`: drops the trailing characters that belong to `cutset`. -/
def strings.TrimRight (s cutset : Str) : Str :=
  (s.reverse.dropWhile (fun c => cutset.contains c)).reverse

/-- The zero value of `models.Product`. -/
def Product.zero : Product :=
  { ID := 0, SourceSite := [], ProductURL := [], Category := [], Status := [],
    TitleEnglish := [], TitleFarsi := [], DescriptionEnglish := [], DescriptionFarsi := [],
    Brand := [], Availability := [], OriginalPrice := 0, DiscountPrice := 0,
    DiscountPercent := 0, MainImageURL := [], GalleryImageURLs := [], Specifications := [],
    CountryOfOrigin := [], ScrapedAt := ⟨0⟩, PostedToWP := false, WPPostID := 0 }

/-- Go `AmazonDealsScraper`; the browser is the session passed to its methods. -/
structure AmazonDealsScraper where
  BaseURL : Str

/-- Go `NewAmazonDealsScraper`. -/
def NewAmazonDealsScraper (baseURL : Str) : AmazonDealsScraper :=
  { BaseURL := strings.TrimRight baseURL "/".toList }

/-- A product card of the deals grid, by the answers it gives. -/
structure Card where
  /-- The link of the card: `none` when `card.Element("a[data-testid='product-card-link']")`
  fails, else the `href` attribute (`none` when `Attribute` returns a nil pointer). -/
  link : Option (Option Str)
  /-- The text of the title element, when `card.Element("p[id^='title-']")` finds one. -/
  title : Option Str
  /-- The text of the discount badge, when its element is found. -/
  badge : Option Str

/-- What the page shows during one round of the collection loop. -/
structure DealsRound where
  /-- The `scrollHeight` read at the start of the round; `none` when `page.Eval` fails. -/
  previousHeight : Option ℚ
  /-- The product cards currently rendered. -/
  cards : List Card
  /-- Whether the footer holds the end-of-results spacer. -/
  spacer : Bool
  /-- Whether the footer holds the "View more" button. -/
  viewMoreButton : Bool
  /-- The `scrollHeight` read after scrolling; `none` when `page.Eval` fails. -/
  newHeight : Option ℚ

/-- The browser during one call of `ScrapeDealsGrid`. -/
structure DealsSession where
  /-- Whether `stealth.Page` returns an error. -/
  pageErr : Bool
  /-- Whether `page.Navigate` returns an error. -/
  navigateErr : Bool
  /-- What the page shows at each round of the loop. -/
  round : Nat → DealsRound

/-- A match of `(\d+)%` that starts at the head of `s`: its group 1. -/
def discountMatchAt (s : Str) : Option Str :=
  let ds := s.takeWhile utils.isDigit
  if ds = [] then none
  else
    match s.dropWhile utils.isDigit with
    | '%' :: _ => some ds
    | _ => none

/-- Go `discountRe.FindStringSubmatch` for the pattern `(\d+)%`: group 1 of the leftmost
match, `none` when there is no match. -/
def discountReFindStringSubmatch : Str → Option Str
  | [] => none
  | c :: s =>
    match discountMatchAt (c :: s) with
    | some ds => some ds
    | none => discountReFindStringSubmatch s

/-- Lines 210-213 of `ScrapeDealsGrid`: the product URL built from a card `href`. -/
def ScrapeDealsGrid.fullURL (s : AmazonDealsScraper) (href : Str) : Str :=
  if strings.HasPrefix href "http".toList then href
  else s.BaseURL ++ strings.TrimPrefix href "/".toList

/-- Lines 210-228 of `ScrapeDealsGrid`: the stub appended for a card whose `href` is new. -/
def ScrapeDealsGrid.stub (s : AmazonDealsScraper) (href : Str) (card : Card) : Product :=
  let p : Product :=
    { Product.zero with
      ProductURL := ScrapeDealsGrid.fullURL s href, SourceSite := "amazon.ae".toList }
  let p : Product :=
    match card.title with
    | some text => { p with TitleEnglish := strings.TrimSpace text }
    | none => p
  match card.badge with
  | some text =>
    (match discountReFindStringSubmatch text with
     | some m =>
       (match utils.Atoi m with
        | some n => { p with DiscountPercent := n }
        | none => p)
     | none => p)
  | none => p

/-- The loop over the cards of one round (lines 192-230): returns the keys of
`seenProducts` and `products`. -/
def ScrapeDealsGrid.collect (s : AmazonDealsScraper) :
    List Card → List Str → List Product → List Str × List Product
  | [], seenProducts, products => (seenProducts, products)
  | card :: cards, seenProducts, products =>
    match card.link with
    | some (some href) =>
      if href = [] then ScrapeDealsGrid.collect s cards seenProducts products
      else if href ∈ seenProducts then ScrapeDealsGrid.collect s cards seenProducts products
      else
        ScrapeDealsGrid.collect s cards (href :: seenProducts)
          (products ++ [ScrapeDealsGrid.stub s href card])
    | _ => ScrapeDealsGrid.collect s cards seenProducts products

/-- The variables of the collection loop, with two counters kept for the statements. -/
structure DealsState where
  /-- The keys of the map `seenProducts`. -/
  seenProducts : List Str
  products : List Product
  stuckCounter : Int
  /-- The number of iterations of the loop begun so far. -/
  rounds : Nat
  /-- The number of iterations that reached the collection of the cards. -/
  collected : Nat

/-- The collection loop `for i := 0; i < 100; i++` (lines 180-294) from round `i`, with
`100 - i` iterations left in the first argument. -/
def ScrapeDealsGrid.loop (s : AmazonDealsScraper) (page : Nat → DealsRound) :
    Nat → Nat → DealsState → DealsState
  | 0, _, st => st
  | left + 1, i, st =>
    match (page i).previousHeight with
    | none => { st with rounds := st.rounds + 1 }
    | some previousHeight =>
      let r := ScrapeDealsGrid.collect s (page i).cards st.seenProducts st.products
      let st1 : DealsState :=
        { st with
          seenProducts := r.1, products := r.2
          rounds := st.rounds + 1, collected := st.collected + 1 }
      if (page i).spacer = true then st1
      else if (page i).viewMoreButton = true then ScrapeDealsGrid.loop s page left (i + 1) st1
      else
        match (page i).newHeight with
        | none => st1
        | some newHeight =>
          if newHeight = previousHeight then
            if st1.stuckCounter + 1 ≥ 3 then { st1 with stuckCounter := st1.stuckCounter + 1 }
            else
              ScrapeDealsGrid.loop s page left (i + 1)
                { st1 with stuckCounter := st1.stuckCounter + 1 }
          else ScrapeDealsGrid.loop s page left (i + 1) { st1 with stuckCounter := 0 }

/-- The state in which the collection loop of `ScrapeDealsGrid` ends. -/
def ScrapeDealsGrid.run (s : AmazonDealsScraper) (browser : DealsSession) : DealsState :=
  ScrapeDealsGrid.loop s browser.round 100 0
    { seenProducts := [], products := [], stuckCounter := 0, rounds := 0, collected := 0 }

/-- Go `ScrapeDealsGrid`: returns `(products, err)`; `none` is `nil`. -/
def ScrapeDealsGrid (s : AmazonDealsScraper) (browser : DealsSession) :
    List Product × Option Unit :=
  if browser.pageErr = true then ([], some ())
  else if browser.navigateErr = true then ([], some ())
  else ((ScrapeDealsGrid.run s browser).products, none)

/-! ## The deals URL: `BuildDoubleEncodedDealsURL` -/

/-- Go `priceRange` of `BuildDoubleEncodedDealsURL`, with the JSON keys `min` and `max`. -/
structure priceRange where
  Min : Int
  Max : Int
deriving DecidableEq

/-- Go `percentRange` of `BuildDoubleEncodedDealsURL`, with the JSON keys `min` and `max`. -/
structure percentRange where
  Min : Int
  Max : Int
deriving DecidableEq

/-- The map under the key `refinementFilters`. -/
structure RefinementFilters where
  departments : List Str
deriving DecidableEq

/-- The map under the key `rangeRefinementFilters`. -/
structure RangeRefinementFilters where
  price : priceRange
  percentOff : percentRange
deriving DecidableEq

/-- The map under the key `state`. -/
structure PayloadState where
  refinementFilters : RefinementFilters
  rangeRefinementFilters : RangeRefinementFilters
deriving DecidableEq

/-- The value `payload` of `BuildDoubleEncodedDealsURL`. -/
structure Payload where
  state : PayloadState
  version : Int
deriving DecidableEq

/-- The three library functions `BuildDoubleEncodedDealsURL` calls. -/
structure Encoders where
  /-- Go `json.Marshal` on a payload, as text; `none` when it returns an error. -/
  Marshal : Payload → Option Str
  /-- Go `strconv.Quote`. -/
  Quote : Str → Str
  /-- Go `url.QueryEscape`. -/
  QueryEscape : Str → Str

/-- Lines 93-104 of `BuildDoubleEncodedDealsURL`: the payload built from the filters. -/
def BuildDoubleEncodedDealsURL.payload (departmentValue : Str)
    (minPrice maxPrice minOff maxOff : Int) : Payload :=
  { state :=
      { refinementFilters := { departments := [departmentValue] },
        rangeRefinementFilters :=
          { price := { Min := minPrice, Max := maxPrice },
            percentOff := { Min := minOff, Max := maxOff } } },
    version := 1 }

/-- Go `BuildDoubleEncodedDealsURL`: returns `(finalURL, err)`; `none` is `nil`. -/
def BuildDoubleEncodedDealsURL (lib : Encoders) (s : AmazonDealsScraper)
    (departmentValue : Str) (minPrice maxPrice minOff maxOff : Int) : Str × Option Unit :=
  let payload := BuildDoubleEncodedDealsURL.payload departmentValue minPrice maxPrice minOff
    maxOff
  match lib.Marshal payload with
  | none => ([], some ())
  | some jsonString =>
    let quotedJSON := lib.Quote jsonString
    let encodedValue := lib.QueryEscape (lib.QueryEscape quotedJSON)
    let finalURL := s.BaseURL ++ "/deals?discounts-widget=".toList ++ encodedValue
    (finalURL, none)

/-! ## Worker count: `utils/system.go` -/

/-- Go `strconv.Atoi`: an optional sign followed by one or more decimal digits, within the
range of a 64-bit `int`; `none` is a syntax or range error. -/
def strconv.Atoi (s : Str) : Option Int :=
  let neg : Bool := match s with
    | '-' :: _ => true
    | _ => false
  let ds : Str := match s with
    | '-' :: r => r
    | '+' :: r => r
    | _ => s
  if ds = [] then none
  else if ds.all utils.isDigit = false then none
  else if neg = true then
    if utils.digitsValue ds ≤ 2 ^ 63 then some (-(utils.digitsValue ds : Int)) else none
  else if utils.digitsValue ds < 2 ^ 63 then some (utils.digitsValue ds : Int) else none

/-- Lines 23-47 of `GetOptimalWorkerCount`: the count derived from the logical cores;
`cpuCounts` is what `cpu.Counts(true)` returns, `none` when it returns an error. -/
def utils.GetOptimalWorkerCount.auto (cpuCounts : Option Int) : Int :=
  match cpuCounts with
  | none => 2
  | some cpuCores =>
    let optimalCount := Int.tdiv cpuCores 2
    let optimalCount := if optimalCount < 1 then 1 else optimalCount
    let optimalCount := if optimalCount > 16 then 16 else optimalCount
    optimalCount

/-- Go `utils.GetOptimalWorkerCount`. -/
def utils.GetOptimalWorkerCount (cpuCounts : Option Int) (configValue : Str) : Int :=
  match strconv.Atoi configValue with
  | some manualWorkers =>
    if manualWorkers > 0 then manualWorkers else utils.GetOptimalWorkerCount.auto cpuCounts
  | none => utils.GetOptimalWorkerCount.auto cpuCounts

/-! ## `utils/helpers.go` -/

/-- The scan of `strings.ReplaceAll` for a non-empty `old`: `skip` counts the characters of a
replaced occurrence still to pass over. -/
def strings.ReplaceAll.go (old new : Str) : Str → Nat → Str
  | [], _ => []
  | _ :: s, skip + 1 => strings.ReplaceAll.go old new s skip
  | c :: s, 0 =>
    if strings.HasPrefix (c :: s) old then new ++ strings.ReplaceAll.go old new s (old.length - 1)
    else c :: strings.ReplaceAll.go old new s 0

/-- Go `strings.ReplaceAll`: the non-overlapping occurrences of `old`, from the left, replaced
by `new`; an empty `old` matches before every character and at the end. -/
def strings.ReplaceAll (s old new : Str) : Str :=
  if old = [] then new ++ s.flatMap (fun c => c :: new)
  else strings.ReplaceAll.go old new s 0

/-- The Unicode tables of the Go library for the code points from 128 up. -/
structure UnicodeTables where
  /-- The class `\p{L}`. -/
  letter : Char → Bool
  /-- The class `\p{N}`. -/
  number : Char → Bool
  /-- The case table of `unicode.ToLower`. -/
  lower : Char → Char

/-- The regexp class `\p{L}`: the ASCII letters, and the table from 128 up. -/
def unicode.IsLetter (t : UnicodeTables) (c : Char) : Bool :=
  if c.toNat < 128 then (65 ≤ c.toNat ∧ c.toNat ≤ 90) || (97 ≤ c.toNat ∧ c.toNat ≤ 122)
  else t.letter c

/-- The regexp class `\p{N}`: the ASCII digits, and the table from 128 up. -/
def unicode.IsNumber (t : UnicodeTables) (c : Char) : Bool :=
  if c.toNat < 128 then 48 ≤ c.toNat ∧ c.toNat ≤ 57 else t.number c

/-- The class of `slugRegex`, `[^\p{L}\p{N}-]`: neither a letter, nor a number, nor a
hyphen. -/
def utils.slugRegexClass (t : UnicodeTables) (c : Char) : Bool :=
  !(unicode.IsLetter t c || unicode.IsNumber t c || c = '-')

/-- The scan of `slugRegex.ReplaceAllString`: `inMatch` tells whether the previous character
belongs to the match under way. -/
def utils.slugRegexReplaceAllString.go (t : UnicodeTables) (repl : Str) : Str → Bool → Str
  | [], _ => []
  | c :: src, inMatch =>
    if utils.slugRegexClass t c = true then
      (if inMatch = true then utils.slugRegexReplaceAllString.go t repl src true
       else repl ++ utils.slugRegexReplaceAllString.go t repl src true)
    else c :: utils.slugRegexReplaceAllString.go t repl src false

/-- Go `slugRegex.ReplaceAllString` for the pattern `[^\p{L}\p{N}-]+` and a replacement
without `$`: every maximal run of characters of the class is replaced by `repl`. -/
def utils.slugRegexReplaceAllString (t : UnicodeTables) (src repl : Str) : Str :=
  utils.slugRegexReplaceAllString.go t repl src false

/-- Go `utils.CreateSlug`. -/
def utils.CreateSlug (t : UnicodeTables) (title : Str) : Str :=
  let slug := strings.ReplaceAll title " ".toList "-".toList
  let slug := utils.slugRegexReplaceAllString t slug []
  let slug := strings.ToLower t.lower slug
  slug

/-- The loop of `UniqueStrings` (lines 13-18); `keys` lists the keys of the map. -/
def utils.UniqueStrings.loop : List Str → List Str → List Str → List Str
  | [], _, uniqueSlice => uniqueSlice
  | entry :: slice, keys, uniqueSlice =>
    if entry ∈ keys then utils.UniqueStrings.loop slice keys uniqueSlice
    else utils.UniqueStrings.loop slice (entry :: keys) (uniqueSlice ++ [entry])

/-- Go `utils.UniqueStrings`. -/
def utils.UniqueStrings (slice : List Str) : List Str :=
  utils.UniqueStrings.loop slice [] []

/-! ## The ASIN of `App.PublishCompletedProducts` -/

/-- The scan of `strings.Split` for a non-empty `sep`: `skip` counts the characters of a
separator still to pass over, `cur` holds the current part, last character first. -/
def strings.Split.go (sep : Str) : Str → Nat → Str → List Str
  | [], _, cur => [cur.reverse]
  | _ :: s, skip + 1, cur => strings.Split.go sep s skip cur
  | c :: s, 0, cur =>
    if strings.HasPrefix (c :: s) sep then
      cur.reverse :: strings.Split.go sep s (sep.length - 1) []
    else strings.Split.go sep s 0 (c :: cur)

/-- Go `strings.Split`: the parts of `s` between the occurrences of `sep`; an empty `sep`
splits after every character. -/
def strings.Split (s sep : Str) : List Str :=
  if sep = [] then s.map (fun c => [c]) else strings.Split.go sep s 0 []

/-- The loop of lines 286-291 over `parts[i:]`: the ASIN, `""` when no part qualifies. The
index `[0]` of the inner split is always in range. -/
def PublishCompletedProducts.asinLoop : List Str → Str
  | [] => []
  | part :: rest =>
    if (part = "dp".toList ∨ part = "gp".toList) ∧ rest ≠ [] then
      (strings.Split (rest.headD []) "?".toList).headD []
    else PublishCompletedProducts.asinLoop rest

/-- Lines 284-291 of `PublishCompletedProducts`: the ASIN computed from a product URL. -/
def PublishCompletedProducts.asin (ProductURL : Str) : Str :=
  PublishCompletedProducts.asinLoop (strings.Split ProductURL "/".toList)

/-! ## The interactive list scraper: `amazon_list_scraper.go` -/

/-- Go `DepartmentOption`. -/
structure DepartmentOption where
  Value : Str
  Label : Str
deriving DecidableEq

/-- The `int` that Go `strconv.Atoi` returns beside its error: the value read, 0 after a
syntax error, and the nearest bound of a 64-bit `int` after a range error. -/
def strconv.Atoi.int (s : Str) : Int :=
  let neg : Bool := match s with
    | '-' :: _ => true
    | _ => false
  let ds : Str := match s with
    | '-' :: r => r
    | '+' :: r => r
    | _ => s
  if ds = [] then 0
  else if ds.all utils.isDigit = false then 0
  else if neg = true then
    if utils.digitsValue ds ≤ 2 ^ 63 then -(utils.digitsValue ds : Int) else -(2 ^ 63)
  else if utils.digitsValue ds < 2 ^ 63 then (utils.digitsValue ds : Int) else 2 ^ 63 - 1

/-- Lines 41-46 of `ScrapeProductList`: the department chosen from the typed line; `none` is
the panic of an index out of range in `departments[depIdx-1]`. -/
def ScrapeProductList.chosenDept (departments : List DepartmentOption) (depInput : Str) :
    Option DepartmentOption :=
  let depIdx := strconv.Atoi.int (strings.TrimSpace depInput)
  let depIdx := if depIdx < 1 ∨ depIdx > (departments.length : Int) then 1 else depIdx
  if 0 ≤ depIdx - 1 then departments[(depIdx - 1).toNat]? else none

/-- The ways a call of `ScrapeProductList` ends. -/
inductive ListOutcome
  /-- The index `departments[depIdx-1]` is out of range. -/
  | panic
  /-- An error is returned. -/
  | error
  /-- The products are returned with a `nil` error. -/
  | ok (products : List Product)
deriving DecidableEq

/-- The lines read from the standard input, in the order of the prompts. -/
structure TypedLines where
  depInput : Str
  minPriceStr : Str
  maxPriceStr : Str
  minOffStr : Str
  maxOffStr : Str

/-- Go `ScrapeProductList`: `collected` is what `CollectDepartments` returns (`none` for an
error), `browser` the session of the grid crawl. The browser launches are taken to return. -/
def ScrapeProductList (lib : Encoders) (BaseURL : Str)
    (collected : Option (List DepartmentOption)) (typed : TypedLines)
    (browser : DealsSession) : ListOutcome :=
  match collected with
  | none => .error
  | some departments =>
    if departments.length = 0 then .error
    else
      match ScrapeProductList.chosenDept departments typed.depInput with
      | none => .panic
      | some chosenDept =>
        let minPrice := strconv.Atoi.int (strings.TrimSpace typed.minPriceStr)
        let maxPrice := strconv.Atoi.int (strings.TrimSpace typed.maxPriceStr)
        let minOff := strconv.Atoi.int (strings.TrimSpace typed.minOffStr)
        let maxOff := strconv.Atoi.int (strings.TrimSpace typed.maxOffStr)
        let dealsScraperForGrid := NewAmazonDealsScraper BaseURL
        match BuildDoubleEncodedDealsURL lib dealsScraperForGrid chosenDept.Value minPrice
            maxPrice minOff maxOff with
        | (_, some _) => .error
        | (_, none) =>
          match ScrapeDealsGrid dealsScraperForGrid browser with
          | (_, some _) => .error
          | (products, none) =>
            .ok (products.map (fun p =>
              { p with Category := chosenDept.Label, SourceSite := "amazon.ae".toList }))

/-! ## `models.JSONStringSlice` -/

/-- Go `JSONStringSlice`, a `[]string`: `none` is the nil slice. -/
abbrev JSONStringSlice := Option (List Str)

/-- Go `driver.Value`, by the dynamic types `Scan` tells apart. -/
inductive DriverValue
  /-- The value `nil`. -/
  | null
  /-- A `[]byte`. -/
  | bytes (v : Str)
  /-- A `string`. -/
  | string (v : Str)
  /-- A value of any other type: `int64`, `float64`, `bool`, `time.Time`. -/
  | other
deriving DecidableEq

/-- The two functions of `encoding/json` that `JSONStringSlice` calls. -/
structure JSONLib where
  /-- Go `json.Marshal` on a non-nil `[]string`; `none` when it returns an error. -/
  Marshal : List Str → Option Str
  /-- Go `json.Unmarshal(bytes, j)`: the receiver after the call, from the receiver before
  it, and the error (`none` is `nil`). -/
  Unmarshal : Str → JSONStringSlice → JSONStringSlice × Option Unit

/-- Go `JSONStringSlice.Value`: returns `(value, err)`. -/
def JSONStringSlice.Value (lib : JSONLib) (j : JSONStringSlice) : DriverValue × Option Unit :=
  match j with
  | none => (.null, none)
  | some strings =>
    match lib.Marshal strings with
    | some text => (.bytes text, none)
    | none => (.bytes [], some ())

/-- Go `JSONStringSlice.Scan`: returns the receiver after the call and the error. -/
def JSONStringSlice.Scan (lib : JSONLib) (j : JSONStringSlice) (value : DriverValue) :
    JSONStringSlice × Option Unit :=
  match value with
  | .null => (none, none)
  | .bytes v => lib.Unmarshal v j
  | .string v => lib.Unmarshal v j
  | .other => (j, some ())

/-! ## Notions used to state the properties -/

/-- The text `mid` spells the lower-case ASCII `marker` up to the case of its letters. -/
def SpellsAnyCase (mid marker : Str) : Prop :=
  List.Forall₂ (fun c m => c = m ∨ (97 ≤ m.toNat ∧ m.toNat ≤ 122 ∧ c.toNat + 32 = m.toNat))
    mid marker

/-- The text contains `marker` in some letter case. -/
def ContainsAnyCase (text marker : Str) : Prop :=
  ∃ pre mid post, text = pre ++ mid ++ post ∧ SpellsAnyCase mid marker

/-- The bracket depth of a text: the number of `[` minus the number of `]` in it. -/
def bracketDepth (s : Str) : Int := (s.count '[' : Int) - (s.count ']' : Int)

/-- The text is balanced in `[` and `]`: as many of each, and no prefix closes more than it
opens. In `'[' :: body ++ [']']` with `body` balanced, the last `]` matches the first `[`. -/
def Balanced (s : Str) : Prop :=
  bracketDepth s = 0 ∧ ∀ n, 0 ≤ bracketDepth (s.take n)

/-- The entries of a list at the first occurrence of each value, in order. -/
def keepFirst : List Str → List Str
  | [] => []
  | x :: xs => x :: (keepFirst xs).filter (fun y => y ≠ x)

/-- The extractor calls of `ScrapeProductDetails`. -/
def Call.isExtractor : Call → Bool
  | .extractTitle | .extractBrand | .extractAvailability | .extractPrices
  | .extractGallery | .extractAllDetailsAsHTML => true
  | _ => false

/-- A full pass: the page was opened and every field extractor ran. -/
def Outcome.fullPass (o : Outcome) : Bool :=
  decide (Call.MustPage ∈ o.calls) && decide (Call.extractTitle ∈ o.calls) &&
    decide (Call.extractAllDetailsAsHTML ∈ o.calls)

/-- The jobs the workers of a list hold, in the order of the workers. -/
def heldJobs : List WorkerState → List Job
  | [] => []
  | x :: xs => x.held ++ heldJobs xs

/-- The jobs that were received from `jobs` and whose result is not yet in `results`. -/
def PoolState.inFlight (s : PoolState) : List Job := heldJobs s.workers

/-- The number of actions still due to a worker and the job it holds: leave; scrape, emit,
collect and leave; emit, collect and leave; none. -/
def WorkerState.weight : WorkerState → Nat
  | .ready => 1
  | .scraping _ => 4
  | .sending _ => 3
  | .exited => 0

/-- The sum of the weights of the workers of a list. -/
def totalWeight : List WorkerState → Nat
  | [] => 0
  | x :: xs => x.weight + totalWeight xs

/-- An upper bound on the number of actions the pool can still perform: it decreases by one
at every action. A product waiting in `toSend` still needs send, receive, scrape, emit and
collect; one in `jobs` the last four; one in `results` the last one. -/
def PoolState.measure (s : PoolState) : Nat :=
  5 * s.toSend.length + (if s.jobsClosed = true then 0 else 1) + 4 * s.jobs.length +
    totalWeight s.workers + s.results.length

/-- The invariant of the pool for the input `productsToScrape` and `numWorkers` workers. -/
structure PoolState.Inv (lib : Libs) (productsToScrape : List Product) (numWorkers : Nat)
    (s : PoolState) : Prop where
  /-- Every input is at exactly one place of the pipeline. -/
  len : s.toSend.length + s.jobs.length + s.inFlight.length + s.results.length +
    s.collected.length = productsToScrape.length
  /-- Every position of the input occurs once among the tags in the pipeline. -/
  cnt : ∀ i : Nat, (s.toSend.map Prod.fst).count i + (s.jobs.map Prod.fst).count i +
    (s.inFlight.map Prod.fst).count i + (s.results.map Prod.fst).count i +
    (s.collected.map Prod.fst).count i = (List.range productsToScrape.length).count i
  /-- The channel is closed only after the last send. -/
  closed : s.jobsClosed = true → s.toSend = []
  /-- A worker leaves only when the channel is closed and drained. -/
  exited : WorkerState.exited ∈ s.workers → s.jobs = [] ∧ s.jobsClosed = true
  /-- The number of worker goroutines. -/
  size : s.workers.length = numWorkers
  /-- What has not been scraped yet is the input at its tag. -/
  raw : ∀ job : Job, (job ∈ s.toSend ∨ job ∈ s.jobs ∨ WorkerState.scraping job ∈ s.workers) →
    productsToScrape.get? job.1 = some job.2
  /-- What has been scraped is the input at its tag after a worker's retry loop. -/
  scraped : ∀ job : Job,
    (WorkerState.sending job ∈ s.workers ∨ job ∈ s.results ∨ job ∈ s.collected) →
    ∃ (visit : Nat → Page) (p : Product),
      productsToScrape.get? job.1 = some p ∧ job.2 = (processJob (scrapeWith lib visit) p).1

/-- The integer nearest to `x`, a half rounding up. -/
def roundNearest (x : ℚ) : Int := ⌊x + 1 / 2⌋

/-- The number of significant digits of a decimal numeral: its digits from the first non-zero
one on. -/
def significantDigits (numeral : Str) : Nat :=
  ((numeral.filter utils.isDigit).dropWhile (fun c => c == '0')).length

/-- The value of a decimal numeral, commas ignored: its digits read as one integer, divided by
ten to the number of digits after the point. -/
def decimalValue (numeral : Str) : ℚ :=
  (utils.digitsValue (numeral.filter utils.isDigit) : ℚ) /
    10 ^ (((numeral.dropWhile (fun c => c != '.')).drop 1).filter utils.isDigit).length

/-- The cards of the first `n` rounds of a crawl, in the order met. -/
def cardsMet (page : Nat → DealsRound) : Nat → List Card
  | 0 => []
  | n + 1 => cardsMet page n ++ (page n).cards

/-- The non-empty link `href` of a card, with the card; `none` when the card has no link, no
`href` or an empty one. -/
def Card.linked (card : Card) : Option (Str × Card) :=
  match card.link with
  | some (some href) => if href = [] then none else some (href, card)
  | _ => none

/-- The entries of a list of keyed items at the first occurrence of each key, in order. -/
def firstEncounters : List (Str × Card) → List (Str × Card)
  | [] => []
  | x :: xs => x :: (firstEncounters xs).filter (fun y => y.1 ≠ x.1)

/-- A scroll-based round whose height is unchanged: the footer shows neither the end marker
nor the load-more button, and the height read after scrolling is the one read at the start. -/
def DealsRound.stuck (r : DealsRound) : Prop :=
  r.spacer = false ∧ r.viewMoreButton = false ∧
    ∃ h : ℚ, r.previousHeight = some h ∧ r.newHeight = some h

/-- A round that gives the loop no reason to stop: the height is read, the end marker is
absent, and either the load-more button is there or the height read after scrolling has
changed. -/
def DealsRound.goesOn (r : DealsRound) : Prop :=
  r.spacer = false ∧ ∃ h : ℚ, r.previousHeight = some h ∧
    (r.viewMoreButton = true ∨ ∃ h' : ℚ, r.newHeight = some h' ∧ h' ≠ h)

/-- The library functions that read back what the encoders of `BuildDoubleEncodedDealsURL`
write; `none` is an error. -/
structure Decoders where
  /-- Go `url.QueryUnescape`. -/
  QueryUnescape : Str → Option Str
  /-- Go `strconv.Unquote`. -/
  Unquote : Str → Option Str
  /-- Go `json.Unmarshal` into a payload. -/
  Unmarshal : Str → Option Payload

/-- The reading of a `discounts-widget` value: percent-decoded twice, unquoted, and decoded
as JSON. -/
def Decoders.readWidget (dec : Decoders) (v : Str) : Option Payload :=
  (((dec.QueryUnescape v).bind dec.QueryUnescape).bind dec.Unquote).bind dec.Unmarshal

/-- A load-more round: the height is read at the start, the end marker is absent and the
footer shows the load-more button, which the crawler clicks. -/
def DealsRound.loadMore (r : DealsRound) : Prop :=
  r.spacer = false ∧ r.viewMoreButton = true ∧ ∃ h : ℚ, r.previousHeight = some h

/-- The `k` most recent scroll-based rounds before round `i` are rounds with an unchanged
height: every round between them, and between the last of them and round `i`, is a load-more
round. -/
def stuckChain (page : Nat → DealsRound) : Nat → Nat → Prop
  | 0, _ => True
  | k + 1, i =>
    ∃ j, j < i ∧ (page j).stuck ∧ (∀ m, j < m → m < i → (page m).loadMore) ∧
      stuckChain page k j

/-! ## Sample data -/

/-- An element with the given text, visible and clickable. -/
def sampleElement (text : String) : Element :=
  { Text := some text.toList, HTML := some text.toList, WaitVisible := true, Click := true }

/-- A page that answers `Has` by `false`, holds the listed elements, one poll of scripts, and
is stamped at tick 1700000000. -/
def samplePage (elements : List (String × String)) (scripts : List String) : Page :=
  { WaitLoad := true
    Has := fun sel => some (elements.any (fun e => e.1.toList == sel))
    Element := fun sel =>
      (elements.find? (fun e => e.1.toList == sel)).map (fun e => sampleElement e.2)
    Scripts := [some (scripts.map (fun h => some h.toList))]
    Now := ⟨1700000000⟩ }

/-- Libraries whose image parser returns a fixed array. -/
def sampleLibs (images : Option (List ImageInfo)) : Libs :=
  { lowerTable := id, unmarshalImages := fun _ => images, cleanHTML := id }

/-- An image descriptor with the given `hiRes` value. -/
def sampleImage (hiRes : String) : ImageInfo :=
  { HiRes := hiRes.toList, Thumb := [], Large := [], Main := [] }

/-- A record as the list scraper stores it: URL and category only. -/
def sampleProduct (url : String) : Product :=
  { ID := 1, SourceSite := "amazon".toList, ProductURL := url.toList,
    Category := "Electronics".toList, Status := "needs_details".toList, TitleEnglish := [],
    TitleFarsi := [], DescriptionEnglish := [], DescriptionFarsi := [], Brand := [],
    Availability := [], OriginalPrice := 0, DiscountPrice := 0, DiscountPercent := 0,
    MainImageURL := [], GalleryImageURLs := [], Specifications := [], CountryOfOrigin := [],
    ScrapedAt := ⟨0⟩, PostedToWP := false, WPPostID := 0 }

/-- The container and the price elements of a discounted product page. -/
def sampleOffer : List (String × String) :=
  [("#ppd", ""), (".priceToPay .a-offscreen", "AED 80.00"),
   ("span[data-a-strike='true'] .a-offscreen", "AED 100.00"), (".savingsPercentage", "-20%")]

/-- A product page without a `#productTitle` element. -/
def pageWithoutTitle : Page := samplePage sampleOffer []

/-- A product page with a title. -/
def pageWithTitle : Page := samplePage (("#productTitle", " Widget ") :: sampleOffer) []

/-- The interstitial page of the bot defence. -/
def pageRobotCheck : Page := samplePage [("title", "Robot Check")] []

/-- A card that carries only a link. -/
def sampleCard (href : String) : Card :=
  { link := some (some href.toList), title := none, badge := none }

/-- A round that shows the given cards and footer, with the two heights read. -/
def sampleRound (cards : List Card) (spacer viewMoreButton : Bool) (previousHeight
    newHeight : ℚ) : DealsRound :=
  { previousHeight := some previousHeight, cards := cards, spacer := spacer,
    viewMoreButton := viewMoreButton, newHeight := some newHeight }

/-- A crawl of two rounds: the first shows two cards and the load-more button, the second
shows the first card again with a third one, and the end marker. -/
def sampleDeals : DealsSession :=
  { pageErr := false, navigateErr := false,
    round := fun i =>
      if i = 0 then sampleRound [sampleCard "/dp/B0A", sampleCard "/dp/B0B"] false true 900 900
      else sampleRound [sampleCard "/dp/B0A", sampleCard "/dp/B0C"] true false 1800 1800 }

/-- A crawl of one round whose two cards link the same item, with and without the leading
slash. -/
def sampleTwoForms : DealsSession :=
  { pageErr := false, navigateErr := false,
    round := fun _ => sampleRound [sampleCard "/dp/B0X", sampleCard "dp/B0X"] true false 900 900 }

/-- A crawl whose page never grows: every round scrolls and reads the same height. -/
def sampleStuck : DealsSession :=
  { pageErr := false, navigateErr := false,
    round := fun _ => sampleRound [sampleCard "/dp/B0A"] false false 900 900 }

/-- A crawl whose footer always shows the load-more button. -/
def sampleEndless : DealsSession :=
  { pageErr := false, navigateErr := false,
    round := fun _ => sampleRound [sampleCard "/dp/B0A"] false true 900 900 }

/-- The scraper of the site. -/
def sampleScraper : AmazonDealsScraper :=
  NewAmazonDealsScraper "https://www.amazon.ae/".toList

/-- The UTF-8 encoding of a character, as byte values. -/
def sampleUtf8 (c : Char) : List Nat :=
  let n := c.toNat
  if n < 0x80 then [n]
  else if n < 0x800 then [0xC0 + n / 64, 0x80 + n % 64]
  else if n < 0x10000 then [0xE0 + n / 4096, 0x80 + n / 64 % 64, 0x80 + n % 64]
  else [0xF0 + n / 262144, 0x80 + n / 4096 % 64, 0x80 + n / 64 % 64, 0x80 + n % 64]

/-- The upper-case hexadecimal digit of a value below 16. -/
def sampleHex (n : Nat) : Char := if n < 10 then Char.ofNat (48 + n) else Char.ofNat (55 + n)

/-- The value of a hexadecimal digit. -/
def sampleUnhex (c : Char) : Option Nat :=
  if 48 ≤ c.toNat ∧ c.toNat ≤ 57 then some (c.toNat - 48)
  else if 65 ≤ c.toNat ∧ c.toNat ≤ 70 then some (c.toNat - 55)
  else if 97 ≤ c.toNat ∧ c.toNat ≤ 102 then some (c.toNat - 87)
  else none

/-- The characters `url.QueryEscape` leaves as they are: letters, digits, `-`, `_`, `.`
and `~`. -/
def sampleUnreserved (c : Char) : Bool :=
  (97 ≤ c.toNat ∧ c.toNat ≤ 122) || (65 ≤ c.toNat ∧ c.toNat ≤ 90) ||
  (48 ≤ c.toNat ∧ c.toNat ≤ 57) || c = '-' || c = '_' || c = '.' || c = '~'

/-- A byte as `%XX`. -/
def samplePercent (b : Nat) : Str := ['%', sampleHex (b / 16), sampleHex (b % 16)]

/-- Percent-encoding as `url.QueryEscape` does it: a space becomes `+`, and every other
character outside the unreserved ones becomes the `%XX` of its UTF-8 bytes. -/
def sampleQueryEscape (s : Str) : Str :=
  s.flatMap (fun c =>
    if sampleUnreserved c = true then [c]
    else if c = ' ' then ['+']
    else (sampleUtf8 c).flatMap samplePercent)

/-- The bytes a percent-encoded text stands for. -/
def sampleUnescapeBytes : Str → Option (List Nat)
  | [] => some []
  | c :: rest =>
    if c = '%' then
      match rest with
      | h :: l :: rest' =>
        (match sampleUnhex h, sampleUnhex l, sampleUnescapeBytes rest' with
         | some a, some b, some bs => some ((16 * a + b) :: bs)
         | _, _, _ => none)
      | _ => none
    else if c = '+' then (sampleUnescapeBytes rest).map (fun bs => 32 :: bs)
    else (sampleUnescapeBytes rest).map (fun bs => sampleUtf8 c ++ bs)

/-- The characters a sequence of UTF-8 bytes stands for. -/
def sampleUtf8Decode : List Nat → Option Str
  | [] => some []
  | b0 :: bs =>
    if b0 < 0x80 then (sampleUtf8Decode bs).map (fun s => Char.ofNat b0 :: s)
    else if b0 < 0xC0 then none
    else if b0 < 0xE0 then
      match bs with
      | b1 :: r =>
        (sampleUtf8Decode r).map
          (fun s => Char.ofNat ((b0 - 0xC0) * 64 + (b1 - 0x80)) :: s)
      | _ => none
    else if b0 < 0xF0 then
      match bs with
      | b1 :: b2 :: r =>
        (sampleUtf8Decode r).map
          (fun s => Char.ofNat ((b0 - 0xE0) * 4096 + (b1 - 0x80) * 64 + (b2 - 0x80)) :: s)
      | _ => none
    else
      match bs with
      | b1 :: b2 :: b3 :: r =>
        (sampleUtf8Decode r).map
          (fun s =>
            Char.ofNat
              ((b0 - 0xF0) * 262144 + (b1 - 0x80) * 4096 + (b2 - 0x80) * 64 + (b3 - 0x80)) :: s)
      | _ => none

/-- Percent-decoding as `url.QueryUnescape` does it. -/
def sampleQueryUnescape (s : Str) : Option Str :=
  (sampleUnescapeBytes s).bind sampleUtf8Decode

/-- Quoting as `strconv.Quote` does it on printable text: the text between double quotes,
with `\"`, `\\`, `\n`, `\r` and `\t` for the quote, the backslash, the line feed, the
carriage return and the tab. -/
def sampleQuote (s : Str) : Str :=
  '"' :: s.flatMap (fun c =>
    if c = '"' then ['\\', '"']
    else if c = '\\' then ['\\', '\\']
    else if c = '\n' then ['\\', 'n']
    else if c = '\r' then ['\\', 'r']
    else if c = '\t' then ['\\', 't']
    else [c]) ++ ['"']

/-- The text after the opening quote of a quoted string, read up to the closing quote, which
must end the input. -/
def sampleUnquoteBody : Str → Option Str
  | [] => none
  | c :: rest =>
    if c = '"' then (if rest = [] then some [] else none)
    else if c = '\\' then
      match rest with
      | e :: rest' =>
        if e = '"' then (sampleUnquoteBody rest').map (fun s => '"' :: s)
        else if e = '\\' then (sampleUnquoteBody rest').map (fun s => '\\' :: s)
        else if e = 'n' then (sampleUnquoteBody rest').map (fun s => '\n' :: s)
        else if e = 'r' then (sampleUnquoteBody rest').map (fun s => '\r' :: s)
        else if e = 't' then (sampleUnquoteBody rest').map (fun s => '\t' :: s)
        else none
      | [] => none
    else (sampleUnquoteBody rest).map (fun s => c :: s)

/-- Unquoting as `strconv.Unquote` does it on what `sampleQuote` writes. -/
def sampleUnquote : Str → Option Str
  | [] => none
  | c :: body => if c = '"' then sampleUnquoteBody body else none

/-- The decimal digits of a number, most significant first, with fuel for the recursion. -/
def sampleDigits : Nat → Nat → Str
  | 0, _ => []
  | fuel + 1, n =>
    if n < 10 then [Char.ofNat (48 + n)]
    else sampleDigits fuel (n / 10) ++ [Char.ofNat (48 + n % 10)]

/-- An integer in decimal, as `json.Marshal` writes it. -/
def sampleItoa (i : Int) : Str :=
  if i < 0 then '-' :: sampleDigits (i.natAbs + 1) i.natAbs
  else sampleDigits (i.natAbs + 1) i.natAbs

/-- A string as `json.Marshal` writes it: between double quotes, with `\"` and `\\` for the
quote and the backslash and `\u003c`, `\u003e`, `\u0026` for `<`, `>` and `&`. -/
def sampleJSONString (s : Str) : Str :=
  '"' :: s.flatMap (fun c =>
    if c = '"' then ['\\', '"']
    else if c = '\\' then ['\\', '\\']
    else if c = '<' then "\\u003c".toList
    else if c = '>' then "\\u003e".toList
    else if c = '&' then "\\u0026".toList
    else [c]) ++ ['"']

/-- The strings of a JSON array, separated by commas. -/
def sampleJSONStrings : List Str → Str
  | [] => []
  | [s] => sampleJSONString s
  | s :: rest => sampleJSONString s ++ ',' :: sampleJSONStrings rest

/-- The payload as `json.Marshal` writes it: map keys in sorted order, struct fields in
the order of their declaration. -/
def sampleMarshal (p : Payload) : Option Str :=
  some ("\x7b\"state\":\x7b\"rangeRefinementFilters\":\x7b\"percentOff\":\x7b\"min\":".toList ++
    sampleItoa p.state.rangeRefinementFilters.percentOff.Min ++ ",\"max\":".toList ++
    sampleItoa p.state.rangeRefinementFilters.percentOff.Max ++
    "\x7d,\"price\":\x7b\"min\":".toList ++
    sampleItoa p.state.rangeRefinementFilters.price.Min ++ ",\"max\":".toList ++
    sampleItoa p.state.rangeRefinementFilters.price.Max ++
    "\x7d\x7d,\"refinementFilters\":\x7b\"departments\":[".toList ++
    sampleJSONStrings p.state.refinementFilters.departments ++
    "]\x7d\x7d,\"version\":".toList ++ sampleItoa p.version ++ "\x7d".toList)

/-- The input after a literal that it must begin with. -/
def sampleExpect (lit s : Str) : Option Str :=
  if strings.HasPrefix s lit = true then some (s.drop lit.length) else none

/-- A decimal integer at the head of the input, and the input after it. -/
def sampleReadInt (s : Str) : Option (Int × Str) :=
  match s with
  | [] => none
  | c :: rest =>
    if c = '-' then
      (if rest.takeWhile utils.isDigit = [] then none
       else some (-(utils.digitsValue (rest.takeWhile utils.isDigit) : Int),
         rest.dropWhile utils.isDigit))
    else
      (if s.takeWhile utils.isDigit = [] then none
       else some ((utils.digitsValue (s.takeWhile utils.isDigit) : Int),
         s.dropWhile utils.isDigit))

/-- A JSON string read after its opening quote, and the input after its closing quote. -/
def sampleReadString : Str → Option (Str × Str)
  | [] => none
  | c :: rest =>
    if c = '"' then some ([], rest)
    else if c = '\\' then
      match rest with
      | 'u' :: '0' :: '0' :: x :: y :: rest' =>
        if x = '3' ∧ y = 'c' then (sampleReadString rest').map (fun r => ('<' :: r.1, r.2))
        else if x = '3' ∧ y = 'e' then
          (sampleReadString rest').map (fun r => ('>' :: r.1, r.2))
        else if x = '2' ∧ y = '6' then
          (sampleReadString rest').map (fun r => ('&' :: r.1, r.2))
        else none
      | e :: rest' =>
        if e = '"' then (sampleReadString rest').map (fun r => ('"' :: r.1, r.2))
        else if e = '\\' then (sampleReadString rest').map (fun r => ('\\' :: r.1, r.2))
        else none
      | [] => none
    else (sampleReadString rest).map (fun r => (c :: r.1, r.2))

/-- The payload read from the text `sampleMarshal` writes for one department and
version 1. -/
def sampleUnmarshal (j : Str) : Option Payload :=
  (sampleExpect
    "\x7b\"state\":\x7b\"rangeRefinementFilters\":\x7b\"percentOff\":\x7b\"min\":".toList
    j).bind fun s1 =>
  (sampleReadInt s1).bind fun minOff =>
  (sampleExpect ",\"max\":".toList minOff.2).bind fun s2 =>
  (sampleReadInt s2).bind fun maxOff =>
  (sampleExpect "\x7d,\"price\":\x7b\"min\":".toList maxOff.2).bind fun s3 =>
  (sampleReadInt s3).bind fun minPrice =>
  (sampleExpect ",\"max\":".toList minPrice.2).bind fun s4 =>
  (sampleReadInt s4).bind fun maxPrice =>
  (sampleExpect "\x7d\x7d,\"refinementFilters\":\x7b\"departments\":[\"".toList
    maxPrice.2).bind fun s5 =>
  (sampleReadString s5).bind fun department =>
  if department.2 = "]\x7d\x7d,\"version\":1\x7d".toList then
    some (BuildDoubleEncodedDealsURL.payload department.1 minPrice.1 maxPrice.1 minOff.1
      maxOff.1)
  else none

/-- The encoders, on the text of a deals filter. -/
def sampleEncoders : Encoders :=
  { Marshal := sampleMarshal, Quote := sampleQuote, QueryEscape := sampleQueryEscape }

/-- The decoders that read back what `sampleEncoders` writes. -/
def sampleDecoders : Decoders :=
  { QueryUnescape := sampleQueryUnescape, Unquote := sampleUnquote,
    Unmarshal := sampleUnmarshal }

/-- Tables that hold the Persian letters and the Persian digits beyond ASCII, with no case
pairs. -/
def sampleTables : UnicodeTables :=
  { letter := fun c => 0x0621 ≤ c.toNat ∧ c.toNat ≤ 0x064A ∨ 0x066E ≤ c.toNat ∧ c.toNat ≤ 0x06D3,
    number := fun c => 0x06F0 ≤ c.toNat ∧ c.toNat ≤ 0x06F9,
    lower := id }

/-- A crawl whose page never grows and whose third round shows the load-more button: rounds
0, 1 and 3 scroll and read the same height, round 2 clicks the button. -/
def sampleInterleaved : DealsSession :=
  { pageErr := false, navigateErr := false,
    round := fun i =>
      if i = 2 then sampleRound [sampleCard "/dp/B0A"] false true 900 900
      else sampleRound [sampleCard "/dp/B0A"] false false 900 900 }

/-- Three departments. -/
def sampleDepartments : List DepartmentOption :=
  [{ Value := "all".toList, Label := "All".toList },
   { Value := "15387140031".toList, Label := "Electronics".toList },
   { Value := "15194571031".toList, Label := "Home".toList }]

/-- A `[]string` as `json.Marshal` writes it. -/
def sampleMarshalStrings (strings : List Str) : Option Str :=
  some ('[' :: sampleJSONStrings strings ++ [']'])

/-- The strings of a JSON array read from its first string on, up to the closing bracket,
which must end the input. -/
def sampleReadStrings : Nat → Str → Option (List Str)
  | 0, _ => none
  | fuel + 1, text =>
    match text with
    | [] => none
    | c :: t =>
      if c = '"' then
        match sampleReadString t with
        | some (s, rest) =>
          (match rest with
           | [] => none
           | d :: rest' =>
             if d = ']' then (if rest' = [] then some [s] else none)
             else if d = ',' then (sampleReadStrings fuel rest').map (fun l => s :: l)
             else none)
        | none => none
      else none

/-- Reading a `[]string` back as `json.Unmarshal` does it on what `sampleMarshalStrings`
writes and on `null`; on any other text the receiver is left as it was. -/
def sampleUnmarshalStrings (text : Str) (j : JSONStringSlice) : JSONStringSlice × Option Unit :=
  if text = "null".toList then (none, none)
  else
    match text with
    | [] => (j, some ())
    | c :: t =>
      if c = '[' then
        (if t = [']'] then (some [], none)
         else
           match sampleReadStrings t.length t with
           | some l => (some l, none)
           | none => (j, some ()))
      else (j, some ())

/-- The JSON library on slices of strings. -/
def sampleJSONLib : JSONLib :=
  { Marshal := sampleMarshalStrings, Unmarshal := sampleUnmarshalStrings }

/-! ## The retry loop -/

theorem retryLoop_length_le (scrape : Nat → Product → Outcome) :
    ∀ (left attempt : Nat) (product : Product),
      (retryLoop scrape left attempt product).2.length ≤ left := by
  intro left
  induction left with
  | zero => intro attempt product; simp [retryLoop]
  | succ n ih =>
    intro attempt product
    unfold retryLoop
    by_cases h : (scrape attempt product).err = none
    · simp [h]
    · simp only [h, if_false, List.length_cons]
      exact Nat.succ_le_succ (ih _ _)

theorem retryLoop_head (scrape : Nat → Product → Outcome) (left attempt : Nat)
    (product : Product) :
    (retryLoop scrape (left + 1) attempt product).2.head? = some (scrape attempt product) := by
  unfold retryLoop
  by_cases h : (scrape attempt product).err = none <;> simp [h]

theorem retryLoop_dropLast_err (scrape : Nat → Product → Outcome) :
    ∀ (left attempt : Nat) (product : Product),
      ∀ o ∈ (retryLoop scrape left attempt product).2.dropLast, o.err ≠ none := by
  intro left
  induction left with
  | zero => intro attempt product; simp [retryLoop]
  | succ n ih =>
    intro attempt product
    unfold retryLoop
    by_cases h : (scrape attempt product).err = none
    · simp [h]
    · simp only [h, if_false]
      intro o ho
      cases hrest : (retryLoop scrape n (attempt + 1) (scrape attempt product).product).2 with
      | nil => simp [hrest] at ho
      | cons x xs =>
        rw [hrest, List.dropLast_cons₂] at ho
        rcases List.mem_cons.mp ho with rfl | ho
        · exact h
        · exact ih (attempt + 1) (scrape attempt product).product o (by rw [hrest]; exact ho)

theorem retryLoop_all_err (scrape : Nat → Product → Outcome) :
    ∀ (left attempt : Nat) (product : Product),
      (∀ o ∈ (retryLoop scrape left attempt product).2, o.err ≠ none) →
      (retryLoop scrape left attempt product).2.length = left := by
  intro left
  induction left with
  | zero => intro attempt product _; simp [retryLoop]
  | succ n ih =>
    intro attempt product
    unfold retryLoop
    by_cases h : (scrape attempt product).err = none
    · simp [h]
    · simp only [h, if_false, List.length_cons]
      intro hall
      rw [ih (attempt + 1) _ (fun o ho => hall o (List.mem_cons_of_mem _ ho))]

theorem retryLoop_short (scrape : Nat → Product → Outcome) :
    ∀ (left attempt : Nat) (product : Product),
      (retryLoop scrape left attempt product).2.length < left →
      ∃ o, (retryLoop scrape left attempt product).2.getLast? = some o ∧ o.err = none := by
  intro left
  induction left with
  | zero => intro attempt product h; simp at h
  | succ n ih =>
    intro attempt product
    unfold retryLoop
    by_cases h : (scrape attempt product).err = none
    · simp [h]
    · simp only [h, if_false, List.length_cons]
      intro hlt
      obtain ⟨o, ho, herr⟩ := ih (attempt + 1) (scrape attempt product).product (by omega)
      refine ⟨o, ?_, herr⟩
      cases hrest : (retryLoop scrape n (attempt + 1) (scrape attempt product).product).2 with
      | nil => rw [hrest] at ho; simp at ho
      | cons x xs => rw [hrest] at ho; rw [List.getLast?_cons_cons]; exact ho

theorem retryLoop_last (scrape : Nat → Product → Outcome) :
    ∀ (left attempt : Nat) (product : Product),
      (retryLoop scrape (left + 1) attempt product).2.getLast?.map Outcome.product =
        some (retryLoop scrape (left + 1) attempt product).1 := by
  intro left
  induction left with
  | zero =>
    intro attempt product
    unfold retryLoop
    by_cases h : (scrape attempt product).err = none <;> simp [h, retryLoop]
  | succ n ih =>
    intro attempt product
    unfold retryLoop
    by_cases h : (scrape attempt product).err = none
    · simp [h]
    · simp only [h, if_false]
      have := ih (attempt + 1) (scrape attempt product).product
      cases hrest : (retryLoop scrape (n + 1) (attempt + 1) (scrape attempt product).product).2 with
      | nil => rw [hrest] at this; simp at this
      | cons x xs => rw [hrest] at this; rw [List.getLast?_cons_cons]; exact this

theorem retryLoop_chain (scrape : Nat → Product → Outcome) :
    ∀ (left attempt : Nat) (product : Product) (i : Nat) (prev o : Outcome),
      (retryLoop scrape left attempt product).2.get? i = some prev →
      (retryLoop scrape left attempt product).2.get? (i + 1) = some o →
      o = scrape (attempt + i + 1) prev.product := by
  intro left
  induction left with
  | zero => intro attempt product i prev o h; simp [retryLoop] at h
  | succ n ih =>
    intro attempt product i prev o
    unfold retryLoop
    by_cases h : (scrape attempt product).err = none
    · simp [h]
    · simp only [h, if_false]
      cases i with
      | zero =>
        intro h0 h1
        simp only [List.get?_cons_zero, Option.some.injEq] at h0
        subst h0
        simp only [List.get?_cons_succ] at h1
        cases n with
        | zero => simp [retryLoop] at h1
        | succ m =>
          have := retryLoop_head scrape m (attempt + 1) (scrape attempt product).product
          rw [List.head?_eq_getElem?] at this
          rw [List.get?_eq_getElem?] at h1
          rw [this] at h1
          simpa using h1.symm
      | succ j =>
        intro h0 h1
        simp only [List.get?_cons_succ] at h0 h1
        have := ih (attempt + 1) _ j prev o h0 h1
        rw [this]; congr 1; omega

/-- C2: for each item a worker calls `ScrapeProductDetails` between one and `maxRetries = 3`
times, whatever the scraper does: the first call is attempt 1 on the received item and each
further call works on the record the previous call left; every call before the last returned
an error (no call follows a call that returned `nil`); when every call returns an error
there are exactly 3 calls; when there are fewer than 3 the last one returned `nil`; the
record the loop ends with is the one the last call left; and the worker then sends exactly
that record to `results`, once, and is back at the head of its loop holding nothing. -/
theorem worker_retries_at_most_three_then_forwards (lib : Libs)
    (scrape : Nat → Product → Outcome) (product : Product) :
    maxRetries = 3 ∧
    1 ≤ (processJob scrape product).2.length ∧
    (processJob scrape product).2.length ≤ 3 ∧
    (processJob scrape product).2.head? = some (scrape 1 product) ∧
    (∀ (i : Nat) (prev o : Outcome),
      (processJob scrape product).2.get? i = some prev →
      (processJob scrape product).2.get? (i + 1) = some o →
      o = scrape (i + 2) prev.product) ∧
    (∀ o ∈ (processJob scrape product).2.dropLast, o.err ≠ none) ∧
    ((∀ o ∈ (processJob scrape product).2, o.err ≠ none) →
      (processJob scrape product).2.length = 3) ∧
    ((processJob scrape product).2.length < 3 →
      ∃ o, (processJob scrape product).2.getLast? = some o ∧ o.err = none) ∧
    (processJob scrape product).2.getLast?.map Outcome.product =
      some (processJob scrape product).1 ∧
    (∀ (K : Nat) (s : PoolState) (w : Nat) (job : Job) (visit : Nat → Page),
      s.workers.get? w = some (.scraping job) → s.results.length < K →
      ∃ s1 s2, s.step lib K (.scrape w visit) = some s1 ∧
        s1.step lib K (.emit w) = some s2 ∧
        s2.results = s.results ++ [(job.1, (processJob (scrapeWith lib visit) job.2).1)] ∧
        s2.workers.get? w = some .ready ∧
        s2.toSend = s.toSend ∧ s2.jobs = s.jobs ∧ s2.collected = s.collected) := by
  refine ⟨rfl, ?_, retryLoop_length_le scrape 3 1 product, retryLoop_head scrape 2 1 product,
    ?_, retryLoop_dropLast_err scrape 3 1 product, retryLoop_all_err scrape 3 1 product,
    retryLoop_short scrape 3 1 product, retryLoop_last scrape 2 1 product, ?_⟩
  · have h := retryLoop_head scrape 2 1 product
    show 1 ≤ (retryLoop scrape 3 1 product).2.length
    cases hl : (retryLoop scrape 3 1 product).2 with
    | nil => rw [hl] at h; simp at h
    | cons x xs => simp
  · intro i prev o h0 h1
    have := retryLoop_chain scrape 3 1 product i prev o h0 h1
    rw [this]; congr 1; omega
  · intro K s w job visit hw hroom
    have hlt : w < s.workers.length := by
      rcases Nat.lt_or_ge w s.workers.length with h | h
      · exact h
      · rw [List.get?_eq_none.mpr h] at hw; cases hw
    let held : WorkerState := .sending (job.1, (processJob (scrapeWith lib visit) job.2).1)
    refine ⟨{ s with workers := s.workers.set w held },
      { s with
        results := s.results ++ [(job.1, (processJob (scrapeWith lib visit) job.2).1)]
        workers := (s.workers.set w held).set w .ready },
      ?_, ?_, rfl, ?_, rfl, rfl, rfl⟩
    · simp only [PoolState.step, hw]
    · simp only [PoolState.step, List.get?_eq_getElem?, List.getElem?_set_self hlt, hroom,
        if_true]
    · simp only [List.get?_eq_getElem?]
      rw [List.getElem?_set_self]
      simpa using hlt

/-- Witness for C2 on an item whose page never yields a title: two calls, the first a failed
pass and the second returning `nil`. -/
theorem worker_retries_at_most_three_then_forwards_witness :
    (processJob (scrapeWith (sampleLibs none) (fun _ => pageWithoutTitle))
      (sampleProduct "https://www.amazon.ae/dp/B0ABC123")).2.length ≤ 3 :=
  (worker_retries_at_most_three_then_forwards (sampleLibs none)
    (scrapeWith (sampleLibs none) (fun _ => pageWithoutTitle))
    (sampleProduct "https://www.amazon.ae/dp/B0ABC123")).2.2.1

/-! ## Package `strings`: what `Index` and `Contains` compute -/

theorem strings.HasPrefix_iff (s pre : Str) : strings.HasPrefix s pre = true ↔ pre <+: s := by
  unfold strings.HasPrefix
  exact List.isPrefixOf_iff_prefix

theorem strings.Index_some (sub : Str) :
    ∀ (s : Str) (n : Nat), strings.Index s sub = some n →
      sub <+: s.drop n ∧ n ≤ s.length ∧ ∀ k, k < n → ¬ sub <+: s.drop k := by
  intro s
  induction s with
  | nil =>
    intro n h
    unfold strings.Index at h
    by_cases hs : sub = []
    · simp only [hs, if_true, Option.some.injEq] at h
      subst h; subst hs
      simp
    · simp [hs] at h
  | cons c s ih =>
    intro n h
    unfold strings.Index at h
    by_cases hp : strings.HasPrefix (c :: s) sub = true
    · simp only [hp, if_true, Option.some.injEq] at h
      subst h
      exact ⟨by simpa using (strings.HasPrefix_iff _ _).mp hp, Nat.zero_le _, by simp⟩
    · simp only [hp, Bool.false_eq_true, if_false, Option.map_eq_some'] at h
      obtain ⟨m, hm, rfl⟩ := h
      obtain ⟨h1, h2, h3⟩ := ih m hm
      refine ⟨by simpa using h1, by simpa using h2, ?_⟩
      intro k hk
      cases k with
      | zero => simpa using fun hh => hp ((strings.HasPrefix_iff _ _).mpr hh)
      | succ j => simpa using h3 j (by omega)

theorem strings.Index_none (sub : Str) :
    ∀ (s : Str), strings.Index s sub = none → ∀ k, ¬ sub <+: s.drop k := by
  intro s
  induction s with
  | nil =>
    intro h k
    unfold strings.Index at h
    by_cases hs : sub = []
    · simp [hs] at h
    · simpa using hs
  | cons c s ih =>
    intro h k
    unfold strings.Index at h
    by_cases hp : strings.HasPrefix (c :: s) sub = true
    · simp [hp] at h
    · simp only [hp, Bool.false_eq_true, if_false, Option.map_eq_none'] at h
      cases k with
      | zero => simpa using fun hh => hp ((strings.HasPrefix_iff _ _).mpr hh)
      | succ j => simpa using ih h j

theorem strings.Index_eq_some (sub s : Str) (n : Nat) (hn : sub <+: s.drop n)
    (hfirst : ∀ k, k < n → ¬ sub <+: s.drop k) :
    strings.Index s sub = some n := by
  cases h : strings.Index s sub with
  | none => exact absurd hn (strings.Index_none sub s h n)
  | some m =>
    obtain ⟨h1, _, h3⟩ := strings.Index_some sub s m h
    rcases Nat.lt_trichotomy m n with hlt | heq | hgt
    · exact absurd h1 (hfirst m hlt)
    · rw [heq]
    · exact absurd hn (h3 n hgt)

theorem strings.Contains_iff (s sub : Str) : strings.Contains s sub = true ↔ sub <:+: s := by
  unfold strings.Contains
  constructor
  · intro h
    obtain ⟨n, hn⟩ := Option.isSome_iff_exists.mp h
    obtain ⟨h1, _, _⟩ := strings.Index_some sub s n hn
    exact h1.isInfix.trans (List.drop_suffix n s).isInfix
  · intro h
    cases hi : strings.Index s sub with
    | some n => rfl
    | none =>
      obtain ⟨pre, post, hpp⟩ := h
      have := strings.Index_none sub s hi pre.length
      rw [← hpp] at this
      simp [List.append_assoc] at this

theorem strings.lowerRune_of_spells (table : Char → Char) (c m : Char)
    (hm : m.toNat < 128 ∧ ¬ (65 ≤ m.toNat ∧ m.toNat ≤ 90))
    (h : c = m ∨ (97 ≤ m.toNat ∧ m.toNat ≤ 122 ∧ c.toNat + 32 = m.toNat)) :
    strings.lowerRune table c = m := by
  unfold strings.lowerRune
  rcases h with rfl | ⟨h1, h2, h3⟩
  · simp [hm.1, hm.2]
  · have hc : c.toNat < 128 := by omega
    have hc2 : 65 ≤ c.toNat ∧ c.toNat ≤ 90 := by omega
    simp only [hc, hc2, and_self, if_true, h3]
    exact Char.ofNat_toNat m

theorem strings.ToLower_of_spells (table : Char → Char) (mid marker : Str)
    (hm : ∀ m ∈ marker, m.toNat < 128 ∧ ¬ (65 ≤ m.toNat ∧ m.toNat ≤ 90))
    (h : SpellsAnyCase mid marker) : strings.ToLower table mid = marker := by
  unfold SpellsAnyCase at h
  unfold strings.ToLower
  induction h with
  | nil => rfl
  | cons hcm _ ih =>
    rw [List.map_cons, strings.lowerRune_of_spells table _ _ (hm _ (List.mem_cons_self _ _)) hcm,
      ih (fun m hmem => hm m (List.mem_cons_of_mem _ hmem))]

theorem strings.Contains_ToLower_of_anyCase (table : Char → Char) (text marker : Str)
    (hm : ∀ m ∈ marker, m.toNat < 128 ∧ ¬ (65 ≤ m.toNat ∧ m.toNat ≤ 90))
    (h : ContainsAnyCase text marker) :
    strings.Contains (strings.ToLower table text) marker = true := by
  obtain ⟨pre, mid, post, rfl, hs⟩ := h
  rw [strings.Contains_iff]
  refine ⟨strings.ToLower table pre, strings.ToLower table post, ?_⟩
  have := strings.ToLower_of_spells table mid marker hm hs
  unfold strings.ToLower at this ⊢
  rw [List.map_append, List.map_append, this]

/-! ## `ScrapeProductDetails` -/

theorem ScrapeProductDetails_skip (lib : Libs) (page : Page) (product : Product)
    (h : product.TitleEnglish ≠ [] ∨ product.ScrapedAt.IsZero = false) :
    ScrapeProductDetails lib page product = { product := product, err := none, calls := [] } := by
  unfold ScrapeProductDetails
  rw [if_pos h]

theorem ScrapeProductDetails_title_of_ok (lib : Libs) (page : Page) (product : Product)
    (hok : (ScrapeProductDetails lib page product).err = none) :
    (ScrapeProductDetails lib page product).product.TitleEnglish ≠ [] ∨
      product.ScrapedAt.IsZero = false := by
  by_cases h : product.TitleEnglish ≠ [] ∨ product.ScrapedAt.IsZero = false
  · rw [ScrapeProductDetails_skip lib page product h]
    exact h
  · left
    revert hok
    unfold ScrapeProductDetails
    rw [if_neg h]
    split_ifs
    · simp
    · simp
    · split
      · simp
      · split
        · simp
        · split_ifs <;> simp_all

/-- C3, as the claim states it, fails: a record that carries a scrape timestamp and an empty
title (here the timestamp 5) is returned with no error and with its title still empty. -/
theorem ScrapeProductDetails_ok_with_empty_title :
    (ScrapeProductDetails (sampleLibs none) pageWithTitle
        { sampleProduct "https://www.amazon.ae/dp/B0ABC123" with ScrapedAt := ⟨5⟩ }).err = none ∧
    (ScrapeProductDetails (sampleLibs none) pageWithTitle
        { sampleProduct "https://www.amazon.ae/dp/B0ABC123" with ScrapedAt := ⟨5⟩ }
      ).product.TitleEnglish = [] := by
  constructor <;> rfl

/-- C3, amended: for every input record whose `ScrapedAt` is zero and every page, whenever
`ScrapeProductDetails` returns no error the record's `TitleEnglish` is non-empty on return. -/
theorem ScrapeProductDetails_ok_has_title (lib : Libs) (page : Page) (product : Product)
    (hzero : product.ScrapedAt.IsZero = true)
    (hok : (ScrapeProductDetails lib page product).err = none) :
    (ScrapeProductDetails lib page product).product.TitleEnglish ≠ [] := by
  rcases ScrapeProductDetails_title_of_ok lib page product hok with h | h
  · exact h
  · rw [hzero] at h; cases h

/-- Witness for C3 amended: a fresh record and a page with a title. -/
theorem ScrapeProductDetails_ok_has_title_witness :
    (sampleProduct "https://www.amazon.ae/dp/B0ABC123").ScrapedAt.IsZero = true ∧
    (ScrapeProductDetails (sampleLibs none) pageWithTitle
      (sampleProduct "https://www.amazon.ae/dp/B0ABC123")).err = none ∧
    (ScrapeProductDetails (sampleLibs none) pageWithTitle
      (sampleProduct "https://www.amazon.ae/dp/B0ABC123")).product.TitleEnglish ≠ [] :=
  ⟨rfl, by decide,
    ScrapeProductDetails_ok_has_title (sampleLibs none) pageWithTitle
      (sampleProduct "https://www.amazon.ae/dp/B0ABC123") rfl (by decide)⟩

/-- C5: for every record whose `TitleEnglish` is non-empty or whose `ScrapedAt` is non-zero,
`ScrapeProductDetails` returns `nil`, performs no operation at all (no page is opened) and
leaves the record as it was; so after any call that returned `nil`, a further call on the
record, on any page, is such a no-op. -/
theorem ScrapeProductDetails_skips_scraped_record (lib : Libs) (page : Page) (product : Product)
    (h : product.TitleEnglish ≠ [] ∨ product.ScrapedAt.IsZero = false) :
    (ScrapeProductDetails lib page product).err = none ∧
    (ScrapeProductDetails lib page product).calls = [] ∧
    Call.MustPage ∉ (ScrapeProductDetails lib page product).calls ∧
    (ScrapeProductDetails lib page product).product = product ∧
    (∀ (earlier : Product) (page0 page1 : Page),
      (ScrapeProductDetails lib page0 earlier).err = none →
      (ScrapeProductDetails lib page1 (ScrapeProductDetails lib page0 earlier).product).calls = [] ∧
      (ScrapeProductDetails lib page1 (ScrapeProductDetails lib page0 earlier).product).err = none ∧
      (ScrapeProductDetails lib page1 (ScrapeProductDetails lib page0 earlier).product).product =
        (ScrapeProductDetails lib page0 earlier).product) := by
  rw [ScrapeProductDetails_skip lib page product h]
  refine ⟨rfl, rfl, by simp, rfl, ?_⟩
  intro earlier page0 page1 hok
  have hdone : (ScrapeProductDetails lib page0 earlier).product.TitleEnglish ≠ [] ∨
      (ScrapeProductDetails lib page0 earlier).product.ScrapedAt.IsZero = false := by
    rcases ScrapeProductDetails_title_of_ok lib page0 earlier hok with h1 | h1
    · exact Or.inl h1
    · rw [ScrapeProductDetails_skip lib page0 earlier (Or.inr h1)]
      exact Or.inr h1
  rw [ScrapeProductDetails_skip lib page1 _ hdone]
  exact ⟨rfl, rfl, rfl⟩

/-- Witness for C5: a record with a title, offered the robot-check page. -/
theorem ScrapeProductDetails_skips_scraped_record_witness :
    ({ sampleProduct "https://www.amazon.ae/dp/B0ABC123" with
        TitleEnglish := "Widget".toList } : Product).TitleEnglish ≠ [] ∧
    (ScrapeProductDetails (sampleLibs none) pageRobotCheck
      { sampleProduct "https://www.amazon.ae/dp/B0ABC123" with
        TitleEnglish := "Widget".toList }).calls = [] :=
  ⟨by decide,
    (ScrapeProductDetails_skips_scraped_record (sampleLibs none) pageRobotCheck
      { sampleProduct "https://www.amazon.ae/dp/B0ABC123" with TitleEnglish := "Widget".toList }
      (Or.inl (by decide))).2.1⟩

theorem ScrapeProductDetails_noTitle (lib : Libs) (page : Page) (product : Product)
    (hfail : (ScrapeProductDetails lib page product).err = some .noTitle) :
    (ScrapeProductDetails lib page product).product.TitleEnglish = [] ∧
    (ScrapeProductDetails lib page product).product.ScrapedAt = page.Now ∧
    (ScrapeProductDetails lib page product).fullPass = true := by
  revert hfail
  unfold ScrapeProductDetails
  split_ifs
  · simp
  · simp
  · simp
  · split
    · simp
    · split
      · simp
      · split_ifs
        · simp
        · dsimp only
          by_cases ht : extractTitle page = []
          · intro _
            exact ⟨ht, rfl, by simp [Outcome.fullPass, callsToContainer]⟩
          · simp [ht]

/-- C4, what the code does: when the first pass on a fresh record ends with the empty-title
error, that pass has already stamped `ScrapedAt` with the (non-zero) clock reading, so the
second call of the retry loop is short-circuited by the skip guard: it opens no page, returns
`nil` and ends the loop. The item undergoes one full pass and one reported failure, not
three, and is forwarded with its title still empty. -/
theorem retry_after_empty_title_is_short_circuited (lib : Libs) (visit : Nat → Page)
    (product : Product)
    (hfail : (ScrapeProductDetails lib (visit 1) product).err = some .noTitle)
    (hnow : (visit 1).Now.IsZero = false) :
    (processJob (scrapeWith lib visit) product).2.length = 2 ∧
    (processJob (scrapeWith lib visit) product).2.map Outcome.err = [some .noTitle, none] ∧
    (processJob (scrapeWith lib visit) product).2.map Outcome.fullPass = [true, false] ∧
    (processJob (scrapeWith lib visit) product).2.map (fun o => o.calls.length) = [15, 0] ∧
    ((processJob (scrapeWith lib visit) product).2.filter (fun o => o.err.isSome)).length = 1 ∧
    (processJob (scrapeWith lib visit) product).1.TitleEnglish = [] := by
  obtain ⟨h1, h2, h3⟩ := ScrapeProductDetails_noTitle lib (visit 1) product hfail
  have hskip := ScrapeProductDetails_skip lib (visit 2)
    (ScrapeProductDetails lib (visit 1) product).product (Or.inr (by rw [h2]; exact hnow))
  have hcalls : (ScrapeProductDetails lib (visit 1) product).calls.length = 15 := by
    revert hfail
    unfold ScrapeProductDetails
    split_ifs
    · simp
    · simp
    · simp
    · split
      · simp
      · split
        · simp
        · split_ifs
          · simp
          · simp [callsToContainer]
  have hlog : processJob (scrapeWith lib visit) product =
      ((ScrapeProductDetails lib (visit 1) product).product,
        [ScrapeProductDetails lib (visit 1) product,
         { product := (ScrapeProductDetails lib (visit 1) product).product, err := none,
           calls := [] }]) := by
    unfold processJob maxRetries
    unfold retryLoop
    simp only [scrapeWith, hfail]
    unfold retryLoop
    simp only [scrapeWith, hskip]
    simp
  rw [hlog]
  refine ⟨rfl, by simp [hfail], ?_, by simp [hcalls], by simp [hfail], h1⟩
  show [(ScrapeProductDetails lib (visit 1) product).fullPass, _] = _
  rw [h3]
  rfl

/-- C4 at the failing input: a fresh record whose page has a product container and no
`#productTitle` element at every attempt. -/
theorem retry_after_empty_title_is_short_circuited_witness :
    (ScrapeProductDetails (sampleLibs none) pageWithoutTitle
      (sampleProduct "https://www.amazon.ae/dp/B0ABC123")).err = some .noTitle ∧
    (processJob (scrapeWith (sampleLibs none) (fun _ => pageWithoutTitle))
      (sampleProduct "https://www.amazon.ae/dp/B0ABC123")).2.map Outcome.fullPass =
        [true, false] :=
  ⟨by decide,
    (retry_after_empty_title_is_short_circuited (sampleLibs none) (fun _ => pageWithoutTitle)
      (sampleProduct "https://www.amazon.ae/dp/B0ABC123") (by decide) (by decide)).2.2.1⟩

/-- C6: for every not-yet-scraped record, when the title text of the page contains
"robot check" or "captcha" in any letter case, `ScrapeProductDetails` returns an error, leaves
every field of the record (with `ScrapedAt`) as it was, and runs neither the interstitial
handler nor any field extractor nor the time stamp; on a page that loaded, the error is the
robot-check error and the only operations are opening the page, the delay, the load wait, the
title probe and closing the page. -/
theorem ScrapeProductDetails_fails_on_robot_check (lib : Libs) (page : Page)
    (product : Product) (el : Element) (titleText : Str)
    (hfresh : product.TitleEnglish = [] ∧ product.ScrapedAt.IsZero = true)
    (hhas : page.Has "title".toList = some true)
    (hel : page.Element "title".toList = some el)
    (htext : el.Text = some titleText)
    (hrobot : ContainsAnyCase titleText "robot check".toList ∨
      ContainsAnyCase titleText "captcha".toList) :
    (ScrapeProductDetails lib page product).err ≠ none ∧
    (ScrapeProductDetails lib page product).product = product ∧
    Call.handleCaptcha ∉ (ScrapeProductDetails lib page product).calls ∧
    Call.stampScrapedAt ∉ (ScrapeProductDetails lib page product).calls ∧
    (∀ c ∈ (ScrapeProductDetails lib page product).calls, c.isExtractor = false) ∧
    (page.WaitLoad = true →
      (ScrapeProductDetails lib page product).err = some .robotCheck ∧
      (ScrapeProductDetails lib page product).calls =
        [.MustPage, .Sleep, .WaitLoad, .titleProbe, .MustClose]) := by
  have hdet : robotCheckDetected lib page = true := by
    unfold robotCheckDetected elementText
    simp only [hhas, hel, htext, Bool.or_eq_true]
    rcases hrobot with h | h
    · exact Or.inl (strings.Contains_ToLower_of_anyCase _ _ _ (by decide) h)
    · exact Or.inr (strings.Contains_ToLower_of_anyCase _ _ _ (by decide) h)
  have hnot : ¬ (product.TitleEnglish ≠ [] ∨ product.ScrapedAt.IsZero = false) := by
    simp [hfresh.1, hfresh.2]
  unfold ScrapeProductDetails
  rw [if_neg hnot]
  by_cases hload : page.WaitLoad = false
  · rw [if_pos hload]
    simp [hload, Call.isExtractor]
  · rw [if_neg hload, if_pos hdet]
    simp [Call.isExtractor]

/-- Witness for C6: the fresh sample record on a page titled "Robot Check". -/
theorem ScrapeProductDetails_fails_on_robot_check_witness :
    ContainsAnyCase "Robot Check".toList "robot check".toList ∧
    (ScrapeProductDetails (sampleLibs none) pageRobotCheck
      (sampleProduct "https://www.amazon.ae/dp/B0ABC123")).product =
        sampleProduct "https://www.amazon.ae/dp/B0ABC123" :=
  have hspell : ContainsAnyCase "Robot Check".toList "robot check".toList :=
    ⟨[], "Robot Check".toList, [], rfl, by
      unfold SpellsAnyCase
      repeat first
        | exact List.Forall₂.nil
        | refine List.Forall₂.cons (by decide) ?_⟩
  ⟨hspell,
    (ScrapeProductDetails_fails_on_robot_check (sampleLibs none) pageRobotCheck
      (sampleProduct "https://www.amazon.ae/dp/B0ABC123") (sampleElement "Robot Check")
      "Robot Check".toList ⟨rfl, rfl⟩ (by decide) rfl rfl (Or.inl hspell)).2.1⟩

/-! ## `extractGallery`: classification of the parsed array -/

theorem keepFirst_filter (p : Str → Bool) :
    ∀ l : List Str, keepFirst (l.filter p) = (keepFirst l).filter p := by
  intro l
  induction l with
  | nil => rfl
  | cons x xs ih =>
    by_cases hx : p x = true
    · rw [List.filter_cons_of_pos hx]
      simp only [keepFirst]
      rw [List.filter_cons_of_pos hx, ih, List.filter_filter, List.filter_filter]
      congr 2
      funext y
      exact Bool.and_comm _ _
    · rw [List.filter_cons_of_neg hx]
      simp only [keepFirst]
      rw [List.filter_cons_of_neg hx, ih, List.filter_filter]
      apply List.filter_congr
      intro y _
      by_cases hy : y = x
      · subst hy; simp [hx]
      · simp [hy]

theorem mem_keepFirst (u : Str) : ∀ l : List Str, u ∈ keepFirst l ↔ u ∈ l := by
  intro l
  induction l with
  | nil => simp [keepFirst]
  | cons x xs ih =>
    simp only [keepFirst, List.mem_cons, List.mem_filter, ih, decide_eq_true_eq]
    by_cases h : u = x <;> simp [h]

theorem nodup_keepFirst : ∀ l : List Str, (keepFirst l).Nodup := by
  intro l
  induction l with
  | nil => simp [keepFirst]
  | cons x xs ih =>
    simp only [keepFirst, List.nodup_cons, List.mem_filter, decide_eq_true_eq]
    exact ⟨fun h => h.2 rfl, ih.filter _⟩

theorem galleryLoop_eq :
    ∀ (rest : List ImageInfo) (seenImages gallery : List Str),
      extractGallery.galleryLoop rest seenImages gallery =
        gallery ++ (keepFirst ((rest.map ImageInfo.HiRes).filter (fun u => u ≠ []))).filter
          (fun u => u ∉ seenImages) := by
  intro rest
  induction rest with
  | nil => intro seenImages gallery; simp [extractGallery.galleryLoop, keepFirst]
  | cons img rest ih =>
    intro seenImages gallery
    unfold extractGallery.galleryLoop
    by_cases hne : img.HiRes = []
    · simp [hne, ih]
    · by_cases hseen : img.HiRes ∈ seenImages
      · rw [if_neg (by simp [hseen]), ih]
        simp only [List.map_cons, ne_eq, hne, not_false_eq_true, decide_True,
          List.filter_cons_of_pos, keepFirst]
        rw [List.filter_cons_of_neg (by simpa using hseen), List.filter_filter]
        congr 1
        apply List.filter_congr
        intro y _
        by_cases hy : y = img.HiRes
        · subst hy; simp [hseen]
        · simp [hy]
      · rw [if_pos ⟨hne, hseen⟩, ih]
        simp only [List.map_cons, ne_eq, hne, not_false_eq_true, decide_True,
          List.filter_cons_of_pos, keepFirst]
        rw [List.filter_cons_of_pos (by simpa using hseen), List.filter_filter,
          List.append_assoc, List.singleton_append]
        congr 2
        apply List.filter_congr
        intro y _
        simp only [List.mem_cons, not_or, ne_eq, Bool.decide_and, Bool.and_comm]

/-- C7: for every parsed image array with a first element, `extractGallery` returns as main
image the `hiRes` of the first element and as gallery the `hiRes` values of the remaining
elements, in array order, keeping the first occurrence of each value that is non-empty and
differs from the main image; the gallery has no duplicate and holds exactly those values. -/
theorem extractGallery_classifies_first_as_main (lib : Libs) (first : ImageInfo)
    (rest : List ImageInfo) :
    extractGallery.classify (first :: rest) =
      (first.HiRes,
        keepFirst ((rest.map ImageInfo.HiRes).filter (fun u => u ≠ [] ∧ u ≠ first.HiRes))) ∧
    (extractGallery.classify (first :: rest)).2.Nodup ∧
    (∀ u, u ∈ (extractGallery.classify (first :: rest)).2 ↔
      u ∈ rest.map ImageInfo.HiRes ∧ u ≠ [] ∧ u ≠ first.HiRes) ∧
    (∀ (page : Page) (scriptContent jsonArrayStr : Str),
      extractGallery.findScript page.Scripts = some scriptContent →
      extractGallery.jsonArrayStr scriptContent = .ok jsonArrayStr →
      lib.unmarshalImages jsonArrayStr = some (first :: rest) →
      extractGallery lib page =
        (first.HiRes,
          keepFirst ((rest.map ImageInfo.HiRes).filter (fun u => u ≠ [] ∧ u ≠ first.HiRes)))) := by
  have hcl : extractGallery.classify (first :: rest) =
      (first.HiRes,
        keepFirst ((rest.map ImageInfo.HiRes).filter (fun u => u ≠ [] ∧ u ≠ first.HiRes))) := by
    show (if first.HiRes ≠ [] then
        (first.HiRes, extractGallery.galleryLoop rest [first.HiRes] [])
      else ([], extractGallery.galleryLoop rest [] [])) = _
    by_cases hne : first.HiRes = []
    · rw [if_neg (by simp [hne]), galleryLoop_eq, hne]
      simp
    · rw [if_pos hne, galleryLoop_eq, ← keepFirst_filter, List.filter_filter]
      simp only [List.nil_append, List.mem_singleton, Bool.decide_and, Bool.and_comm]
  refine ⟨hcl, ?_, ?_, ?_⟩
  · rw [hcl]; exact nodup_keepFirst _
  · intro u
    rw [hcl]
    simp only [mem_keepFirst, List.mem_filter, decide_eq_true_eq]
  · intro page scriptContent jsonArrayStr hfound hjson hparse
    unfold extractGallery extractGallery.fromScript
    simp only [hfound, hjson, hparse]
    exact hcl

/-- Witness for C7: the `hiRes` values A, B, A, C give main A and gallery B, C. -/
theorem extractGallery_classifies_first_as_main_witness :
    extractGallery.classify
        [sampleImage "A", sampleImage "B", sampleImage "A", sampleImage "C"] =
      ("A".toList, ["B".toList, "C".toList]) :=
  ((extractGallery_classifies_first_as_main (sampleLibs none) (sampleImage "A")
    [sampleImage "B", sampleImage "A", sampleImage "C"]).1).trans (by decide)

/-! ## `extractGallery`: the balanced-bracket scan -/

theorem bracketDepth_cons (c : Char) (s : Str) :
    bracketDepth (c :: s) =
      (if c = '[' then 1 else if c = ']' then -1 else 0) + bracketDepth s := by
  unfold bracketDepth
  by_cases h1 : c = '['
  · subst h1
    rw [List.count_cons_self, List.count_cons_of_ne (by decide)]
    simp only [if_true]
    push_cast
    ring
  · by_cases h2 : c = ']'
    · subst h2
      rw [List.count_cons_self, List.count_cons_of_ne (by decide)]
      simp only [h1, if_false, if_true]
      push_cast
      ring
    · rw [List.count_cons_of_ne (fun h => h1 h.symm), List.count_cons_of_ne (fun h => h2 h.symm)]
      simp [h1, h2]

theorem bracketDepth_nil : bracketDepth [] = 0 := rfl

theorem scan_cons (c : Char) (rest : Str) (i : Nat) (balance : Int) :
    extractGallery.scan (c :: rest) i balance =
      if c = '[' then extractGallery.scan rest (i + 1) (balance + 1)
      else if c = ']' then
        (if balance - 1 = 0 then some i else extractGallery.scan rest (i + 1) (balance - 1))
      else extractGallery.scan rest (i + 1) balance := by
  rw [extractGallery.scan]

theorem scan_through_open (body rest : Str) :
    ∀ (i : Nat) (balance : Int),
      (∀ n, 1 ≤ balance + bracketDepth (body.take n)) →
      extractGallery.scan (body ++ rest) i balance =
        extractGallery.scan rest (i + body.length) (balance + bracketDepth body) := by
  induction body with
  | nil => intro i balance _; simp [bracketDepth]
  | cons c t ih =>
    intro i balance h
    have hstep : ∀ n, 1 ≤ balance + (if c = '[' then 1 else if c = ']' then -1 else 0) +
        bracketDepth (t.take n) := by
      intro n
      have := h (n + 1)
      rw [List.take_succ_cons, bracketDepth_cons] at this
      rw [add_assoc]
      exact this
    have h1 := h 1
    rw [List.take_succ_cons, List.take_zero, bracketDepth_cons, bracketDepth_nil, add_zero] at h1
    rw [List.cons_append, bracketDepth_cons, List.length_cons,
      show i + (t.length + 1) = i + 1 + t.length by omega, ← add_assoc, scan_cons]
    by_cases hc1 : c = '['
    · simp only [if_pos hc1] at hstep ⊢
      exact ih (i + 1) (balance + 1) hstep
    · by_cases hc2 : c = ']'
      · simp only [if_neg hc1, if_pos hc2] at hstep h1 ⊢
        have hne : ¬ (balance - 1 = 0) := by omega
        rw [if_neg hne]
        exact ih (i + 1) (balance - 1) hstep
      · simp only [if_neg hc1, if_neg hc2, add_zero] at hstep ⊢
        exact ih (i + 1) balance hstep

theorem scan_never_closed :
    ∀ (s : Str) (i : Nat) (balance : Int),
      (∀ n, 1 ≤ n → 1 ≤ balance + bracketDepth (s.take n)) →
      extractGallery.scan s i balance = none := by
  intro s
  induction s with
  | nil => intro i balance _; rfl
  | cons c t ih =>
    intro i balance h
    have hstep : ∀ n, 1 ≤ n → 1 ≤ balance + (if c = '[' then 1 else if c = ']' then -1 else 0) +
        bracketDepth (t.take n) := by
      intro n hn
      have := h (n + 1) (by omega)
      rw [List.take_succ_cons, bracketDepth_cons] at this
      rw [add_assoc]
      exact this
    have h1 := h 1 (le_refl 1)
    rw [List.take_succ_cons, List.take_zero, bracketDepth_cons, bracketDepth_nil, add_zero] at h1
    rw [scan_cons]
    by_cases hc1 : c = '['
    · simp only [if_pos hc1] at hstep ⊢
      exact ih (i + 1) (balance + 1) hstep
    · by_cases hc2 : c = ']'
      · simp only [if_neg hc1, if_pos hc2] at hstep h1 ⊢
        have hne : ¬ (balance - 1 = 0) := by omega
        rw [if_neg hne]
        exact ih (i + 1) (balance - 1) hstep
      · simp only [if_neg hc1, if_neg hc2, add_zero] at hstep ⊢
        exact ih (i + 1) balance hstep

theorem Index_bracket_after (before after : Str) (h : '[' ∉ before) :
    strings.Index (before ++ '[' :: after) "[".toList = some before.length := by
  apply strings.Index_eq_some
  · rw [List.drop_left]
    exact ⟨after, rfl⟩
  · intro k hk hpre
    obtain ⟨t, ht⟩ := hpre
    have hget : (before ++ '[' :: after).get? k = some '[' := by
      have h2 : ((before ++ '[' :: after).drop k).head? = some '[' := by
        rw [← ht]; rfl
      rw [List.get?_eq_getElem?, ← List.head?_drop]
      exact h2
    rw [List.get?_eq_getElem?, List.getElem?_append_left hk] at hget
    exact h (List.getElem?_mem hget)

theorem jsonArrayStr_of_parts (before mid body post : Str)
    (hindex : strings.Index (before ++ ("'initial':".toList ++ (mid ++ '[' :: (body ++ ']' :: post))))
      "'initial':".toList = some before.length)
    (hmid : '[' ∉ mid)
    (hbody : Balanced body) :
    extractGallery.jsonArrayStr
        (before ++ ("'initial':".toList ++ (mid ++ '[' :: (body ++ ']' :: post)))) =
      .ok ('[' :: body ++ [']']) := by
  have hbr : strings.Index ("'initial':".toList ++ (mid ++ '[' :: (body ++ ']' :: post)))
      "[".toList = some ("'initial':".toList ++ mid).length := by
    rw [← List.append_assoc]
    apply Index_bracket_after
    intro hmem
    rcases List.mem_append.mp hmem with h | h
    · revert h; decide
    · exact hmid h
  have hdrop : (before ++ ("'initial':".toList ++ (mid ++ '[' :: (body ++ ']' :: post)))).drop
      (("'initial':".toList ++ mid).length + before.length) = '[' :: (body ++ ']' :: post) := by
    rw [Nat.add_comm, ← List.drop_drop, List.drop_left, ← List.append_assoc, List.drop_left]
  have hscan : extractGallery.scan ('[' :: (body ++ ']' :: post))
      (("'initial':".toList ++ mid).length + before.length) 0 =
      some (("'initial':".toList ++ mid).length + before.length + 1 + body.length) := by
    rw [scan_cons, if_pos rfl,
      scan_through_open body (']' :: post) _ (0 + 1) (by intro n; have := hbody.2 n; omega),
      scan_cons, if_neg (by decide), if_pos rfl, hbody.1]
    rfl
  have htake : ((before ++ ("'initial':".toList ++ (mid ++ '[' :: (body ++ ']' :: post)))).take
      (("'initial':".toList ++ mid).length + before.length + 1 + body.length + 1)).drop
      (("'initial':".toList ++ mid).length + before.length) = '[' :: body ++ [']'] := by
    have hre : before ++ ("'initial':".toList ++ (mid ++ '[' :: (body ++ ']' :: post))) =
        (before ++ ("'initial':".toList ++ mid)) ++ (('[' :: body ++ [']']) ++ post) := by
      simp
    have hlen : ("'initial':".toList ++ mid).length + before.length + 1 + body.length + 1 =
        (before ++ ("'initial':".toList ++ mid)).length + ('[' :: body ++ [']']).length := by
      simp only [List.length_append, List.length_cons, List.length_nil]
      omega
    have hlen2 : ("'initial':".toList ++ mid).length + before.length =
        (before ++ ("'initial':".toList ++ mid)).length := by
      simp only [List.length_append]
      omega
    rw [hre, hlen, hlen2, List.take_append, List.drop_left, List.take_left]
  unfold extractGallery.jsonArrayStr
  simp only [hindex, List.drop_left, hbr, hdrop, hscan, htake]

/-- C8: when the first `'initial':` marker of a script is followed, after text without `[`,
by an array literal `[ body ]` whose body is balanced in `[` and `]`, the scan of
`extractGallery` isolates exactly that literal, from the first `[` after the marker to the `]`
that matches it, whatever text precedes the marker and follows the array. -/
theorem extractGallery_isolates_balanced_array (before mid body post : Str)
    (hfirst : ∀ k, k < before.length → ¬ "'initial':".toList <+:
      (before ++ ("'initial':".toList ++ (mid ++ '[' :: (body ++ ']' :: post)))).drop k)
    (hmid : '[' ∉ mid)
    (hbody : Balanced body) :
    extractGallery.jsonArrayStr
        (before ++ ("'initial':".toList ++ (mid ++ '[' :: (body ++ ']' :: post)))) =
      .ok ('[' :: body ++ [']']) := by
  apply jsonArrayStr_of_parts before mid body post _ hmid hbody
  apply strings.Index_eq_some _ _ _ _ hfirst
  rw [List.drop_left]
  exact ⟨_, rfl⟩

/-- Witness for C8: the fragment `'initial':[{"a":[1,2]},{"b":3}]` inside script text. -/
theorem extractGallery_isolates_balanced_array_witness :
    Balanced "\x7b\"a\":[1,2]\x7d,\x7b\"b\":3\x7d".toList ∧
    extractGallery.jsonArrayStr
        "var d = \x7b 'initial':[\x7b\"a\":[1,2]\x7d,\x7b\"b\":3\x7d], x: [0] \x7d;".toList =
      .ok "[\x7b\"a\":[1,2]\x7d,\x7b\"b\":3\x7d]".toList :=
  have hbal : Balanced "\x7b\"a\":[1,2]\x7d,\x7b\"b\":3\x7d".toList := by
    refine ⟨by decide, fun n => ?_⟩
    rcases Nat.lt_or_ge n 20 with h | h
    · interval_cases n <;> decide
    · rw [List.take_of_length_le (by simpa using (by omega : 19 ≤ n))]
      decide
  ⟨hbal,
    extractGallery_isolates_balanced_array "var d = \x7b ".toList [] "\x7b\"a\":[1,2]\x7d,\x7b\"b\":3\x7d".toList
      ", x: [0] \x7d;".toList
      (by
        intro k hk
        have hk' : k < 10 := hk
        interval_cases k <;> decide)
      (by decide) hbal⟩

/-- C9: `extractGallery` is total and returns the empty result (main image `""`, no gallery)
whenever the recovery fails: no script with the images is found before the deadline, the
script lacks the `'initial':` marker, no `[` follows the marker, the bracket depth never comes
back to zero after the opening `[`, the isolated text does not parse, or the parsed array is
empty. -/
theorem extractGallery_empty_on_any_failure (lib : Libs) (page : Page)
    (hfail : extractGallery.findScript page.Scripts = none ∨
      ∃ scriptContent, extractGallery.findScript page.Scripts = some scriptContent ∧
        (¬ "'initial':".toList <:+: scriptContent ∨
         (∃ k, strings.Index scriptContent "'initial':".toList = some k ∧
            '[' ∉ scriptContent.drop k) ∨
         (∃ k j, strings.Index scriptContent "'initial':".toList = some k ∧
            strings.Index (scriptContent.drop k) "[".toList = some j ∧
            ∀ n, 1 ≤ n → 0 < bracketDepth ((scriptContent.drop (j + k)).take n)) ∨
         (∃ jsonArrayStr, extractGallery.jsonArrayStr scriptContent = .ok jsonArrayStr ∧
            lib.unmarshalImages jsonArrayStr = none) ∨
         (∃ jsonArrayStr, extractGallery.jsonArrayStr scriptContent = .ok jsonArrayStr ∧
            lib.unmarshalImages jsonArrayStr = some []))) :
    extractGallery lib page = ([], []) := by
  unfold extractGallery
  rcases hfail with hnone | ⟨scriptContent, hfound, hstage⟩
  · rw [hnone]
  · rw [hfound]
    show extractGallery.fromScript lib scriptContent = ([], [])
    unfold extractGallery.fromScript
    rcases hstage with h | ⟨k, hk, hno⟩ | ⟨k, j, hk, hj, hopen⟩ | ⟨js, hjs, hparse⟩ | ⟨js, hjs, hparse⟩
    · have hidx : strings.Index scriptContent "'initial':".toList = none := by
        cases hi : strings.Index scriptContent "'initial':".toList with
        | none => rfl
        | some n =>
          exact absurd ((strings.Contains_iff _ _).mp (by unfold strings.Contains; rw [hi]; rfl)) h
      simp only [extractGallery.jsonArrayStr, hidx]
    · have hbr : strings.Index (scriptContent.drop k) "[".toList = none := by
        cases hi : strings.Index (scriptContent.drop k) "[".toList with
        | none => rfl
        | some n =>
          have hin := (strings.Contains_iff (scriptContent.drop k) "[".toList).mp
            (by unfold strings.Contains; rw [hi]; rfl)
          obtain ⟨s1, s2, hs⟩ := hin
          exact absurd (by rw [← hs]; simp) hno
      simp only [extractGallery.jsonArrayStr, hk, hbr]
    · have hscan : extractGallery.scan (scriptContent.drop (j + k)) (j + k) 0 = none :=
        scan_never_closed _ _ _ (by intro n hn; have := hopen n hn; omega)
      simp only [extractGallery.jsonArrayStr, hk, hj, hscan]
    · simp only [hjs, hparse]
    · simp only [hjs, hparse, extractGallery.classify]

/-- Witness for C9: a script with the marker and an array that is never closed. -/
theorem extractGallery_empty_on_any_failure_witness :
    extractGallery (sampleLibs (some [sampleImage "A"]))
      (samplePage [] ["var d = \x7b 'colorImages': \x7b 'initial':[\x7b\"a\":[1,2]\x7d \x7d;"]) = ([], []) :=
  extractGallery_empty_on_any_failure (sampleLibs (some [sampleImage "A"]))
    (samplePage [] ["var d = \x7b 'colorImages': \x7b 'initial':[\x7b\"a\":[1,2]\x7d \x7d;"])
    (Or.inr ⟨"var d = \x7b 'colorImages': \x7b 'initial':[\x7b\"a\":[1,2]\x7d \x7d;".toList, by decide,
      Or.inr (Or.inr (Or.inl ⟨27, 10, by decide, by decide, by
        intro n hn
        rcases Nat.lt_or_ge n 16 with h | h
        · interval_cases n <;> decide
        · rw [List.take_of_length_le (by simpa using (by omega : 15 ≤ n))]
          decide⟩))⟩)

/-! ## `extractPrices`: reconciliation -/

/-- C10: in the reconciliation stage of `extractPrices`, whenever the earlier stages leave
`original = 0` and `discount > 0`, the result has `original = discount`, the discount as it
was and the percentage as it was, so a percentage that was not found stays 0; the same holds
for `extractPrices` on every page whose earlier stages read such values. -/
theorem extractPrices_reconcile_backfills_original (discount : ℚ) (percent : Int)
    (hd : 0 < discount) :
    extractPrices.reconcile 0 discount percent = (discount, discount, percent) ∧
    (extractPrices.reconcile 0 discount 0).2.2 = 0 ∧
    (∀ page : Page, extractPrices.read page = (0, discount, percent) →
      extractPrices page = (discount, discount, percent)) := by
  have h : extractPrices.reconcile 0 discount percent = (discount, discount, percent) := by
    unfold extractPrices.reconcile
    simp [hd]
  have h0 : extractPrices.reconcile 0 discount 0 = (discount, discount, 0) := by
    unfold extractPrices.reconcile
    simp [hd]
  refine ⟨h, by rw [h0], ?_⟩
  intro page hread
  unfold extractPrices
  rw [hread]
  exact h

/-- Witness for C10: `discount = 100, original = 0, percent = 0` gives `original = 100,
percent = 0`. -/
theorem extractPrices_reconcile_backfills_original_witness :
    (0 : ℚ) < 100 ∧ extractPrices.reconcile 0 100 0 = (100, 100, 0) :=
  ⟨by norm_num, (extractPrices_reconcile_backfills_original 100 0 (by norm_num)).1⟩

/-! ## The worker pool -/

theorem heldJobs_set (f : List Job → Nat) (hf : ∀ a b, f (a ++ b) = f a + f b) :
    ∀ (ws : List WorkerState) (w : Nat) (old new : WorkerState),
      ws.get? w = some old →
      f (heldJobs (ws.set w new)) + f old.held = f (heldJobs ws) + f new.held := by
  intro ws
  induction ws with
  | nil => intro w old new h; simp at h
  | cons x xs ih =>
    intro w old new h
    cases w with
    | zero =>
      simp only [List.get?_cons_zero, Option.some.injEq] at h
      subst h
      simp only [List.set_cons_zero, heldJobs, hf]
      omega
    | succ n =>
      simp only [List.get?_cons_succ] at h
      have := ih n old new h
      simp only [List.set_cons_succ, heldJobs, hf]
      omega

theorem totalWeight_set :
    ∀ (ws : List WorkerState) (w : Nat) (old new : WorkerState),
      ws.get? w = some old →
      totalWeight (ws.set w new) + old.weight = totalWeight ws + new.weight := by
  intro ws
  induction ws with
  | nil => intro w old new h; simp at h
  | cons x xs ih =>
    intro w old new h
    cases w with
    | zero =>
      simp only [List.get?_cons_zero, Option.some.injEq] at h
      subst h
      simp only [List.set_cons_zero, totalWeight]
      omega
    | succ n =>
      simp only [List.get?_cons_succ] at h
      have := ih n old new h
      simp only [List.set_cons_succ, totalWeight]
      omega

theorem mem_heldJobs (job : Job) :
    ∀ ws : List WorkerState,
      job ∈ heldJobs ws ↔ WorkerState.scraping job ∈ ws ∨ WorkerState.sending job ∈ ws := by
  intro ws
  induction ws with
  | nil => simp [heldJobs]
  | cons x xs ih =>
    simp only [heldJobs, List.mem_append, ih, List.mem_cons]
    cases x <;> simp [WorkerState.held] <;> tauto

theorem heldJobs_replicate_ready (n : Nat) : heldJobs (List.replicate n .ready) = [] := by
  induction n with
  | zero => rfl
  | succ k ih => simp [List.replicate_succ, heldJobs, WorkerState.held, ih]

theorem totalWeight_replicate_ready (n : Nat) : totalWeight (List.replicate n .ready) = n := by
  induction n with
  | zero => rfl
  | succ k ih => simp only [List.replicate_succ, totalWeight, WorkerState.weight, ih]; omega

theorem length_additive (a b : List Job) : (a ++ b).length = a.length + b.length :=
  List.length_append a b

theorem tagCount_additive (i : Nat) (a b : List Job) :
    ((a ++ b).map Prod.fst).count i = (a.map Prod.fst).count i + (b.map Prod.fst).count i := by
  rw [List.map_append, List.count_append]

theorem PoolState.Inv_init (lib : Libs) (productsToScrape : List Product) (numWorkers : Nat) :
    (PoolState.init productsToScrape numWorkers).Inv lib productsToScrape numWorkers := by
  refine ⟨?_, ?_, ?_, ?_, ?_, ?_, ?_⟩
  · simp [PoolState.init, PoolState.inFlight, heldJobs_replicate_ready]
  · intro i
    simp [PoolState.init, PoolState.inFlight, heldJobs_replicate_ready, List.enum,
      List.enumFrom_map_fst, List.range_eq_range']
  · intro h; simp [PoolState.init] at h
  · intro h
    simp only [PoolState.init] at h
    have := List.eq_of_mem_replicate h
    cases this
  · simp [PoolState.init]
  · intro job h
    simp only [PoolState.init, List.not_mem_nil, false_or] at h
    rcases h with h | h
    · rw [List.get?_eq_getElem?]
      exact List.mem_enum_iff_getElem?.mp h
    · have := List.eq_of_mem_replicate h
      cases this
  · intro job h
    simp only [PoolState.init, List.not_mem_nil, or_false] at h
    have := List.eq_of_mem_replicate h
    cases this

theorem PoolState.measure_init (productsToScrape : List Product) (numWorkers : Nat) :
    (PoolState.init productsToScrape numWorkers).measure =
      5 * productsToScrape.length + numWorkers + 1 := by
  simp [PoolState.init, PoolState.measure, totalWeight_replicate_ready]
  omega

theorem PoolState.step_send (lib : Libs) (productsToScrape : List Product) (numWorkers : Nat)
    (s s' : PoolState) (hinv : s.Inv lib productsToScrape numWorkers)
    (h : s.step lib productsToScrape.length .send = some s') :
    s'.Inv lib productsToScrape numWorkers ∧ s'.measure + 1 = s.measure := by
  simp only [PoolState.step] at h
  split at h
  · rename_i job rest hts
    split at h
    · simp only [Option.some.injEq] at h
      subst h
      have hopen : s.jobsClosed = false := by
        cases hc : s.jobsClosed with
        | false => rfl
        | true => have := hinv.closed hc; rw [hts] at this; cases this
      refine ⟨⟨?_, ?_, ?_, ?_, ?_, ?_, ?_⟩, ?_⟩
      · have := hinv.len
        simp only [PoolState.inFlight, hts, List.length_cons, List.length_append,
          List.length_nil] at this ⊢
        omega
      · intro i
        have := hinv.cnt i
        rw [hts, ← List.singleton_append] at this
        simp only [PoolState.inFlight, List.map_append, List.count_append] at this ⊢
        omega
      · intro hc
        simp only at hc
        rw [hopen] at hc; cases hc
      · intro hex
        have := (hinv.exited hex).2
        rw [hopen] at this; cases this
      · exact hinv.size
      · intro j hj
        apply hinv.raw j
        simp only [List.mem_append, List.mem_singleton] at hj
        rw [hts]
        rcases hj with hj | (hj | hj) | hj
        · exact Or.inl (List.mem_cons_of_mem _ hj)
        · exact Or.inr (Or.inl hj)
        · subst hj; exact Or.inl (List.mem_cons_self _ _)
        · exact Or.inr (Or.inr hj)
      · exact hinv.scraped
      · simp only [PoolState.measure, hts, List.length_cons, List.length_append, List.length_nil]
        omega
    · cases h
  · cases h

theorem PoolState.step_close (lib : Libs) (productsToScrape : List Product) (numWorkers : Nat)
    (s s' : PoolState) (hinv : s.Inv lib productsToScrape numWorkers)
    (h : s.step lib productsToScrape.length .close = some s') :
    s'.Inv lib productsToScrape numWorkers ∧ s'.measure + 1 = s.measure := by
  simp only [PoolState.step] at h
  split at h
  · rename_i hcond
    simp only [Option.some.injEq] at h
    subst h
    refine ⟨⟨hinv.len, hinv.cnt, fun _ => hcond.1, ?_, hinv.size, hinv.raw, hinv.scraped⟩, ?_⟩
    · intro hex
      have := (hinv.exited hex).2
      rw [hcond.2] at this; cases this
    · simp only [PoolState.measure, hcond.2]
      simp
      omega
  · cases h

theorem PoolState.step_receive (lib : Libs) (productsToScrape : List Product) (numWorkers : Nat)
    (s s' : PoolState) (w : Nat) (hinv : s.Inv lib productsToScrape numWorkers)
    (h : s.step lib productsToScrape.length (.receive w) = some s') :
    s'.Inv lib productsToScrape numWorkers ∧ s'.measure + 1 = s.measure := by
  simp only [PoolState.step] at h
  split at h
  · rename_i job rest hw hjobs
    simp only [Option.some.injEq] at h
    subst h
    have hlen := heldJobs_set List.length length_additive s.workers w .ready (.scraping job) hw
    have hwt := totalWeight_set s.workers w .ready (.scraping job) hw
    simp only [WorkerState.held, WorkerState.weight, List.length_nil, List.length_singleton]
      at hlen hwt
    refine ⟨⟨?_, ?_, hinv.closed, ?_, ?_, ?_, ?_⟩, ?_⟩
    · have := hinv.len
      simp only [PoolState.inFlight, hjobs, List.length_cons] at this ⊢
      omega
    · intro i
      have := hinv.cnt i
      have hc := heldJobs_set (fun l => (l.map Prod.fst).count i) (tagCount_additive i)
        s.workers w .ready (.scraping job) hw
      rw [hjobs, ← List.singleton_append] at this
      simp only [PoolState.inFlight, List.map_append, List.count_append, WorkerState.held,
        List.map_nil, List.count_nil] at this hc ⊢
      omega
    · intro hex
      rcases List.mem_or_eq_of_mem_set hex with hex | hex
      · have := (hinv.exited hex).1
        rw [hjobs] at this; cases this
      · cases hex
    · simp only [List.length_set]; exact hinv.size
    · intro j hj
      apply hinv.raw j
      rw [hjobs]
      rcases hj with hj | hj | hj
      · exact Or.inl hj
      · exact Or.inr (Or.inl (List.mem_cons_of_mem _ hj))
      · rcases List.mem_or_eq_of_mem_set hj with hj | hj
        · exact Or.inr (Or.inr hj)
        · cases hj; exact Or.inr (Or.inl (List.mem_cons_self _ _))
    · intro j hj
      apply hinv.scraped j
      rcases hj with hj | hj | hj
      · rcases List.mem_or_eq_of_mem_set hj with hj | hj
        · exact Or.inl hj
        · cases hj
      · exact Or.inr (Or.inl hj)
      · exact Or.inr (Or.inr hj)
    · simp only [PoolState.measure, hjobs, List.length_cons]
      omega
  · cases h

theorem PoolState.step_leave (lib : Libs) (productsToScrape : List Product) (numWorkers : Nat)
    (s s' : PoolState) (w : Nat) (hinv : s.Inv lib productsToScrape numWorkers)
    (h : s.step lib productsToScrape.length (.leave w) = some s') :
    s'.Inv lib productsToScrape numWorkers ∧ s'.measure + 1 = s.measure := by
  simp only [PoolState.step] at h
  split at h
  · rename_i hw
    split at h
    · rename_i hcond
      simp only [Option.some.injEq] at h
      subst h
      have hlen := heldJobs_set List.length length_additive s.workers w .ready .exited hw
      have hwt := totalWeight_set s.workers w .ready .exited hw
      simp only [WorkerState.held, WorkerState.weight, List.length_nil] at hlen hwt
      refine ⟨⟨?_, ?_, hinv.closed, fun _ => hcond, ?_, ?_, ?_⟩, ?_⟩
      · have := hinv.len
        simp only [PoolState.inFlight] at this ⊢
        omega
      · intro i
        have := hinv.cnt i
        have hc := heldJobs_set (fun l => (l.map Prod.fst).count i) (tagCount_additive i)
          s.workers w .ready .exited hw
        simp only [PoolState.inFlight, WorkerState.held, List.map_nil, List.count_nil]
          at this hc ⊢
        omega
      · simp only [List.length_set]; exact hinv.size
      · intro j hj
        apply hinv.raw j
        rcases hj with hj | hj | hj
        · exact Or.inl hj
        · exact Or.inr (Or.inl hj)
        · rcases List.mem_or_eq_of_mem_set hj with hj | hj
          · exact Or.inr (Or.inr hj)
          · cases hj
      · intro j hj
        apply hinv.scraped j
        rcases hj with hj | hj | hj
        · rcases List.mem_or_eq_of_mem_set hj with hj | hj
          · exact Or.inl hj
          · cases hj
        · exact Or.inr (Or.inl hj)
        · exact Or.inr (Or.inr hj)
      · simp only [PoolState.measure]
        omega
    · cases h
  · cases h

theorem PoolState.step_scrape (lib : Libs) (productsToScrape : List Product) (numWorkers : Nat)
    (s s' : PoolState) (w : Nat) (visit : Nat → Page)
    (hinv : s.Inv lib productsToScrape numWorkers)
    (h : s.step lib productsToScrape.length (.scrape w visit) = some s') :
    s'.Inv lib productsToScrape numWorkers ∧ s'.measure + 1 = s.measure := by
  simp only [PoolState.step] at h
  split at h
  · rename_i job hw
    simp only [Option.some.injEq] at h
    subst h
    have hmem : WorkerState.scraping job ∈ s.workers := List.get?_mem hw
    have hlen := heldJobs_set List.length length_additive s.workers w (.scraping job)
      (.sending (job.1, (processJob (scrapeWith lib visit) job.2).1)) hw
    have hwt := totalWeight_set s.workers w (.scraping job)
      (.sending (job.1, (processJob (scrapeWith lib visit) job.2).1)) hw
    simp only [WorkerState.held, WorkerState.weight, List.length_singleton] at hlen hwt
    refine ⟨⟨?_, ?_, hinv.closed, ?_, ?_, ?_, ?_⟩, ?_⟩
    · have := hinv.len
      simp only [PoolState.inFlight] at this ⊢
      omega
    · intro i
      have := hinv.cnt i
      have hc := heldJobs_set (fun l => (l.map Prod.fst).count i) (tagCount_additive i)
        s.workers w (.scraping job)
        (.sending (job.1, (processJob (scrapeWith lib visit) job.2).1)) hw
      simp only [PoolState.inFlight, WorkerState.held, List.map_cons, List.map_nil]
        at this hc ⊢
      omega
    · intro hex
      rcases List.mem_or_eq_of_mem_set hex with hex | hex
      · exact hinv.exited hex
      · cases hex
    · simp only [List.length_set]; exact hinv.size
    · intro j hj
      apply hinv.raw j
      rcases hj with hj | hj | hj
      · exact Or.inl hj
      · exact Or.inr (Or.inl hj)
      · rcases List.mem_or_eq_of_mem_set hj with hj | hj
        · exact Or.inr (Or.inr hj)
        · cases hj
    · intro j hj
      rcases hj with hj | hj | hj
      · rcases List.mem_or_eq_of_mem_set hj with hj | hj
        · exact hinv.scraped j (Or.inl hj)
        · cases hj
          exact ⟨visit, job.2, hinv.raw job (Or.inr (Or.inr hmem)), rfl⟩
      · exact hinv.scraped j (Or.inr (Or.inl hj))
      · exact hinv.scraped j (Or.inr (Or.inr hj))
    · simp only [PoolState.measure]
      omega
  · cases h

theorem PoolState.step_emit (lib : Libs) (productsToScrape : List Product) (numWorkers : Nat)
    (s s' : PoolState) (w : Nat) (hinv : s.Inv lib productsToScrape numWorkers)
    (h : s.step lib productsToScrape.length (.emit w) = some s') :
    s'.Inv lib productsToScrape numWorkers ∧ s'.measure + 1 = s.measure := by
  simp only [PoolState.step] at h
  split at h
  · rename_i job hw
    split at h
    · simp only [Option.some.injEq] at h
      subst h
      have hmem : WorkerState.sending job ∈ s.workers := List.get?_mem hw
      have hlen := heldJobs_set List.length length_additive s.workers w (.sending job) .ready hw
      have hwt := totalWeight_set s.workers w (.sending job) .ready hw
      simp only [WorkerState.held, WorkerState.weight, List.length_singleton, List.length_nil]
        at hlen hwt
      refine ⟨⟨?_, ?_, hinv.closed, ?_, ?_, ?_, ?_⟩, ?_⟩
      · have := hinv.len
        simp only [PoolState.inFlight, List.length_append, List.length_singleton] at this ⊢
        omega
      · intro i
        have := hinv.cnt i
        have hc := heldJobs_set (fun l => (l.map Prod.fst).count i) (tagCount_additive i)
          s.workers w (.sending job) .ready hw
        simp only [PoolState.inFlight, WorkerState.held, List.map_append, List.count_append,
          List.map_nil, List.count_nil] at this hc ⊢
        omega
      · intro hex
        rcases List.mem_or_eq_of_mem_set hex with hex | hex
        · exact hinv.exited hex
        · cases hex
      · simp only [List.length_set]; exact hinv.size
      · intro j hj
        apply hinv.raw j
        rcases hj with hj | hj | hj
        · exact Or.inl hj
        · exact Or.inr (Or.inl hj)
        · rcases List.mem_or_eq_of_mem_set hj with hj | hj
          · exact Or.inr (Or.inr hj)
          · cases hj
      · intro j hj
        apply hinv.scraped j
        rcases hj with hj | hj | hj
        · rcases List.mem_or_eq_of_mem_set hj with hj | hj
          · exact Or.inl hj
          · cases hj
        · simp only [List.mem_append, List.mem_singleton] at hj
          rcases hj with hj | hj
          · exact Or.inr (Or.inl hj)
          · subst hj; exact Or.inl hmem
        · exact Or.inr (Or.inr hj)
      · simp only [PoolState.measure, List.length_append, List.length_singleton]
        omega
    · cases h
  · cases h

theorem PoolState.step_collect (lib : Libs) (productsToScrape : List Product) (numWorkers : Nat)
    (s s' : PoolState) (hinv : s.Inv lib productsToScrape numWorkers)
    (h : s.step lib productsToScrape.length .collect = some s') :
    s'.Inv lib productsToScrape numWorkers ∧ s'.measure + 1 = s.measure := by
  simp only [PoolState.step] at h
  split at h
  · split at h
    · rename_i r rest hres
      simp only [Option.some.injEq] at h
      subst h
      refine ⟨⟨?_, ?_, hinv.closed, hinv.exited, hinv.size, hinv.raw, ?_⟩, ?_⟩
      · have := hinv.len
        simp only [PoolState.inFlight, hres, List.length_cons, List.length_append,
          List.length_nil] at this ⊢
        omega
      · intro i
        have := hinv.cnt i
        rw [hres, ← List.singleton_append] at this
        simp only [PoolState.inFlight, List.map_append, List.count_append] at this ⊢
        omega
      · intro j hj
        apply hinv.scraped j
        rw [hres]
        rcases hj with hj | hj | hj
        · exact Or.inl hj
        · exact Or.inr (Or.inl (List.mem_cons_of_mem _ hj))
        · simp only [List.mem_append, List.mem_singleton] at hj
          rcases hj with hj | hj
          · exact Or.inr (Or.inr hj)
          · subst hj; exact Or.inr (Or.inl (List.mem_cons_self _ _))
      · simp only [PoolState.measure, hres, List.length_cons]
        omega
    · cases h
  · cases h

theorem PoolState.step_inv (lib : Libs) (productsToScrape : List Product) (numWorkers : Nat)
    (s s' : PoolState) (a : Action) (hinv : s.Inv lib productsToScrape numWorkers)
    (h : s.step lib productsToScrape.length a = some s') :
    s'.Inv lib productsToScrape numWorkers ∧ s'.measure + 1 = s.measure := by
  cases a with
  | send => exact PoolState.step_send lib productsToScrape numWorkers s s' hinv h
  | close => exact PoolState.step_close lib productsToScrape numWorkers s s' hinv h
  | receive w => exact PoolState.step_receive lib productsToScrape numWorkers s s' w hinv h
  | leave w => exact PoolState.step_leave lib productsToScrape numWorkers s s' w hinv h
  | scrape w visit =>
    exact PoolState.step_scrape lib productsToScrape numWorkers s s' w visit hinv h
  | emit w => exact PoolState.step_emit lib productsToScrape numWorkers s s' w hinv h
  | collect => exact PoolState.step_collect lib productsToScrape numWorkers s s' hinv h

theorem PoolState.run_inv (lib : Libs) (productsToScrape : List Product) (numWorkers : Nat) :
    ∀ (schedule : List Action) (s s' : PoolState),
      s.Inv lib productsToScrape numWorkers →
      s.run lib productsToScrape.length schedule = some s' →
      s'.Inv lib productsToScrape numWorkers ∧ schedule.length + s'.measure = s.measure := by
  intro schedule
  induction schedule with
  | nil =>
    intro s s' hinv h
    simp only [PoolState.run, Option.some.injEq] at h
    subst h
    exact ⟨hinv, by simp⟩
  | cons a rest ih =>
    intro s s' hinv h
    simp only [PoolState.run] at h
    split at h
    · rename_i s1 hstep
      obtain ⟨hinv1, hm1⟩ := PoolState.step_inv lib productsToScrape numWorkers s s1 a hinv hstep
      obtain ⟨hinv2, hm2⟩ := ih s1 s' hinv1 h
      refine ⟨hinv2, ?_⟩
      simp only [List.length_cons]
      omega
    · cases h

theorem PoolState.progress (lib : Libs) (productsToScrape : List Product) (numWorkers : Nat)
    (s : PoolState) (hinv : s.Inv lib productsToScrape numWorkers) (hW : 1 ≤ numWorkers)
    (hnf : ¬ s.finished productsToScrape.length) :
    ∃ a, (s.step lib productsToScrape.length a).isSome = true := by
  have hlen := hinv.len
  cases hts : s.toSend with
  | cons job rest =>
    refine ⟨.send, ?_⟩
    rw [hts] at hlen
    simp only [List.length_cons] at hlen
    have hroom : s.jobs.length < productsToScrape.length := by omega
    simp [PoolState.step, hts, hroom]
  | nil =>
    cases hc : s.jobsClosed with
    | false =>
      refine ⟨.close, ?_⟩
      simp [PoolState.step, hts, hc]
    | true =>
      have hlt : s.collected.length < productsToScrape.length := by
        have hne : s.collected.length ≠ productsToScrape.length := fun h => hnf ⟨hc, h⟩
        omega
      cases hres : s.results with
      | cons r rest =>
        refine ⟨.collect, ?_⟩
        simp [PoolState.step, hc, hlt, hres]
      | nil =>
        cases hfl : heldJobs s.workers with
        | cons j js =>
          have hj : j ∈ heldJobs s.workers := by rw [hfl]; exact List.mem_cons_self _ _
          rcases (mem_heldJobs j s.workers).mp hj with hm | hm
          · obtain ⟨w, hw⟩ := List.mem_iff_get?.mp hm
            refine ⟨.scrape w (fun _ => pageWithoutTitle), ?_⟩
            simp only [PoolState.step, hw, Option.isSome_some]
          · obtain ⟨w, hw⟩ := List.mem_iff_get?.mp hm
            refine ⟨.emit w, ?_⟩
            have hroom : s.results.length < productsToScrape.length := by
              rw [hres]; simp only [List.length_nil]; omega
            simp only [PoolState.step, hw, hroom, if_true, Option.isSome_some]
        | nil =>
          rw [hts, hres] at hlen
          simp only [PoolState.inFlight, hfl, List.length_nil] at hlen
          cases hjobs : s.jobs with
          | nil => rw [hjobs] at hlen; simp only [List.length_nil] at hlen; omega
          | cons job rest =>
            have hsize := hinv.size
            cases hws : s.workers with
            | nil => rw [hws] at hsize; simp only [List.length_nil] at hsize; omega
            | cons x xs =>
              have hx : x ∈ s.workers := by rw [hws]; exact List.mem_cons_self _ _
              have hw : s.workers.get? 0 = some x := by rw [hws]; rfl
              cases x with
              | ready =>
                refine ⟨.receive 0, ?_⟩
                simp only [PoolState.step, hw, hjobs, Option.isSome_some]
              | scraping j =>
                have := (mem_heldJobs j s.workers).mpr (Or.inl hx)
                rw [hfl] at this; cases this
              | sending j =>
                have := (mem_heldJobs j s.workers).mpr (Or.inr hx)
                rw [hfl] at this; cases this
              | exited =>
                have := (hinv.exited hx).1
                rw [hjobs] at this; cases this

theorem PoolState.can_finish (lib : Libs) (productsToScrape : List Product) (numWorkers : Nat)
    (hW : 1 ≤ numWorkers) :
    ∀ (n : Nat) (s : PoolState), s.Inv lib productsToScrape numWorkers → s.measure ≤ n →
      ∃ (more : List Action) (s' : PoolState),
        s.run lib productsToScrape.length more = some s' ∧
        s'.finished productsToScrape.length := by
  intro n
  induction n with
  | zero =>
    intro s hinv hm
    by_cases hf : s.finished productsToScrape.length
    · exact ⟨[], s, rfl, hf⟩
    · obtain ⟨a, ha⟩ := PoolState.progress lib productsToScrape numWorkers s hinv hW hf
      obtain ⟨s1, hs1⟩ := Option.isSome_iff_exists.mp ha
      have := (PoolState.step_inv lib productsToScrape numWorkers s s1 a hinv hs1).2
      omega
  | succ k ih =>
    intro s hinv hm
    by_cases hf : s.finished productsToScrape.length
    · exact ⟨[], s, rfl, hf⟩
    · obtain ⟨a, ha⟩ := PoolState.progress lib productsToScrape numWorkers s hinv hW hf
      obtain ⟨s1, hs1⟩ := Option.isSome_iff_exists.mp ha
      obtain ⟨hinv1, hm1⟩ := PoolState.step_inv lib productsToScrape numWorkers s s1 a hinv hs1
      obtain ⟨more, s', hrun, hfin⟩ := ih s1 hinv1 (by omega)
      refine ⟨a :: more, s', ?_, hfin⟩
      simp only [PoolState.run, hs1]
      exact hrun

/-- C1: for every list of K products and every worker count W ≥ 1, in every state the pool
can reach under any interleaving of the main routine and the workers: the products sent to
`results` so far carry distinct input positions, are at most K, and each is its input after
a worker's retry loop (succeeded or exhausted); when the collecting loop is done, it has
received exactly K results, one per input position, and nothing is left in the channels or
with the workers; before that some goroutine can always move (no deadlock) and the pool can
be run on to completion; and every schedule has at most 5K + W + 1 actions. -/
theorem pool_sends_one_result_per_input (lib : Libs) (productsToScrape : List Product)
    (numWorkers : Nat) (hW : 1 ≤ numWorkers) (schedule : List Action) (s : PoolState)
    (hrun : (PoolState.init productsToScrape numWorkers).run lib productsToScrape.length
      schedule = some s) :
    (s.sent.map Prod.fst).Nodup ∧
    s.sent.length ≤ productsToScrape.length ∧
    (∀ r ∈ s.sent, ∃ (visit : Nat → Page) (p : Product),
      productsToScrape.get? r.1 = some p ∧ r.2 = (processJob (scrapeWith lib visit) p).1) ∧
    (s.finished productsToScrape.length →
      s.sent.length = productsToScrape.length ∧
      s.collected.length = productsToScrape.length ∧
      (s.collected.map Prod.fst).Perm (List.range productsToScrape.length) ∧
      s.results = [] ∧ s.inFlight = [] ∧ s.jobs = [] ∧ s.toSend = []) ∧
    (¬ s.finished productsToScrape.length →
      ∃ a, (s.step lib productsToScrape.length a).isSome = true) ∧
    (∃ (more : List Action) (s' : PoolState),
      s.run lib productsToScrape.length more = some s' ∧
      s'.finished productsToScrape.length) ∧
    schedule.length + s.measure = 5 * productsToScrape.length + numWorkers + 1 := by
  obtain ⟨hinv, hm⟩ := PoolState.run_inv lib productsToScrape numWorkers schedule _ s
    (PoolState.Inv_init lib productsToScrape numWorkers) hrun
  rw [PoolState.measure_init] at hm
  have hlen := hinv.len
  refine ⟨?_, ?_, ?_, ?_, ?_, ?_, hm⟩
  · rw [List.nodup_iff_count_le_one]
    intro i
    have hc := hinv.cnt i
    have hr := List.nodup_iff_count_le_one.mp (List.nodup_range productsToScrape.length) i
    simp only [PoolState.sent, List.map_append, List.count_append]
    omega
  · simp only [PoolState.sent, List.length_append]
    omega
  · intro r hr
    simp only [PoolState.sent, List.mem_append] at hr
    rcases hr with hr | hr
    · exact hinv.scraped r (Or.inr (Or.inr hr))
    · exact hinv.scraped r (Or.inr (Or.inl hr))
  · intro hfin
    have hK := hfin.2
    have h1 : s.toSend = [] := List.eq_nil_of_length_eq_zero (by omega)
    have h2 : s.jobs = [] := List.eq_nil_of_length_eq_zero (by omega)
    have h3 : s.inFlight = [] := List.eq_nil_of_length_eq_zero (by omega)
    have h4 : s.results = [] := List.eq_nil_of_length_eq_zero (by omega)
    refine ⟨?_, hK, ?_, h4, h3, h2, h1⟩
    · simp only [PoolState.sent, h4, List.append_nil]
      exact hK
    · rw [List.perm_iff_count]
      intro i
      have hc := hinv.cnt i
      rw [h1, h2, h3, h4] at hc
      simpa using hc
  · exact PoolState.progress lib productsToScrape numWorkers s hinv hW
  · exact PoolState.can_finish lib productsToScrape numWorkers hW s.measure s hinv (le_refl _)

/-- Witness for C1: two products, one worker, and the schedule in which the worker handles
them one after the other; the first page has a title, the second never has one. -/
theorem pool_sends_one_result_per_input_witness :
    ∃ s : PoolState,
      (PoolState.init [sampleProduct "https://www.amazon.ae/dp/B0ABC123",
          sampleProduct "https://www.amazon.ae/dp/B0XYZ789"] 1).run (sampleLibs none) 2
        [.send, .send, .close, .receive 0, .scrape 0 (fun _ => pageWithTitle), .emit 0,
          .collect, .receive 0, .scrape 0 (fun _ => pageWithoutTitle), .emit 0, .collect]
        = some s ∧
      s.finished 2 ∧ (s.collected.map Prod.fst).Perm (List.range 2) :=
  have hex : ∃ s : PoolState,
      (PoolState.init [sampleProduct "https://www.amazon.ae/dp/B0ABC123",
          sampleProduct "https://www.amazon.ae/dp/B0XYZ789"] 1).run (sampleLibs none) 2
        [.send, .send, .close, .receive 0, .scrape 0 (fun _ => pageWithTitle), .emit 0,
          .collect, .receive 0, .scrape 0 (fun _ => pageWithoutTitle), .emit 0, .collect]
        = some s ∧ s.finished 2 := ⟨_, rfl, rfl, rfl⟩
  hex.elim fun s hs =>
    ⟨s, hs.1, hs.2,
      ((pool_sends_one_result_per_input (sampleLibs none)
        [sampleProduct "https://www.amazon.ae/dp/B0ABC123",
          sampleProduct "https://www.amazon.ae/dp/B0XYZ789"] 1 (le_refl 1) _ s hs.1).2.2.2.1
        hs.2).2.2.1⟩

/-! ## `float64`: what the rounding computes -/

theorem float64.two_zpow_pos (e : Int) : (0 : ℚ) < (2 : ℚ) ^ e := by positivity

theorem float64.two_zpow_lt {a b : Int} (h : a < b) : (2 : ℚ) ^ a < (2 : ℚ) ^ b :=
  zpow_right_strictMono₀ (by norm_num : (1 : ℚ) < 2) h

theorem float64.two_zpow_le {a b : Int} (h : a ≤ b) : (2 : ℚ) ^ a ≤ (2 : ℚ) ^ b :=
  zpow_le_zpow_right₀ (by norm_num : (1 : ℚ) ≤ 2) h

theorem float64.ilog2_spec (x : ℚ) (hx : 0 < x) :
    (2 : ℚ) ^ float64.ilog2 x ≤ x ∧ x < (2 : ℚ) ^ (float64.ilog2 x + 1) := by
  have hnum : 0 < x.num := Rat.num_pos.mpr hx
  have hn0 : x.num.natAbs ≠ 0 := by omega
  have hd0 : x.den ≠ 0 := x.den_nz
  have hxeq : x = (x.num.natAbs : ℚ) / (x.den : ℚ) := by
    have h2 : (x.num.natAbs : ℚ) = (x.num : ℚ) := by
      rw [← Int.cast_natCast, Int.natAbs_of_nonneg hnum.le]
    rw [h2]
    exact (Rat.num_div_den x).symm
  have hdpos : (0 : ℚ) < (x.den : ℚ) := by exact_mod_cast Nat.pos_of_ne_zero hd0
  have ha1 : ((2 : ℚ) ^ (Nat.log2 x.num.natAbs)) ≤ (x.num.natAbs : ℚ) := by
    exact_mod_cast Nat.log2_self_le hn0
  have ha2 : (x.num.natAbs : ℚ) < (2 : ℚ) ^ (Nat.log2 x.num.natAbs + 1) := by
    exact_mod_cast (Nat.lt_log2_self : x.num.natAbs < 2 ^ (Nat.log2 x.num.natAbs + 1))
  have hb1 : ((2 : ℚ) ^ (Nat.log2 x.den)) ≤ (x.den : ℚ) := by
    exact_mod_cast Nat.log2_self_le hd0
  have hb2 : (x.den : ℚ) < (2 : ℚ) ^ (Nat.log2 x.den + 1) := by
    exact_mod_cast (Nat.lt_log2_self : x.den < 2 ^ (Nat.log2 x.den + 1))
  have hpa : (0 : ℚ) < (2 : ℚ) ^ (Nat.log2 x.num.natAbs) := by positivity
  have hpb : (0 : ℚ) < (2 : ℚ) ^ (Nat.log2 x.den) := by positivity
  have hup : x < (2 : ℚ) ^ ((Nat.log2 x.num.natAbs : Int) - (Nat.log2 x.den : Int) + 1) := by
    have : (2 : ℚ) ^ ((Nat.log2 x.num.natAbs : Int) - (Nat.log2 x.den : Int) + 1) =
        (2 : ℚ) ^ (Nat.log2 x.num.natAbs + 1) / (2 : ℚ) ^ (Nat.log2 x.den) := by
      rw [show ((Nat.log2 x.num.natAbs : Int) - (Nat.log2 x.den : Int) + 1) =
        ((Nat.log2 x.num.natAbs + 1 : ℕ) : Int) - ((Nat.log2 x.den : ℕ) : Int) by push_cast; ring,
        zpow_sub₀ (by norm_num : (2 : ℚ) ≠ 0), zpow_natCast, zpow_natCast]
    rw [this]
    refine lt_of_eq_of_lt hxeq ?_
    rw [div_lt_div_iff₀ hdpos hpb]
    calc (x.num.natAbs : ℚ) * 2 ^ Nat.log2 x.den
        ≤ (x.num.natAbs : ℚ) * (x.den : ℚ) := by
          apply mul_le_mul_of_nonneg_left hb1; positivity
      _ < 2 ^ (Nat.log2 x.num.natAbs + 1) * (x.den : ℚ) := by
          apply mul_lt_mul_of_pos_right ha2 hdpos
  have hlow : (2 : ℚ) ^ ((Nat.log2 x.num.natAbs : Int) - (Nat.log2 x.den : Int) - 1) ≤ x := by
    have : (2 : ℚ) ^ ((Nat.log2 x.num.natAbs : Int) - (Nat.log2 x.den : Int) - 1) =
        (2 : ℚ) ^ (Nat.log2 x.num.natAbs) / (2 : ℚ) ^ (Nat.log2 x.den + 1) := by
      rw [show ((Nat.log2 x.num.natAbs : Int) - (Nat.log2 x.den : Int) - 1) =
        ((Nat.log2 x.num.natAbs : ℕ) : Int) - ((Nat.log2 x.den + 1 : ℕ) : Int) by push_cast; ring,
        zpow_sub₀ (by norm_num : (2 : ℚ) ≠ 0), zpow_natCast, zpow_natCast]
    have hpb1 : (0 : ℚ) < (2 : ℚ) ^ (Nat.log2 x.den + 1) := by positivity
    rw [this]
    refine le_of_le_of_eq ?_ hxeq.symm
    rw [div_le_div_iff₀ hpb1 hdpos]
    calc (2 : ℚ) ^ Nat.log2 x.num.natAbs * (x.den : ℚ)
        ≤ (x.num.natAbs : ℚ) * (x.den : ℚ) := by
          apply mul_le_mul_of_nonneg_right ha1 hdpos.le
      _ ≤ (x.num.natAbs : ℚ) * 2 ^ (Nat.log2 x.den + 1) := by
          apply mul_le_mul_of_nonneg_left hb2.le; positivity
  unfold float64.ilog2
  simp only
  split_ifs with h
  · exact ⟨h, hup⟩
  · refine ⟨hlow, ?_⟩
    rw [sub_add_cancel]
    exact lt_of_not_le h

theorem float64.ilog2_eq (x : ℚ) (e : Int) (hlo : (2 : ℚ) ^ e ≤ x) (hhi : x < (2 : ℚ) ^ (e + 1)) :
    float64.ilog2 x = e := by
  have hx : 0 < x := lt_of_lt_of_le (float64.two_zpow_pos e) hlo
  obtain ⟨h1, h2⟩ := float64.ilog2_spec x hx
  rcases lt_trichotomy (float64.ilog2 x) e with h | h | h
  · have : (2 : ℚ) ^ (float64.ilog2 x + 1) ≤ (2 : ℚ) ^ e := float64.two_zpow_le (by omega)
    exact absurd (lt_of_lt_of_le h2 this) (not_lt.mpr hlo)
  · exact h
  · have : (2 : ℚ) ^ (e + 1) ≤ (2 : ℚ) ^ float64.ilog2 x := float64.two_zpow_le (by omega)
    exact absurd (lt_of_lt_of_le hhi this) (not_lt.mpr h1)

theorem float64.roundEven_bounds (t : ℚ) :
    t - 1 / 2 ≤ (float64.roundEven t : ℚ) ∧ (float64.roundEven t : ℚ) ≤ t + 1 / 2 := by
  have h1 : (⌊t⌋ : ℚ) ≤ t := Int.floor_le t
  have h2 : t < (⌊t⌋ : ℚ) + 1 := Int.lt_floor_add_one t
  unfold float64.roundEven
  simp only
  split_ifs with ha hb hc
  · constructor <;> linarith
  · push_cast; constructor <;> linarith
  · have : t - (⌊t⌋ : ℚ) = 1 / 2 := le_antisymm (not_lt.mp hb) (not_lt.mp ha)
    constructor <;> linarith
  · have : t - (⌊t⌋ : ℚ) = 1 / 2 := le_antisymm (not_lt.mp hb) (not_lt.mp ha)
    push_cast; constructor <;> linarith

theorem float64.roundEven_eq (t : ℚ) (n : Int) (h1 : (n : ℚ) - 1 / 2 < t)
    (h2 : t < (n : ℚ) + 1 / 2) : float64.roundEven t = n := by
  obtain ⟨hlo, hhi⟩ := float64.roundEven_bounds t
  have ha : ((float64.roundEven t : Int) : ℚ) < (n : ℚ) + 1 := by linarith
  have hb : (n : ℚ) - 1 < ((float64.roundEven t : Int) : ℚ) := by linarith
  have ha' : float64.roundEven t < n + 1 := by exact_mod_cast ha
  have hb' : n - 1 < float64.roundEven t := by exact_mod_cast hb
  omega

theorem float64.roundEven_intCast (n : Int) : float64.roundEven (n : ℚ) = n :=
  float64.roundEven_eq _ n (by linarith) (by linarith)

theorem float64.roundEven_nonneg (t : ℚ) (ht : 0 ≤ t) : 0 ≤ float64.roundEven t := by
  obtain ⟨hlo, _⟩ := float64.roundEven_bounds t
  have : (-1 : ℚ) < ((float64.roundEven t : Int) : ℚ) := by linarith
  have : (-1 : Int) < float64.roundEven t := by exact_mod_cast this
  omega

theorem float64.round_eq (x : ℚ) (e n : Int) (hlo : (2 : ℚ) ^ e ≤ x) (hhi : x < (2 : ℚ) ^ (e + 1))
    (he : -1022 ≤ e) (hn : float64.roundEven (x / (2 : ℚ) ^ (e - 52)) = n) :
    float64.round x = (n : ℚ) * (2 : ℚ) ^ (e - 52) := by
  have hx : 0 < x := lt_of_lt_of_le (float64.two_zpow_pos e) hlo
  unfold float64.round
  rw [if_neg hx.ne', abs_of_pos hx, float64.ilog2_eq x e hlo hhi, max_eq_left he]
  simp only [hn]

theorem float64.round_exact (x : ℚ) (e n : Int) (hlo : (2 : ℚ) ^ e ≤ x)
    (hhi : x < (2 : ℚ) ^ (e + 1)) (he : -1022 ≤ e) (hn : x = (n : ℚ) * (2 : ℚ) ^ (e - 52)) :
    float64.round x = x := by
  have hpos := float64.two_zpow_pos (e - 52)
  rw [float64.round_eq x e n hlo hhi he, ← hn]
  rw [hn, mul_div_assoc, div_self hpos.ne', mul_one]
  exact float64.roundEven_intCast n

theorem float64.round_nonneg (x : ℚ) (hx : 0 ≤ x) : 0 ≤ float64.round x := by
  unfold float64.round
  split_ifs with h0
  · exact le_refl 0
  · simp only
    apply mul_nonneg
    · exact_mod_cast float64.roundEven_nonneg _ (div_nonneg hx (float64.two_zpow_pos _).le)
    · exact (float64.two_zpow_pos _).le

theorem float64.round_abs_sub_le (x : ℚ) (hx : 0 < x) :
    |float64.round x - x| ≤ (2 : ℚ) ^ (max (float64.ilog2 x) (-1022) - 52) / 2 := by
  have hpos := float64.two_zpow_pos (max (float64.ilog2 x) (-1022) - 52)
  obtain ⟨hlo, hhi⟩ := float64.roundEven_bounds
    (x / (2 : ℚ) ^ (max (float64.ilog2 x) (-1022) - 52))
  unfold float64.round
  rw [if_neg hx.ne', abs_of_pos hx]
  simp only
  have hx' : x = x / (2 : ℚ) ^ (max (float64.ilog2 x) (-1022) - 52) *
      (2 : ℚ) ^ (max (float64.ilog2 x) (-1022) - 52) := by
    rw [div_mul_cancel₀ _ hpos.ne']
  rw [abs_le]
  constructor
  · nlinarith
  · nlinarith

theorem float64.toInt_natCast (n : Nat) : float64.toInt (n : ℚ) = n := by
  unfold float64.toInt
  rw [if_pos (by positivity)]
  exact_mod_cast Int.floor_natCast (α := ℚ) n

theorem float64.round_dyadic (m k : Nat) (hm : m < 2 ^ 53) (hk : k ≤ 1022) :
    float64.round ((m : ℚ) / 2 ^ k) = (m : ℚ) / 2 ^ k := by
  rcases Nat.eq_zero_or_pos m with h0 | hpos
  · subst h0
    simp [float64.round]
  · have hm0 : m ≠ 0 := by omega
    have ha : Nat.log2 m < 53 := (Nat.log2_lt hm0).mpr hm
    have h2k : (0 : ℚ) < (2 : ℚ) ^ k := by positivity
    have hpow : ∀ (a b : Nat), (2 : ℚ) ^ ((a : Int) - (b : Int)) = (2 : ℚ) ^ a / (2 : ℚ) ^ b := by
      intro a b
      rw [zpow_sub₀ (by norm_num : (2 : ℚ) ≠ 0), zpow_natCast, zpow_natCast]
    apply float64.round_exact _ ((Nat.log2 m : Int) - (k : Int))
      (((m * 2 ^ (52 - Nat.log2 m) : Nat) : Int))
    · rw [hpow, div_le_div_iff_of_pos_right h2k]
      exact_mod_cast Nat.log2_self_le hm0
    · rw [show ((Nat.log2 m : Int) - (k : Int) + 1) = ((Nat.log2 m + 1 : Nat) : Int) - (k : Int) by
        push_cast; ring, hpow, div_lt_div_iff_of_pos_right h2k]
      exact_mod_cast (Nat.lt_log2_self : m < 2 ^ (Nat.log2 m + 1))
    · omega
    · rw [show ((Nat.log2 m : Int) - (k : Int) - 52) =
        ((Nat.log2 m : Nat) : Int) - ((k + 52 : Nat) : Int) by push_cast; ring, hpow]
      push_cast
      have h52 : (2 : ℚ) ^ (k + 52) = 2 ^ k * (2 ^ (52 - Nat.log2 m) * 2 ^ Nat.log2 m) := by
        rw [← pow_add, ← pow_add]
        congr 1
        omega
      rw [h52]
      have hq1 : (0 : ℚ) < 2 ^ (52 - Nat.log2 m) := by positivity
      have hq2 : (0 : ℚ) < 2 ^ Nat.log2 m := by positivity
      field_simp
      ring

theorem float64.round_natCast (n : Nat) (hn : n < 2 ^ 53) : float64.round (n : ℚ) = n := by
  have := float64.round_dyadic n 0 hn (by omega)
  simpa using this

/-! ## `extractPrices`: the computed percentage -/

theorem float64.toInt_of_floor (x : ℚ) (n : Int) (h0 : 0 ≤ x) (h1 : (n : ℚ) ≤ x)
    (h2 : x < (n : ℚ) + 1) : float64.toInt x = n := by
  unfold float64.toInt
  rw [if_pos h0, Int.floor_eq_iff]
  exact ⟨h1, h2⟩

theorem float64.toInt_nonneg (x : ℚ) (h0 : 0 ≤ x) : 0 ≤ float64.toInt x := by
  unfold float64.toInt
  rw [if_pos h0]
  exact Int.floor_nonneg.mpr h0

theorem reconcile_percent_eq (original discount : ℚ) (h1 : discount < original)
    (h2 : 0 < discount) :
    extractPrices.reconcile original discount 0 =
      (original, discount,
        float64.toInt
          (float64.mul (float64.div (float64.sub original discount) original) 100)) := by
  have h0 : original ≠ 0 := (lt_trans h2 h1).ne'
  unfold extractPrices.reconcile
  simp [h0, h1, h2]

/-- C11, as the claim states it, fails: for `original = 16` and `discount = 1` the exact
percentage is 93.75, whose nearest integer is 94, and the code returns 93. -/
theorem extractPrices_reconcile_percent_not_rounded :
    (extractPrices.reconcile 16 1 0).2.2 = 93 ∧
    roundNearest ((16 - 1 : ℚ) / 16 * 100) = 94 ∧
    (extractPrices.reconcile 16 1 0).2.2 ≠ roundNearest ((16 - 1 : ℚ) / 16 * 100) := by
  have hsub : float64.sub 16 1 = 15 := by
    unfold float64.sub
    have := float64.round_natCast 15 (by norm_num)
    norm_num at this ⊢
    exact this
  have hdiv : float64.div 15 16 = 15 / 16 := by
    unfold float64.div
    have := float64.round_dyadic 15 4 (by norm_num) (by norm_num)
    norm_num at this ⊢
    exact this
  have hmul : float64.mul (15 / 16) 100 = 375 / 4 := by
    unfold float64.mul
    have := float64.round_dyadic 375 2 (by norm_num) (by norm_num)
    norm_num at this ⊢
    exact this
  have hint : float64.toInt (375 / 4) = 93 :=
    float64.toInt_of_floor _ 93 (by norm_num) (by norm_num) (by norm_num)
  have hcode : (extractPrices.reconcile 16 1 0).2.2 = 93 := by
    rw [reconcile_percent_eq 16 1 (by norm_num) (by norm_num)]
    simp only [hsub, hdiv, hmul, hint]
  have hround : roundNearest ((16 - 1 : ℚ) / 16 * 100) = 94 := by
    unfold roundNearest
    rw [Int.floor_eq_iff]
    constructor <;> norm_num
  refine ⟨hcode, hround, ?_⟩
  rw [hcode, hround]
  decide

/-- C11, amended: in the reconciliation stage of `extractPrices`, for all prices with percent
unset (0) and `original > discount > 0`, the returned percent is the `float64` value of
`((original - discount) / original) * 100` truncated toward zero (Go's `int` conversion), a
non-negative integer, and the prices are returned as they were. -/
theorem extractPrices_reconcile_percent_truncated (original discount : ℚ)
    (h1 : discount < original) (h2 : 0 < discount) :
    extractPrices.reconcile original discount 0 =
      (original, discount,
        float64.toInt
          (float64.mul (float64.div (float64.sub original discount) original) 100)) ∧
    0 ≤ (extractPrices.reconcile original discount 0).2.2 := by
  refine ⟨reconcile_percent_eq original discount h1 h2, ?_⟩
  rw [reconcile_percent_eq original discount h1 h2]
  apply float64.toInt_nonneg
  unfold float64.mul float64.div float64.sub
  apply float64.round_nonneg
  apply mul_nonneg _ (by norm_num)
  apply float64.round_nonneg
  apply div_nonneg _ (lt_trans h2 h1).le
  apply float64.round_nonneg
  linarith

/-- Witness for C11 amended: `discount = 80, original = 100` yields `percent = 20`, through
the `float64` quotient 0.2 (not exact) and its product with 100 (rounded back to 20). -/
theorem extractPrices_reconcile_percent_truncated_witness :
    (80 : ℚ) < 100 ∧ (0 : ℚ) < 80 ∧ extractPrices.reconcile 100 80 0 = (100, 80, 20) := by
  have hsub : float64.sub 100 80 = 20 := by
    unfold float64.sub
    have := float64.round_natCast 20 (by norm_num)
    norm_num at this ⊢
    exact this
  have hdiv : float64.div 20 100 = 7205759403792794 * (2 : ℚ) ^ (-55 : Int) := by
    unfold float64.div
    have := float64.round_eq (20 / 100) (-3) 7205759403792794 (by norm_num) (by norm_num)
      (by norm_num) (float64.roundEven_eq _ _ (by norm_num) (by norm_num))
    norm_num at this ⊢
    exact this
  have hmul : float64.mul (7205759403792794 * (2 : ℚ) ^ (-55 : Int)) 100 = 20 := by
    unfold float64.mul
    have := float64.round_eq (7205759403792794 * (2 : ℚ) ^ (-55 : Int) * 100) 4
      5629499534213120 (by norm_num) (by norm_num) (by norm_num)
      (float64.roundEven_eq _ _ (by norm_num) (by norm_num))
    norm_num at this ⊢
    exact this
  have hint : float64.toInt 20 = 20 :=
    float64.toInt_of_floor _ 20 (by norm_num) (by norm_num) (by norm_num)
  refine ⟨by norm_num, by norm_num, ?_⟩
  rw [(extractPrices_reconcile_percent_truncated 100 80 (by norm_num) (by norm_num)).1]
  simp only [hsub, hdiv, hmul, hint]

/-! ## `utils.ParsePrice` -/

theorem utils.priceRegexFindString_cons (c : Char) (s : Str) :
    utils.priceRegexFindString (c :: s) =
      if utils.isDigit c ∨ c = ',' then
        (match (c :: s).dropWhile (fun x => utils.isDigit x || x == ',') with
         | '.' :: r =>
           if r.takeWhile utils.isDigit = [] then
             (c :: s).takeWhile (fun x => utils.isDigit x || x == ',')
           else (c :: s).takeWhile (fun x => utils.isDigit x || x == ',') ++
             '.' :: r.takeWhile utils.isDigit
         | _ => (c :: s).takeWhile (fun x => utils.isDigit x || x == ','))
      else utils.priceRegexFindString s := by
  rw [utils.priceRegexFindString]

theorem utils.takeWhile_isDigit_of_none (r : Str) (h : ∀ c ∈ r, utils.isDigit c = false) :
    r.takeWhile utils.isDigit = [] := by
  cases r with
  | nil => rfl
  | cons c t =>
    rw [List.takeWhile_cons_of_neg]
    rw [h c (List.mem_cons_self _ _)]
    decide

theorem utils.find_of_no_digit :
    ∀ s : Str, (∀ c ∈ s, utils.isDigit c = false) →
      (utils.priceRegexFindString s).filter (fun c => c != ',') = [] := by
  intro s
  induction s with
  | nil => intro _; rfl
  | cons c s ih =>
    intro h
    rw [utils.priceRegexFindString_cons]
    have hrun : ((c :: s).takeWhile (fun x => utils.isDigit x || x == ',')).filter
        (fun c => c != ',') = [] := by
      rw [List.filter_eq_nil_iff]
      intro a ha
      have hp := List.mem_takeWhile_imp ha
      have hmem := (List.takeWhile_sublist _).subset ha
      rw [h a hmem] at hp
      simpa using hp
    split_ifs with hc
    · split
      · rename_i r hr
        have hsub : ∀ x ∈ r, utils.isDigit x = false := by
          intro x hx
          apply h x
          apply (List.dropWhile_sublist (fun x => utils.isDigit x || x == ',')).subset
          rw [hr]
          exact List.mem_cons_of_mem _ hx
        rw [if_pos (utils.takeWhile_isDigit_of_none r hsub)]
        exact hrun
      · exact hrun
    · exact ih (fun x hx => h x (List.mem_cons_of_mem _ hx))

/-- C13: for the empty string and for every string without a decimal digit (so also one
whose only number-like characters are commas), `ParsePrice` returns 0; it is a total function
with no error result. -/
theorem ParsePrice_zero_without_digit (priceStr : Str)
    (h : ∀ c ∈ priceStr, utils.isDigit c = false) :
    utils.ParsePrice priceStr = 0 ∧ utils.ParsePrice [] = 0 := by
  refine ⟨?_, rfl⟩
  unfold utils.ParsePrice
  by_cases h1 : priceStr = []
  · rw [if_pos h1]
  · rw [if_neg h1]
    simp only
    by_cases h2 : utils.priceRegexFindString priceStr = []
    · rw [if_pos h2]
    · rw [if_neg h2, utils.find_of_no_digit priceStr h]
      rfl

/-- Witness for C13: "No Price" and a string of commas. -/
theorem ParsePrice_zero_without_digit_witness :
    utils.ParsePrice "No Price".toList = 0 ∧ utils.ParsePrice ", ,, AED".toList = 0 :=
  ⟨(ParsePrice_zero_without_digit "No Price".toList (by decide)).1,
   (ParsePrice_zero_without_digit ", ,, AED".toList (by decide)).1⟩

theorem utils.foldl_digits (l : Str) :
    ∀ a : Nat, l.foldl (fun acc c => 10 * acc + (c.toNat - 48)) a =
      a * 10 ^ l.length + l.foldl (fun acc c => 10 * acc + (c.toNat - 48)) 0 := by
  induction l with
  | nil => intro a; simp
  | cons c t ih =>
    intro a
    simp only [List.foldl_cons, List.length_cons]
    rw [ih (10 * a + (c.toNat - 48)), ih (10 * 0 + (c.toNat - 48))]
    ring

theorem utils.digitsValue_append (a b : Str) :
    utils.digitsValue (a ++ b) = utils.digitsValue a * 10 ^ b.length + utils.digitsValue b := by
  unfold utils.digitsValue
  rw [List.foldl_append, utils.foldl_digits b]

theorem utils.digitsValue_cons (c : Char) (t : Str) :
    utils.digitsValue (c :: t) = (c.toNat - 48) * 10 ^ t.length + utils.digitsValue t := by
  have := utils.digitsValue_append [c] t
  simpa [utils.digitsValue] using this

theorem utils.digitsValue_lt (l : Str) (h : ∀ c ∈ l, utils.isDigit c = true) :
    utils.digitsValue l < 10 ^ l.length := by
  induction l with
  | nil => simp [utils.digitsValue]
  | cons c t ih =>
    rw [utils.digitsValue_cons, List.length_cons]
    have hc := h c (List.mem_cons_self _ _)
    have ht := ih (fun x hx => h x (List.mem_cons_of_mem _ hx))
    have hc9 : c.toNat - 48 ≤ 9 := by
      simp only [utils.isDigit, decide_eq_true_eq] at hc
      omega
    have hpos : 0 < 10 ^ t.length := by positivity
    calc (c.toNat - 48) * 10 ^ t.length + utils.digitsValue t
        < (c.toNat - 48) * 10 ^ t.length + 10 ^ t.length := by omega
      _ = (c.toNat - 48 + 1) * 10 ^ t.length := by ring
      _ ≤ 10 * 10 ^ t.length := Nat.mul_le_mul_right _ (by omega)
      _ = 10 ^ (t.length + 1) := by ring

theorem utils.digitsValue_dropWhile_zero (l : Str) :
    utils.digitsValue (l.dropWhile (fun c => c == '0')) = utils.digitsValue l := by
  induction l with
  | nil => rfl
  | cons c t ih =>
    by_cases hc : c = '0'
    · subst hc
      rw [List.dropWhile_cons_of_pos (by decide), ih, utils.digitsValue_cons]
      simp
    · rw [List.dropWhile_cons_of_neg (by simpa using hc)]

theorem utils.find_numeral (ip frac : Str)
    (hip : ∀ c ∈ ip, utils.isDigit c = true ∨ c = ',')
    (hne : ip ≠ [])
    (hfrac : frac = [] ∨ ∃ fp, frac = '.' :: fp ∧ fp ≠ [] ∧ ∀ c ∈ fp, utils.isDigit c = true) :
    ∀ pre : Str, (∀ c ∈ pre, utils.isDigit c = false ∧ c ≠ ',') →
      utils.priceRegexFindString (pre ++ (ip ++ frac)) = ip ++ frac := by
  have hp : ∀ a ∈ ip, (fun x => utils.isDigit x || x == ',') a = true := by
    intro a ha
    rcases hip a ha with h | h
    · simp [h]
    · simp [h]
  have htake : (ip ++ frac).takeWhile (fun x => utils.isDigit x || x == ',') = ip := by
    rw [List.takeWhile_append_of_pos hp]
    rcases hfrac with h | ⟨fp, h, _, _⟩
    · rw [h]; simp
    · rw [h, List.takeWhile_cons_of_neg (by decide)]; simp
  have hdrop : (ip ++ frac).dropWhile (fun x => utils.isDigit x || x == ',') = frac := by
    rw [List.dropWhile_append_of_pos hp]
    rcases hfrac with h | ⟨fp, h, _, _⟩
    · rw [h]; rfl
    · rw [h, List.dropWhile_cons_of_neg (by decide)]
  intro pre
  induction pre with
  | nil =>
    intro _
    rw [List.nil_append]
    cases hcons : ip ++ frac with
    | nil =>
      have := List.append_eq_nil.mp hcons
      exact absurd this.1 hne
    | cons c s =>
      have hc : utils.isDigit c = true ∨ c = ',' := by
        cases ip with
        | nil => exact absurd rfl hne
        | cons a t =>
          simp only [List.cons_append, List.cons.injEq] at hcons
          rw [← hcons.1]
          exact hip a (List.mem_cons_self _ _)
      rw [utils.priceRegexFindString_cons, if_pos hc, ← hcons, htake, hdrop]
      rcases hfrac with h | ⟨fp, h, hfp, hdig⟩
      · rw [h]
        simp
      · rw [h]
        simp only
        rw [List.takeWhile_eq_self_iff.mpr hdig, if_neg hfp]
  | cons c t ih =>
    intro h
    have hc := h c (List.mem_cons_self _ _)
    rw [List.cons_append, utils.priceRegexFindString_cons, if_neg (by simp [hc.1, hc.2])]
    exact ih (fun x hx => h x (List.mem_cons_of_mem _ hx))

theorem utils.filter_comma_eq_filter_digit (ip : Str)
    (hip : ∀ c ∈ ip, utils.isDigit c = true ∨ c = ',') :
    ip.filter (fun c => c != ',') = ip.filter utils.isDigit := by
  apply List.filter_congr
  intro c hc
  rcases hip c hc with h | h
  · rw [h]
    have : c ≠ ',' := by
      intro hcc
      rw [hcc] at h
      exact absurd h (by decide)
    simp [this]
  · subst h
    decide

theorem utils.decimalValue_numeral (ip frac : Str)
    (hip : ∀ c ∈ ip, utils.isDigit c = true ∨ c = ',')
    (hfrac : frac = [] ∨ ∃ fp, frac = '.' :: fp ∧ fp ≠ [] ∧ ∀ c ∈ fp, utils.isDigit c = true) :
    decimalValue (ip ++ frac) =
      (utils.digitsValue (ip.filter utils.isDigit ++ frac.drop 1) : ℚ) /
        10 ^ (frac.drop 1).length := by
  have hnodot : ∀ a ∈ ip, (fun c => c != '.') a = true := by
    intro a ha
    rcases hip a ha with h | h
    · have : a ≠ '.' := by
        intro hcc
        rw [hcc] at h
        exact absurd h (by decide)
      simp [this]
    · subst h
      decide
  unfold decimalValue
  rw [List.dropWhile_append_of_pos hnodot, List.filter_append]
  rcases hfrac with h | ⟨fp, h, _, hdig⟩
  · subst h
    simp
  · subst h
    rw [List.dropWhile_cons_of_neg (by decide), List.drop_one, List.tail_cons,
      List.filter_cons_of_neg (by decide), List.filter_eq_self.mpr hdig]

theorem utils.ParseFloat_digits (ds frac : Str) (hds : ∀ c ∈ ds, utils.isDigit c = true)
    (hne : ds ≠ [])
    (hfrac : frac = [] ∨ ∃ fp, frac = '.' :: fp ∧ fp ≠ [] ∧ ∀ c ∈ fp, utils.isDigit c = true)
    (hfin : ¬ float64.maxFloat <
      float64.round ((utils.digitsValue (ds ++ frac.drop 1) : ℚ) / 10 ^ (frac.drop 1).length)) :
    utils.ParseFloat (ds ++ frac) =
      some (float64.round
        ((utils.digitsValue (ds ++ frac.drop 1) : ℚ) / 10 ^ (frac.drop 1).length)) := by
  have htake : (ds ++ frac).takeWhile utils.isDigit = ds := by
    rw [List.takeWhile_append_of_pos hds]
    rcases hfrac with h | ⟨fp, h, _, _⟩
    · rw [h]; simp
    · rw [h, List.takeWhile_cons_of_neg (by decide)]; simp
  have hdrop : (ds ++ frac).dropWhile utils.isDigit = frac := by
    rw [List.dropWhile_append_of_pos hds]
    rcases hfrac with h | ⟨fp, h, _, _⟩
    · rw [h]; rfl
    · rw [h, List.dropWhile_cons_of_neg (by decide)]
  unfold utils.ParseFloat
  simp only [htake, hdrop]
  rcases hfrac with h | ⟨fp, h, hfp, hdig⟩
  · subst h
    simp only [List.drop_nil, List.append_nil, List.length_nil, pow_zero, div_one] at hfin ⊢
    rw [if_neg hne, if_neg hfin]
  · subst h
    have hval : ((utils.digitsValue ds : ℚ) + (utils.digitsValue fp : ℚ) / 10 ^ fp.length) =
        (utils.digitsValue (ds ++ fp) : ℚ) / 10 ^ fp.length := by
      rw [utils.digitsValue_append]
      push_cast
      field_simp
    simp only [List.drop_one, List.tail_cons] at hfin ⊢
    rw [if_pos ⟨by simpa using hdig, Or.inl hne⟩, hval, if_neg hfin]

theorem float64.round_accuracy (v : ℚ) (hv : 0 ≤ v) :
    |float64.round v - v| ≤ max (v / 2 ^ 53) (1 / 2 ^ 1075) := by
  rcases hv.eq_or_lt with h0 | hpos
  · subst h0
    simp [float64.round]
  · have hspec := float64.ilog2_spec v hpos
    have hacc := float64.round_abs_sub_le v hpos
    by_cases he : -1022 ≤ float64.ilog2 v
    · rw [max_eq_left he] at hacc
      apply le_trans hacc
      apply le_trans _ (le_max_left _ _)
      rw [show float64.ilog2 v - 52 = float64.ilog2 v + (-52) by ring,
        zpow_add₀ (by norm_num : (2 : ℚ) ≠ 0)]
      have h52 : (2 : ℚ) ^ (-52 : Int) / 2 = 1 / 2 ^ 53 := by norm_num
      rw [mul_div_assoc, h52]
      have : (2 : ℚ) ^ float64.ilog2 v * (1 / 2 ^ 53) ≤ v * (1 / 2 ^ 53) :=
        mul_le_mul_of_nonneg_right hspec.1 (by positivity)
      calc (2 : ℚ) ^ float64.ilog2 v * (1 / 2 ^ 53) ≤ v * (1 / 2 ^ 53) := this
        _ = v / 2 ^ 53 := by ring
    · rw [max_eq_right (by omega)] at hacc
      apply le_trans hacc
      apply le_trans _ (le_max_right _ _)
      norm_num

theorem float64.round_le_add (v : ℚ) (hv : 0 ≤ v) (hlt : v < 2 ^ 50) :
    float64.round v ≤ v + 1 / 16 := by
  rcases hv.eq_or_lt with h0 | hpos
  · subst h0
    simp [float64.round]
  · have hspec := float64.ilog2_spec v hpos
    have hacc := float64.round_abs_sub_le v hpos
    have he : float64.ilog2 v < 50 := by
      by_contra hcon
      have : (2 : ℚ) ^ (50 : Int) ≤ (2 : ℚ) ^ float64.ilog2 v :=
        float64.two_zpow_le (by omega)
      have h50 : (2 : ℚ) ^ (50 : Int) = 2 ^ 50 := by norm_num
      rw [h50] at this
      linarith
    have hulp : (2 : ℚ) ^ (max (float64.ilog2 v) (-1022) - 52) ≤ (2 : ℚ) ^ (-3 : Int) :=
      float64.two_zpow_le (by
        rcases max_cases (float64.ilog2 v) (-1022) with ⟨h, _⟩ | ⟨h, _⟩ <;> omega)
    have h3 : (2 : ℚ) ^ (-3 : Int) = 1 / 8 := by norm_num
    rw [h3] at hulp
    have := (abs_le.mp hacc).2
    linarith

theorem utils.digitsValue_lt_of_significant (D : Str) (hD : ∀ c ∈ D, utils.isDigit c = true)
    (hsig : (D.dropWhile (fun c => c == '0')).length ≤ 15) :
    utils.digitsValue D < 10 ^ 15 := by
  rw [← utils.digitsValue_dropWhile_zero]
  have h1 := utils.digitsValue_lt (D.dropWhile (fun c => c == '0'))
    (fun c hc => hD c ((List.dropWhile_sublist _).subset hc))
  exact lt_of_lt_of_le h1 (Nat.pow_le_pow_right (by norm_num) hsig)

theorem float64.round_small_finite (N k : Nat) (hN : N < 10 ^ 15) :
    ¬ float64.maxFloat < float64.round ((N : ℚ) / 10 ^ k) := by
  have h10 : (1 : ℚ) ≤ 10 ^ k := one_le_pow₀ (by norm_num)
  have hNq : (N : ℚ) < 10 ^ 15 := by exact_mod_cast hN
  have hle : (N : ℚ) / 10 ^ k ≤ N := div_le_self (by positivity) h10
  have hv0 : (0 : ℚ) ≤ (N : ℚ) / 10 ^ k := by positivity
  have hlt : (N : ℚ) / 10 ^ k < 2 ^ 50 := by
    have : (10 : ℚ) ^ 15 < 2 ^ 50 := by norm_num
    linarith
  have := float64.round_le_add _ hv0 hlt
  have hmax : (10 : ℚ) ^ 15 + 1 ≤ float64.maxFloat := by
    unfold float64.maxFloat
    norm_num
  linarith

theorem utils.ParsePrice_numeral (pre ip frac : Str)
    (hpre : ∀ c ∈ pre, utils.isDigit c = false ∧ c ≠ ',')
    (hip : ∀ c ∈ ip, utils.isDigit c = true ∨ c = ',')
    (hdig : ∃ c ∈ ip, utils.isDigit c = true)
    (hfrac : frac = [] ∨ ∃ fp, frac = '.' :: fp ∧ fp ≠ [] ∧ ∀ c ∈ fp, utils.isDigit c = true)
    (hsig : significantDigits (ip ++ frac) ≤ 15) :
    utils.ParsePrice (pre ++ (ip ++ frac)) = float64.round (decimalValue (ip ++ frac)) ∧
    ∃ N k : Nat, N < 10 ^ 15 ∧ decimalValue (ip ++ frac) = (N : ℚ) / 10 ^ k ∧
      (frac = [] → k = 0) := by
  obtain ⟨d, hd, hdd⟩ := hdig
  have hne : ip ≠ [] := List.ne_nil_of_mem hd
  have hds : ∀ c ∈ ip.filter utils.isDigit, utils.isDigit c = true := by
    intro c hc
    exact (List.mem_filter.mp hc).2
  have hdsne : ip.filter utils.isDigit ≠ [] :=
    List.ne_nil_of_mem (List.mem_filter.mpr ⟨hd, hdd⟩)
  have hfracdig : frac.filter utils.isDigit = frac.drop 1 := by
    rcases hfrac with h | ⟨fp, h, _, hdig⟩
    · subst h; rfl
    · subst h
      rw [List.filter_cons_of_neg (by decide), List.filter_eq_self.mpr hdig]
      rfl
  have hfraccomma : frac.filter (fun c => c != ',') = frac := by
    rcases hfrac with h | ⟨fp, h, _, hdig⟩
    · subst h; rfl
    · subst h
      rw [List.filter_eq_self]
      intro c hc
      rcases List.mem_cons.mp hc with h1 | h1
      · subst h1; decide
      · have := hdig c h1
        have hcc : c ≠ ',' := by
          intro hcc
          rw [hcc] at this
          exact absurd this (by decide)
        simp [hcc]
  have hDdig : ∀ c ∈ ip.filter utils.isDigit ++ frac.drop 1, utils.isDigit c = true := by
    intro c hc
    rw [← hfracdig, ← List.filter_append] at hc
    exact (List.mem_filter.mp hc).2
  have hN : utils.digitsValue (ip.filter utils.isDigit ++ frac.drop 1) < 10 ^ 15 := by
    apply utils.digitsValue_lt_of_significant _ hDdig
    have : significantDigits (ip ++ frac) =
        ((ip.filter utils.isDigit ++ frac.drop 1).dropWhile (fun c => c == '0')).length := by
      unfold significantDigits
      rw [List.filter_append, hfracdig]
    rw [← this]
    exact hsig
  have hval := utils.decimalValue_numeral ip frac hip hfrac
  refine ⟨?_, _, _, hN, hval, ?_⟩
  · have hfound := utils.find_numeral ip frac hip hne hfrac pre hpre
    have hnonempty : pre ++ (ip ++ frac) ≠ [] := by
      intro h
      have := (List.append_eq_nil.mp (List.append_eq_nil.mp h).2).1
      exact hne this
    have hfne : ip ++ frac ≠ [] := by
      intro h
      exact hne (List.append_eq_nil.mp h).1
    unfold utils.ParsePrice
    rw [if_neg hnonempty]
    simp only [hfound]
    rw [if_neg hfne, List.filter_append, hfraccomma,
      utils.filter_comma_eq_filter_digit ip hip,
      utils.ParseFloat_digits _ frac hds hdsne hfrac (float64.round_small_finite _ _ hN), hval]
  · intro h
    rw [h]
    rfl

/-- C12: for every string made of a prefix without digit and comma followed by a decimal
numeral (an integer part of digits and commas with at least one digit, then optionally a point
and digits) of at most 15 significant digits, `ParsePrice` returns the numeral's value with
the commas removed, as a `float64`: the correctly rounded value, within a relative error of
2^-53 (or 2^-1075 in absolute terms) of the exact one, and the exact one whenever it is
representable, as for every numeral without fractional part. -/
theorem ParsePrice_returns_numeral_value (pre ip frac : Str)
    (hpre : ∀ c ∈ pre, utils.isDigit c = false ∧ c ≠ ',')
    (hip : ∀ c ∈ ip, utils.isDigit c = true ∨ c = ',')
    (hdig : ∃ c ∈ ip, utils.isDigit c = true)
    (hfrac : frac = [] ∨ ∃ fp, frac = '.' :: fp ∧ fp ≠ [] ∧ ∀ c ∈ fp, utils.isDigit c = true)
    (hsig : significantDigits (ip ++ frac) ≤ 15) :
    utils.ParsePrice (pre ++ (ip ++ frac)) = float64.round (decimalValue (ip ++ frac)) ∧
    |utils.ParsePrice (pre ++ (ip ++ frac)) - decimalValue (ip ++ frac)| ≤
      max (decimalValue (ip ++ frac) / 2 ^ 53) (1 / 2 ^ 1075) ∧
    (frac = [] → utils.ParsePrice (pre ++ (ip ++ frac)) = decimalValue (ip ++ frac)) ∧
    (∀ m j : Nat, m < 2 ^ 53 → j ≤ 1022 → decimalValue (ip ++ frac) = (m : ℚ) / 2 ^ j →
      utils.ParsePrice (pre ++ (ip ++ frac)) = (m : ℚ) / 2 ^ j) := by
  obtain ⟨hparse, N, k, hN, hval, hk⟩ :=
    utils.ParsePrice_numeral pre ip frac hpre hip hdig hfrac hsig
  have hv0 : 0 ≤ decimalValue (ip ++ frac) := by
    rw [hval]; positivity
  refine ⟨hparse, ?_, ?_, ?_⟩
  · rw [hparse]
    exact float64.round_accuracy _ hv0
  · intro h
    rw [hparse, hval, hk h, pow_zero, div_one]
    apply float64.round_natCast
    have : (10 : Nat) ^ 15 < 2 ^ 53 := by norm_num
    omega
  · intro m j hm hj hmj
    rw [hparse, hmj]
    exact float64.round_dyadic m j hm hj

/-- Witness for C12: the four priced strings of `TestParsePrice`. -/
theorem ParsePrice_returns_numeral_value_witness :
    utils.ParsePrice "AED 1,079.00".toList = 1079 ∧
    utils.ParsePrice "AED 2,550.50".toList = 2550.5 ∧
    utils.ParsePrice "AED 350.75".toList = 350.75 ∧
    utils.ParsePrice "AED 99".toList = 99 := by
  have hv : ∀ (numeral : Str) (N k : Nat),
      utils.digitsValue (numeral.filter utils.isDigit) = N →
      (((numeral.dropWhile (fun c => c != '.')).drop 1).filter utils.isDigit).length = k →
      decimalValue numeral = (N : ℚ) / 10 ^ k := by
    intro numeral N k h1 h2
    unfold decimalValue
    rw [h1, h2]
  refine ⟨?_, ?_, ?_, ?_⟩
  · have h := (ParsePrice_returns_numeral_value "AED ".toList "1,079".toList ".00".toList
      (by decide) (by decide) ⟨'1', by decide, by decide⟩
      (Or.inr ⟨"00".toList, rfl, by decide, by decide⟩) (by decide)).2.2.2 1079 0
      (by norm_num) (by norm_num)
      (by rw [hv ("1,079".toList ++ ".00".toList) 107900 2 (by decide) (by decide)]; norm_num)
    rw [show "AED ".toList ++ ("1,079".toList ++ ".00".toList) = "AED 1,079.00".toList by
      decide] at h
    rw [h]; norm_num
  · have h := (ParsePrice_returns_numeral_value "AED ".toList "2,550".toList ".50".toList
      (by decide) (by decide) ⟨'2', by decide, by decide⟩
      (Or.inr ⟨"50".toList, rfl, by decide, by decide⟩) (by decide)).2.2.2 5101 1
      (by norm_num) (by norm_num)
      (by rw [hv ("2,550".toList ++ ".50".toList) 255050 2 (by decide) (by decide)]; norm_num)
    rw [show "AED ".toList ++ ("2,550".toList ++ ".50".toList) = "AED 2,550.50".toList by
      decide] at h
    rw [h]; norm_num
  · have h := (ParsePrice_returns_numeral_value "AED ".toList "350".toList ".75".toList
      (by decide) (by decide) ⟨'3', by decide, by decide⟩
      (Or.inr ⟨"75".toList, rfl, by decide, by decide⟩) (by decide)).2.2.2 1403 2
      (by norm_num) (by norm_num)
      (by rw [hv ("350".toList ++ ".75".toList) 35075 2 (by decide) (by decide)]; norm_num)
    rw [show "AED ".toList ++ ("350".toList ++ ".75".toList) = "AED 350.75".toList by
      decide] at h
    rw [h]; norm_num
  · have h := (ParsePrice_returns_numeral_value "AED ".toList "99".toList []
      (by decide) (by decide) ⟨'9', by decide, by decide⟩ (Or.inl rfl) (by decide)).2.2.1 rfl
    rw [hv ("99".toList ++ []) 99 0 (by decide) (by decide)] at h
    rw [show "AED ".toList ++ ("99".toList ++ []) = "AED 99".toList by decide] at h
    rw [h]; norm_num

theorem utils.find_lone_comma (rest : Str)
    (hrest : rest = [] ∨
      ∃ c t, rest = c :: t ∧ utils.isDigit c = false ∧ c ≠ ',' ∧ c ≠ '.') :
    ∀ pre : Str, (∀ c ∈ pre, utils.isDigit c = false ∧ c ≠ ',') →
      utils.priceRegexFindString (pre ++ ',' :: rest) = [','] := by
  intro pre
  induction pre with
  | nil =>
    intro _
    rw [List.nil_append, utils.priceRegexFindString_cons, if_pos (Or.inr rfl),
      List.takeWhile_cons_of_pos (by decide), List.dropWhile_cons_of_pos (by decide)]
    rcases hrest with h | ⟨c, t, h, h1, h2, h3⟩
    · subst h
      rfl
    · subst h
      have hp : (utils.isDigit c || c == ',') = false := by
        simp [h1, h2]
      have ht : (c :: t).takeWhile (fun x => utils.isDigit x || x == ',') = [] := by
        rw [List.takeWhile_cons, hp]
        rfl
      have hd : (c :: t).dropWhile (fun x => utils.isDigit x || x == ',') = c :: t := by
        rw [List.dropWhile_cons, hp]
        rfl
      rw [ht, hd]
      split
      · rename_i r heq
        simp only [List.cons.injEq] at heq
        exact absurd heq.1 h3
      · rfl
  | cons c t ih =>
    intro h
    have hc := h c (List.mem_cons_self _ _)
    rw [List.cons_append, utils.priceRegexFindString_cons, if_neg (by simp [hc.1, hc.2])]
    exact ih (fun x hx => h x (List.mem_cons_of_mem _ hx))

/-- C14, what the code does: when the text before the number holds a comma that is not
followed by a digit, a comma or a point (the text up to it having no digit and no comma),
`priceRegex` matches that lone comma, nothing is left after the commas are removed, and
`ParsePrice` returns 0 whatever number follows. -/
theorem ParsePrice_zero_after_comma_in_text (pre rest : Str)
    (hpre : ∀ c ∈ pre, utils.isDigit c = false ∧ c ≠ ',')
    (hrest : rest = [] ∨
      ∃ c t, rest = c :: t ∧ utils.isDigit c = false ∧ c ≠ ',' ∧ c ≠ '.') :
    utils.priceRegexFindString (pre ++ ',' :: rest) = [','] ∧
    utils.ParsePrice (pre ++ ',' :: rest) = 0 := by
  have hfind := utils.find_lone_comma rest hrest pre hpre
  refine ⟨hfind, ?_⟩
  unfold utils.ParsePrice
  rw [if_neg (by simp)]
  simp only [hfind]
  rfl

/-- C14 at the failing input: "Was, AED 219.41" gives 0, while the same number after
"List Price: " is found. -/
theorem ParsePrice_zero_after_comma_in_text_witness :
    utils.ParsePrice "Was, AED 219.41".toList = 0 ∧
    utils.priceRegexFindString "List Price: AED 219.41".toList = "219.41".toList :=
  ⟨(ParsePrice_zero_after_comma_in_text "Was".toList " AED 219.41".toList (by decide)
      (Or.inr ⟨' ', "AED 219.41".toList, rfl, by decide, by decide, by decide⟩)).2,
    by decide⟩

/-! ## `ScrapeDealsGrid`: de-duplication -/

theorem firstEncounters_append (a : List (Str × Card)) :
    ∀ b : List (Str × Card),
      firstEncounters (a ++ b) =
        firstEncounters a ++ (firstEncounters b).filter (fun y => y.1 ∉ a.map Prod.fst) := by
  induction a with
  | nil => intro b; simp [firstEncounters]
  | cons x t ih =>
    intro b
    rw [List.cons_append]
    show x :: (firstEncounters (t ++ b)).filter (fun y => y.1 ≠ x.1) =
      (x :: (firstEncounters t).filter (fun y => y.1 ≠ x.1)) ++ _
    rw [ih, List.filter_append, List.filter_filter, List.cons_append]
    congr 2
    apply List.filter_congr
    intro y _
    simp only [List.map_cons, List.mem_cons, not_or, Bool.decide_and, Bool.and_comm]

theorem firstEncounters_keys (l : List (Str × Card)) :
    (firstEncounters l).map Prod.fst = keepFirst (l.map Prod.fst) := by
  induction l with
  | nil => rfl
  | cons x t ih =>
    simp only [firstEncounters, List.map_cons, keepFirst]
    rw [← ih, List.filter_map]
    rfl

theorem collect_spec (s : AmazonDealsScraper) :
    ∀ (cards : List Card) (seenProducts : List Str) (products : List Product),
      (ScrapeDealsGrid.collect s cards seenProducts products).2 =
        products ++ ((firstEncounters (cards.filterMap Card.linked)).filter
          (fun y => y.1 ∉ seenProducts)).map (fun y => ScrapeDealsGrid.stub s y.1 y.2) ∧
      ∀ h, h ∈ (ScrapeDealsGrid.collect s cards seenProducts products).1 ↔
        h ∈ seenProducts ∨ h ∈ (cards.filterMap Card.linked).map Prod.fst := by
  intro cards
  induction cards with
  | nil => intro seenProducts products; simp [ScrapeDealsGrid.collect, firstEncounters]
  | cons card cards ih =>
    intro seenProducts products
    have hskip : Card.linked card = none →
        (ScrapeDealsGrid.collect s (card :: cards) seenProducts products) =
          ScrapeDealsGrid.collect s cards seenProducts products := by
      intro hl
      unfold Card.linked at hl
      rw [ScrapeDealsGrid.collect]
      split
      · rename_i href hlink
        rw [hlink] at hl
        simp only at hl
        by_cases he : href = []
        · rw [if_pos he]
        · rw [if_neg he] at hl; cases hl
      · rfl
    cases hl : Card.linked card with
    | none =>
      rw [hskip hl, List.filterMap_cons_none hl]
      exact ih seenProducts products
    | some hc =>
      have hlink : card.link = some (some hc.1) ∧ hc.1 ≠ [] ∧ hc.2 = card := by
        unfold Card.linked at hl
        split at hl
        · rename_i href hlink
          by_cases he : href = []
          · rw [if_pos he] at hl; cases hl
          · rw [if_neg he] at hl
            simp only [Option.some.injEq] at hl
            subst hl
            exact ⟨hlink, he, rfl⟩
        · cases hl
      rw [List.filterMap_cons_some hl]
      rw [ScrapeDealsGrid.collect]
      simp only [hlink.1, if_neg hlink.2.1]
      by_cases hseen : hc.1 ∈ seenProducts
      · rw [if_pos hseen]
        obtain ⟨h1, h2⟩ := ih seenProducts products
        constructor
        · rw [h1]
          simp only [firstEncounters]
          rw [List.filter_cons_of_neg (by simpa using hseen), List.filter_filter]
          congr 2
          apply List.filter_congr
          intro y _
          by_cases hy : y.1 = hc.1
          · rw [hy]; simp [hseen]
          · simp [hy]
        · intro h
          rw [h2 h]
          simp only [List.map_cons, List.mem_cons]
          constructor
          · rintro (h3 | h3)
            · exact Or.inl h3
            · exact Or.inr (Or.inr h3)
          · rintro (h3 | h3 | h3)
            · exact Or.inl h3
            · exact Or.inl (h3 ▸ hseen)
            · exact Or.inr h3
      · rw [if_neg hseen]
        obtain ⟨h1, h2⟩ := ih (hc.1 :: seenProducts)
          (products ++ [ScrapeDealsGrid.stub s hc.1 card])
        constructor
        · rw [h1]
          simp only [firstEncounters]
          rw [List.filter_cons_of_pos (by simpa using hseen), List.filter_filter,
            List.append_assoc, List.map_cons, hlink.2.2, List.singleton_append]
          congr 3
          apply List.filter_congr
          intro y _
          simp only [List.mem_cons, not_or, ne_eq, Bool.decide_and, Bool.and_comm]
        · intro h
          rw [h2 h]
          simp only [List.map_cons, List.mem_cons]
          constructor
          · rintro ((h3 | h3) | h3)
            · exact Or.inr (Or.inl h3)
            · exact Or.inl h3
            · exact Or.inr (Or.inr h3)
          · rintro (h3 | h3 | h3)
            · exact Or.inl (Or.inr h3)
            · exact Or.inl (Or.inl h3)
            · exact Or.inr h3

theorem loop_products (s : AmazonDealsScraper) (page : Nat → DealsRound) :
    ∀ (left i : Nat) (st : DealsState),
      st.collected = i →
      st.products = (firstEncounters ((cardsMet page i).filterMap Card.linked)).map
        (fun y => ScrapeDealsGrid.stub s y.1 y.2) →
      (∀ h, h ∈ st.seenProducts ↔ h ∈ ((cardsMet page i).filterMap Card.linked).map Prod.fst) →
      (ScrapeDealsGrid.loop s page left i st).products =
        (firstEncounters ((cardsMet page
          (ScrapeDealsGrid.loop s page left i st).collected).filterMap Card.linked)).map
          (fun y => ScrapeDealsGrid.stub s y.1 y.2) := by
  intro left
  induction left with
  | zero =>
    intro i st hc hp _
    rw [ScrapeDealsGrid.loop, hc]
    exact hp
  | succ n ih =>
    intro i st hc hp hseen
    obtain ⟨hcol, hmem⟩ := collect_spec s (page i).cards st.seenProducts st.products
    have hp1 : (ScrapeDealsGrid.collect s (page i).cards st.seenProducts st.products).2 =
        (firstEncounters ((cardsMet page (i + 1)).filterMap Card.linked)).map
          (fun y => ScrapeDealsGrid.stub s y.1 y.2) := by
      rw [hcol, hp]
      show _ = (firstEncounters ((cardsMet page i ++ (page i).cards).filterMap Card.linked)).map _
      rw [List.filterMap_append, firstEncounters_append, List.map_append]
      congr 2
      apply List.filter_congr
      intro y _
      simp only [hseen y.1]
    have hs1 : ∀ h, h ∈ (ScrapeDealsGrid.collect s (page i).cards st.seenProducts
        st.products).1 ↔ h ∈ ((cardsMet page (i + 1)).filterMap Card.linked).map Prod.fst := by
      intro h
      rw [hmem h, hseen h]
      show _ ↔ h ∈ ((cardsMet page i ++ (page i).cards).filterMap Card.linked).map Prod.fst
      rw [List.filterMap_append, List.map_append, List.mem_append]
    rw [ScrapeDealsGrid.loop]
    split
    · show st.products = _
      rw [hp]
      show _ = (firstEncounters ((cardsMet page st.collected).filterMap Card.linked)).map _
      rw [hc]
    · rename_i x0 previousHeight hph
      simp only
      by_cases hsp : (page i).spacer = true
      · simp only [if_pos hsp]
        show _ = (firstEncounters ((cardsMet page (st.collected + 1)).filterMap Card.linked)).map _
        rw [hc]; exact hp1
      · simp only [if_neg hsp]
        by_cases hvm : (page i).viewMoreButton = true
        · simp only [if_pos hvm]
          exact ih (i + 1) _ (by simp [hc]) hp1 hs1
        · simp only [if_neg hvm]
          split
          · show _ = (firstEncounters ((cardsMet page (st.collected + 1)).filterMap
              Card.linked)).map _
            rw [hc]; exact hp1
          · rename_i x1 newHeight hnh
            by_cases hh : newHeight = previousHeight
            · simp only [if_pos hh]
              by_cases hst : st.stuckCounter + 1 ≥ 3
              · simp only [if_pos hst]
                show _ = (firstEncounters ((cardsMet page (st.collected + 1)).filterMap
                  Card.linked)).map _
                rw [hc]; exact hp1
              · simp only [if_neg hst]
                exact ih (i + 1) _ (by simp [hc]) hp1 hs1
            · simp only [if_neg hh]
              exact ih (i + 1) _ (by simp [hc]) hp1 hs1

theorem loop_succ (s : AmazonDealsScraper) (page : Nat → DealsRound) (n i : Nat)
    (st : DealsState) :
    (¬ (page i).goesOn ∧
      ((page i).stuck → 3 ≤ st.stuckCounter + 1) ∧
      (ScrapeDealsGrid.loop s page (n + 1) i st).rounds = st.rounds + 1 ∧
      st.collected ≤ (ScrapeDealsGrid.loop s page (n + 1) i st).collected ∧
      (ScrapeDealsGrid.loop s page (n + 1) i st).collected ≤ st.collected + 1) ∨
    ∃ c : DealsState,
      ScrapeDealsGrid.loop s page (n + 1) i st = ScrapeDealsGrid.loop s page n (i + 1) c ∧
      c.rounds = st.rounds + 1 ∧ c.collected = st.collected + 1 ∧
      ((page i).stuck → c.stuckCounter = st.stuckCounter + 1 ∧ st.stuckCounter + 1 < 3) ∧
      (0 ≤ st.stuckCounter → 0 ≤ c.stuckCounter) := by
  rw [ScrapeDealsGrid.loop]
  split
  · rename_i hph
    left
    refine ⟨?_, ?_, rfl, le_refl _, Nat.le_succ _⟩
    · rintro ⟨_, h, hh, _⟩
      rw [hph] at hh
      cases hh
    · rintro ⟨_, _, h, hh, _⟩
      rw [hph] at hh
      cases hh
  · rename_i x0 previousHeight hph
    simp only
    by_cases hsp : (page i).spacer = true
    · simp only [if_pos hsp]
      left
      refine ⟨?_, ?_, trivial, Nat.le_succ _, le_refl _⟩
      · rintro ⟨h, _⟩
        rw [hsp] at h
        cases h
      · rintro ⟨h, _⟩
        rw [hsp] at h
        cases h
    · simp only [if_neg hsp]
      by_cases hvm : (page i).viewMoreButton = true
      · simp only [if_pos hvm]
        right
        refine ⟨_, rfl, rfl, rfl, ?_, fun h => h⟩
        rintro ⟨_, h, _⟩
        rw [hvm] at h
        cases h
      · simp only [if_neg hvm]
        split
        · rename_i hnh
          left
          refine ⟨?_, ?_, rfl, Nat.le_succ _, le_refl _⟩
          · rintro ⟨_, h, _, hor⟩
            rcases hor with hv | ⟨h', hh', _⟩
            · exact hvm hv
            · rw [hnh] at hh'
              cases hh'
          · rintro ⟨_, _, h, _, hh⟩
            rw [hnh] at hh
            cases hh
        · rename_i x1 newHeight hnh
          by_cases hh : newHeight = previousHeight
          · simp only [if_pos hh]
            by_cases hst : st.stuckCounter + 1 ≥ 3
            · simp only [if_pos hst]
              left
              refine ⟨?_, fun _ => hst, trivial, Nat.le_succ _, le_refl _⟩
              rintro ⟨_, h, hp, hor⟩
              rcases hor with hv | ⟨h', hh', hne⟩
              · exact hvm hv
              · rw [hnh] at hh'
                rw [hph] at hp
                cases hh'
                cases hp
                exact hne hh
            · simp only [if_neg hst]
              right
              refine ⟨_, rfl, rfl, rfl, fun _ => ⟨rfl, by omega⟩, fun h => ?_⟩
              show 0 ≤ st.stuckCounter + 1
              omega
          · simp only [if_neg hh]
            right
            refine ⟨_, rfl, rfl, rfl, ?_, fun _ => le_refl _⟩
            rintro ⟨_, _, h, hp, hn⟩
            rw [hnh] at hn
            rw [hph] at hp
            cases hn
            cases hp
            exact absurd rfl hh

theorem loop_counters (s : AmazonDealsScraper) (page : Nat → DealsRound) :
    ∀ (left i : Nat) (st : DealsState),
      st.collected = st.rounds →
      (ScrapeDealsGrid.loop s page left i st).collected ≤
        (ScrapeDealsGrid.loop s page left i st).rounds ∧
      (ScrapeDealsGrid.loop s page left i st).rounds ≤
        (ScrapeDealsGrid.loop s page left i st).collected + 1 ∧
      (ScrapeDealsGrid.loop s page left i st).rounds ≤ st.rounds + left := by
  intro left
  induction left with
  | zero =>
    intro i st h1
    rw [ScrapeDealsGrid.loop]
    exact ⟨by omega, by omega, by omega⟩
  | succ n ih =>
    intro i st h1
    rcases loop_succ s page n i st with ⟨_, _, hr, hc1, hc2⟩ | ⟨c, hc, hr, hcc, _, _⟩
    · omega
    · rw [hc]
      have := ih (i + 1) c (by omega)
      omega

theorem loop_goesOn (s : AmazonDealsScraper) (page : Nat → DealsRound)
    (hgo : ∀ i, (page i).goesOn) :
    ∀ (left i : Nat) (st : DealsState),
      (ScrapeDealsGrid.loop s page left i st).rounds = st.rounds + left ∧
      (ScrapeDealsGrid.loop s page left i st).collected = st.collected + left := by
  intro left
  induction left with
  | zero =>
    intro i st
    rw [ScrapeDealsGrid.loop]
    exact ⟨rfl, rfl⟩
  | succ n ih =>
    intro i st
    rcases loop_succ s page n i st with ⟨hno, _⟩ | ⟨c, hc, hr, hcc, _, _⟩
    · exact absurd (hgo i) hno
    · rw [hc]
      have := ih (i + 1) c
      omega

theorem loop_stuck (s : AmazonDealsScraper) (page : Nat → DealsRound) (k : Nat)
    (h0 : (page k).stuck) (h1 : (page (k + 1)).stuck) (h2 : (page (k + 2)).stuck) :
    ∀ (left i : Nat) (st : DealsState),
      st.rounds = i → i ≤ k + 2 → 0 ≤ st.stuckCounter → (i : Int) - k ≤ st.stuckCounter →
      (ScrapeDealsGrid.loop s page left i st).rounds ≤ k + 3 := by
  intro left
  induction left with
  | zero =>
    intro i st hr hi _ _
    rw [ScrapeDealsGrid.loop]
    omega
  | succ n ih =>
    intro i st hr hi hs0 hsk
    have hstuck : k ≤ i → (page i).stuck := by
      intro hki
      have : i = k ∨ i = k + 1 ∨ i = k + 2 := by omega
      rcases this with h | h | h <;> rw [h] <;> assumption
    rcases loop_succ s page n i st with ⟨_, _, hr1, _, _⟩ | ⟨c, hc, hr1, _, hcs, hc0⟩
    · omega
    · rw [hc]
      by_cases hki : k ≤ i
      · obtain ⟨hcs1, hlt⟩ := hcs (hstuck hki)
        exact ih (i + 1) c (by omega) (by omega) (hc0 hs0) (by push_cast; omega)
      · exact ih (i + 1) c (by omega) (by omega) (hc0 hs0) (by have := hc0 hs0; push_cast; omega)

theorem run_products (s : AmazonDealsScraper) (browser : DealsSession) :
    (ScrapeDealsGrid.run s browser).products =
      (firstEncounters ((cardsMet browser.round
        (ScrapeDealsGrid.run s browser).collected).filterMap Card.linked)).map
        (fun y => ScrapeDealsGrid.stub s y.1 y.2) :=
  loop_products s browser.round 100 0 _ rfl rfl (fun _ => Iff.rfl)

theorem ScrapeDealsGrid_ok (s : AmazonDealsScraper) (browser : DealsSession)
    (hpage : browser.pageErr = false) (hnav : browser.navigateErr = false) :
    ScrapeDealsGrid s browser = ((ScrapeDealsGrid.run s browser).products, none) := by
  simp [ScrapeDealsGrid, hpage, hnav]

theorem stub_url (s : AmazonDealsScraper) (href : Str) (card : Card) :
    (ScrapeDealsGrid.stub s href card).ProductURL = ScrapeDealsGrid.fullURL s href := by
  unfold ScrapeDealsGrid.stub
  simp only
  split <;> split <;> (try split) <;> (try split) <;> rfl

/-- C15: when the page opens and loads, `ScrapeDealsGrid` returns, with no error, the stubs
of the non-empty card link hrefs met in the rounds whose cards were collected, one stub per
distinct href and in the order of first encounter: the hrefs of the stubs are the hrefs met
with every repetition after the first removed, whether the repetition comes from an earlier
round or from the same round. -/
theorem ScrapeDealsGrid_one_stub_per_href (s : AmazonDealsScraper) (browser : DealsSession)
    (hpage : browser.pageErr = false) (hnav : browser.navigateErr = false) :
    (ScrapeDealsGrid s browser).2 = none ∧
    (ScrapeDealsGrid s browser).1 =
      (firstEncounters ((cardsMet browser.round
        (ScrapeDealsGrid.run s browser).collected).filterMap Card.linked)).map
        (fun y => ScrapeDealsGrid.stub s y.1 y.2) ∧
    (firstEncounters ((cardsMet browser.round
        (ScrapeDealsGrid.run s browser).collected).filterMap Card.linked)).map Prod.fst =
      keepFirst (((cardsMet browser.round
        (ScrapeDealsGrid.run s browser).collected).filterMap Card.linked).map Prod.fst) ∧
    (keepFirst (((cardsMet browser.round
        (ScrapeDealsGrid.run s browser).collected).filterMap Card.linked).map Prod.fst)).Nodup ∧
    (∀ href, href ∈ keepFirst (((cardsMet browser.round
        (ScrapeDealsGrid.run s browser).collected).filterMap Card.linked).map Prod.fst) ↔
      href ∈ ((cardsMet browser.round
        (ScrapeDealsGrid.run s browser).collected).filterMap Card.linked).map Prod.fst) ∧
    (ScrapeDealsGrid s browser).1.length =
      (keepFirst (((cardsMet browser.round
        (ScrapeDealsGrid.run s browser).collected).filterMap Card.linked).map Prod.fst)).length ∧
    (ScrapeDealsGrid.run s browser).collected ≤ (ScrapeDealsGrid.run s browser).rounds ∧
    (ScrapeDealsGrid.run s browser).rounds ≤ (ScrapeDealsGrid.run s browser).collected + 1 := by
  have hc := loop_counters s browser.round 100 0
    { seenProducts := [], products := [], stuckCounter := 0, rounds := 0, collected := 0 } rfl
  rw [ScrapeDealsGrid_ok s browser hpage hnav]
  refine ⟨rfl, run_products s browser, firstEncounters_keys _, nodup_keepFirst _,
    fun href => mem_keepFirst href _, ?_, hc.1, hc.2.1⟩
  show (ScrapeDealsGrid.run s browser).products.length = _
  rw [run_products s browser, List.length_map, ← firstEncounters_keys, List.length_map]

/-- C15 on a crawl of two rounds that both show the card of `/dp/B0A`: three cards with a
non-empty href are distinct, and three stubs come back, the one of `/dp/B0A` once. -/
theorem ScrapeDealsGrid_one_stub_per_href_witness :
    (ScrapeDealsGrid.run sampleScraper sampleDeals).collected = 2 ∧
    ((cardsMet sampleDeals.round 2).filterMap Card.linked).map Prod.fst =
      ["/dp/B0A".toList, "/dp/B0B".toList, "/dp/B0A".toList, "/dp/B0C".toList] ∧
    (ScrapeDealsGrid sampleScraper sampleDeals).1.map Product.ProductURL =
      ["https://www.amazon.aedp/B0A".toList, "https://www.amazon.aedp/B0B".toList,
        "https://www.amazon.aedp/B0C".toList] := by
  refine ⟨by decide, by decide, ?_⟩
  rw [(ScrapeDealsGrid_one_stub_per_href sampleScraper sampleDeals rfl rfl).2.1]
  decide

/-! ## `ScrapeDealsGrid`: the URLs of the stubs -/

theorem run_urls (s : AmazonDealsScraper) (browser : DealsSession) :
    (ScrapeDealsGrid.run s browser).products.map Product.ProductURL =
      (keepFirst (((cardsMet browser.round
        (ScrapeDealsGrid.run s browser).collected).filterMap Card.linked).map Prod.fst)).map
        (ScrapeDealsGrid.fullURL s) := by
  rw [run_products s browser, ← firstEncounters_keys, List.map_map, List.map_map]
  apply List.map_congr_left
  intro y _
  exact stub_url s y.1 y.2

/-- C16, the claim as worded fails: two cards that link the same item as `/dp/B0X` and as
`dp/B0X` are two distinct hrefs, and the list returned holds two stubs with the same
`ProductURL`. -/
theorem ScrapeDealsGrid_same_url_twice :
    (ScrapeDealsGrid sampleScraper sampleTwoForms).2 = none ∧
    (ScrapeDealsGrid sampleScraper sampleTwoForms).1.map Product.ProductURL =
      ["https://www.amazon.aedp/B0X".toList, "https://www.amazon.aedp/B0X".toList] ∧
    ¬ ((ScrapeDealsGrid sampleScraper sampleTwoForms).1.map Product.ProductURL).Nodup := by
  decide

/-- C16 amended: the list `ScrapeDealsGrid` returns is de-duplicated by card href. The
`ProductURL`s of the stubs are the URLs built from the pairwise distinct hrefs met, in order,
so no two stubs have the same `ProductURL` whenever distinct hrefs met build distinct URLs. -/
theorem ScrapeDealsGrid_urls_distinct_when_hrefs_build_distinct_urls
    (s : AmazonDealsScraper) (browser : DealsSession)
    (hpage : browser.pageErr = false) (hnav : browser.navigateErr = false)
    (hinj : ∀ h1 ∈ ((cardsMet browser.round
        (ScrapeDealsGrid.run s browser).collected).filterMap Card.linked).map Prod.fst,
      ∀ h2 ∈ ((cardsMet browser.round
        (ScrapeDealsGrid.run s browser).collected).filterMap Card.linked).map Prod.fst,
      ScrapeDealsGrid.fullURL s h1 = ScrapeDealsGrid.fullURL s h2 → h1 = h2) :
    (ScrapeDealsGrid s browser).1.map Product.ProductURL =
      (keepFirst (((cardsMet browser.round
        (ScrapeDealsGrid.run s browser).collected).filterMap Card.linked).map Prod.fst)).map
        (ScrapeDealsGrid.fullURL s) ∧
    (keepFirst (((cardsMet browser.round
        (ScrapeDealsGrid.run s browser).collected).filterMap Card.linked).map Prod.fst)).Nodup ∧
    ((ScrapeDealsGrid s browser).1.map Product.ProductURL).Nodup := by
  rw [ScrapeDealsGrid_ok s browser hpage hnav]
  refine ⟨run_urls s browser, nodup_keepFirst _, ?_⟩
  show ((ScrapeDealsGrid.run s browser).products.map Product.ProductURL).Nodup
  rw [run_urls s browser]
  apply List.Nodup.map_on _ (nodup_keepFirst _)
  intro x hx y hy hxy
  exact hinj x ((mem_keepFirst x _).1 hx) y ((mem_keepFirst y _).1 hy) hxy

/-- C16 amended, on the crawl of two rounds: the hrefs met all begin with one slash, they
build distinct URLs, and the three stubs have three distinct URLs. -/
theorem ScrapeDealsGrid_urls_distinct_when_hrefs_build_distinct_urls_witness :
    sampleDeals.pageErr = false ∧ sampleDeals.navigateErr = false ∧
    ((ScrapeDealsGrid sampleScraper sampleDeals).1.map Product.ProductURL).Nodup :=
  ⟨rfl, rfl,
    (ScrapeDealsGrid_urls_distinct_when_hrefs_build_distinct_urls sampleScraper sampleDeals
      rfl rfl (by decide)).2.2⟩

/-! ## `ScrapeDealsGrid`: how the loop ends -/

/-- C17: if the rounds `k`, `k + 1` and `k + 2` of a crawl are scroll-based rounds (the
footer shows neither the end marker nor the load-more button) in which the height read after
scrolling equals the height read at the start of the round, then the collection loop begins
at most `k + 3` rounds: it ends in round `k + 2` at the latest and no later round runs. -/
theorem ScrapeDealsGrid_stops_after_three_stuck_rounds (s : AmazonDealsScraper)
    (browser : DealsSession) (k : Nat)
    (h0 : (browser.round k).stuck) (h1 : (browser.round (k + 1)).stuck)
    (h2 : (browser.round (k + 2)).stuck) :
    (ScrapeDealsGrid.run s browser).rounds ≤ k + 3 :=
  loop_stuck s browser.round k h0 h1 h2 100 0 _ rfl (Nat.zero_le _) (le_refl _)
    (by show ((0 : Nat) : Int) - (k : Int) ≤ 0; omega)

/-- C17 on a page that never grows: the first three rounds are stuck, and the loop begins at
most three rounds. -/
theorem ScrapeDealsGrid_stops_after_three_stuck_rounds_witness :
    (sampleStuck.round 0).stuck ∧ (sampleStuck.round 1).stuck ∧ (sampleStuck.round 2).stuck ∧
    (ScrapeDealsGrid.run sampleScraper sampleStuck).rounds ≤ 0 + 3 :=
  ⟨⟨rfl, rfl, 900, rfl, rfl⟩, ⟨rfl, rfl, 900, rfl, rfl⟩, ⟨rfl, rfl, 900, rfl, rfl⟩,
    ScrapeDealsGrid_stops_after_three_stuck_rounds sampleScraper sampleStuck 0
      ⟨rfl, rfl, 900, rfl, rfl⟩ ⟨rfl, rfl, 900, rfl, rfl⟩ ⟨rfl, rfl, 900, rfl, rfl⟩⟩

/-- C18: whatever the page does, once it has opened and loaded the collection loop of
`ScrapeDealsGrid` begins at most 100 rounds, and the call returns the stubs collected in
them with no error. The cap is what ends the loop on a page that never gives a reason to
stop: if in every round the height is read, the end marker is absent, and the load-more
button is there or the height has changed, exactly 100 rounds run. -/
theorem ScrapeDealsGrid_runs_at_most_100_rounds (s : AmazonDealsScraper)
    (browser : DealsSession)
    (hpage : browser.pageErr = false) (hnav : browser.navigateErr = false) :
    (ScrapeDealsGrid.run s browser).rounds ≤ 100 ∧
    ScrapeDealsGrid s browser = ((ScrapeDealsGrid.run s browser).products, none) ∧
    ((∀ i, (browser.round i).goesOn) →
      (ScrapeDealsGrid.run s browser).rounds = 100 ∧
      (ScrapeDealsGrid.run s browser).collected = 100) := by
  have hc := loop_counters s browser.round 100 0
    { seenProducts := [], products := [], stuckCounter := 0, rounds := 0, collected := 0 } rfl
  refine ⟨?_, ScrapeDealsGrid_ok s browser hpage hnav, ?_⟩
  · have := hc.2.2
    simpa using this
  · intro hgo
    have := loop_goesOn s browser.round hgo 100 0
      { seenProducts := [], products := [], stuckCounter := 0, rounds := 0, collected := 0 }
    simpa using this

/-- C18 on a page whose footer always shows the load-more button: the loop runs its 100
rounds and the call returns the one stub with no error. -/
theorem ScrapeDealsGrid_runs_at_most_100_rounds_witness :
    sampleEndless.pageErr = false ∧ sampleEndless.navigateErr = false ∧
    (ScrapeDealsGrid.run sampleScraper sampleEndless).rounds = 100 ∧
    (ScrapeDealsGrid sampleScraper sampleEndless).2 = none :=
  ⟨rfl, rfl,
    ((ScrapeDealsGrid_runs_at_most_100_rounds sampleScraper sampleEndless rfl rfl).2.2
      (fun _ => ⟨rfl, 900, rfl, Or.inl rfl⟩)).1,
    congrArg Prod.snd
      (ScrapeDealsGrid_runs_at_most_100_rounds sampleScraper sampleEndless rfl rfl).2.1⟩

/-! ## `utils.GetOptimalWorkerCount` -/

theorem GetOptimalWorkerCount_auto_eq (c : Int) :
    utils.GetOptimalWorkerCount.auto (some c) = max 1 (min 16 (c / 2)) := by
  unfold utils.GetOptimalWorkerCount.auto
  simp only
  have h : Int.tdiv c 2 = c / 2 ∨ (c < 0 ∧ Int.tdiv c 2 ≤ 0) := by
    rcases le_or_lt 0 c with hc | hc
    · left
      exact Int.tdiv_eq_ediv hc (by norm_num)
    · right
      refine ⟨hc, ?_⟩
      have h1 : Int.tdiv c 2 = -(Int.tdiv (-c) 2) := by rw [Int.neg_tdiv, neg_neg]
      have h2 : 0 ≤ Int.tdiv (-c) 2 := Int.tdiv_nonneg (by omega) (by norm_num)
      omega
  rcases h with h | ⟨hc, h⟩
  · rw [h]
    split_ifs <;> omega
  · have : c / 2 < 0 := by omega
    split_ifs <;> omega

/-- C20: `GetOptimalWorkerCount` returns `n` when `strconv.Atoi` reads the configured value
as an integer `n > 0`. For every other value (a syntax or range error, zero, a negative
number) it returns 2 when the core count cannot be read and otherwise, with `c` logical
cores, `c / 2` clamped to the range 1..16. -/
theorem GetOptimalWorkerCount_manual_or_half_the_cores (cpuCounts : Option Int)
    (configValue : Str) :
    (∀ n : Int, strconv.Atoi configValue = some n → 0 < n →
      utils.GetOptimalWorkerCount cpuCounts configValue = n) ∧
    ((∀ n : Int, strconv.Atoi configValue = some n → n ≤ 0) →
      (cpuCounts = none → utils.GetOptimalWorkerCount cpuCounts configValue = 2) ∧
      (∀ c : Int, cpuCounts = some c →
        utils.GetOptimalWorkerCount cpuCounts configValue = max 1 (min 16 (c / 2)) ∧
        1 ≤ utils.GetOptimalWorkerCount cpuCounts configValue ∧
        utils.GetOptimalWorkerCount cpuCounts configValue ≤ 16)) := by
  constructor
  · intro n hn hpos
    unfold utils.GetOptimalWorkerCount
    rw [hn]
    simp only
    rw [if_pos hpos]
  · intro hno
    have hauto : utils.GetOptimalWorkerCount cpuCounts configValue =
        utils.GetOptimalWorkerCount.auto cpuCounts := by
      unfold utils.GetOptimalWorkerCount
      cases hA : strconv.Atoi configValue with
      | none => rfl
      | some n =>
        simp only
        rw [if_neg (by have := hno n hA; omega)]
    rw [hauto]
    constructor
    · intro hc
      rw [hc]
      rfl
    · intro c hc
      rw [hc, GetOptimalWorkerCount_auto_eq]
      omega

/-- C20 on the values the claim lists, with 8 logical cores, 64 cores, 1 core and an
unreadable core count. -/
theorem GetOptimalWorkerCount_manual_or_half_the_cores_witness :
    utils.GetOptimalWorkerCount (some 8) "6".toList = 6 ∧
    utils.GetOptimalWorkerCount (some 8) "auto".toList = 4 ∧
    utils.GetOptimalWorkerCount (some 8) "0".toList = 4 ∧
    utils.GetOptimalWorkerCount (some 64) "-3".toList = 16 ∧
    utils.GetOptimalWorkerCount (some 1) "four".toList = 1 ∧
    utils.GetOptimalWorkerCount none "auto".toList = 2 :=
  ⟨(GetOptimalWorkerCount_manual_or_half_the_cores (some 8) "6".toList).1 6 (by decide)
      (by decide),
    (((GetOptimalWorkerCount_manual_or_half_the_cores (some 8) "auto".toList).2
      (by decide)).2 8 rfl).1,
    (((GetOptimalWorkerCount_manual_or_half_the_cores (some 8) "0".toList).2
      (by intro n h; cases h; decide)).2 8 rfl).1,
    (((GetOptimalWorkerCount_manual_or_half_the_cores (some 64) "-3".toList).2
      (by intro n h; cases h; decide)).2 64 rfl).1,
    (((GetOptimalWorkerCount_manual_or_half_the_cores (some 1) "four".toList).2
      (by decide)).2 1 rfl).1,
    ((GetOptimalWorkerCount_manual_or_half_the_cores none "auto".toList).2
      (by decide)).1 rfl⟩

/-! ## `BuildDoubleEncodedDealsURL`: the sample encoders are read back by the sample decoders -/

theorem char_toNat_valid (c : Char) :
    c.toNat < 0xD800 ∨ (0xDFFF < c.toNat ∧ c.toNat < 0x110000) := c.valid

theorem sampleUnhex_hex : ∀ n, n < 16 → sampleUnhex (sampleHex n) = some n := by
  decide

theorem sampleUtf8Decode_cons (b0 : Nat) (bs : List Nat) :
    sampleUtf8Decode (b0 :: bs) =
    if b0 < 0x80 then (sampleUtf8Decode bs).map (fun s => Char.ofNat b0 :: s)
    else if b0 < 0xC0 then none
    else if b0 < 0xE0 then
      match bs with
      | b1 :: r =>
        (sampleUtf8Decode r).map
          (fun s => Char.ofNat ((b0 - 0xC0) * 64 + (b1 - 0x80)) :: s)
      | _ => none
    else if b0 < 0xF0 then
      match bs with
      | b1 :: b2 :: r =>
        (sampleUtf8Decode r).map
          (fun s => Char.ofNat ((b0 - 0xE0) * 4096 + (b1 - 0x80) * 64 + (b2 - 0x80)) :: s)
      | _ => none
    else
      match bs with
      | b1 :: b2 :: b3 :: r =>
        (sampleUtf8Decode r).map
          (fun s =>
            Char.ofNat
              ((b0 - 0xF0) * 262144 + (b1 - 0x80) * 4096 + (b2 - 0x80) * 64 + (b3 - 0x80)) :: s)
      | _ => none := by
  rcases bs with _ | ⟨b1, _ | ⟨b2, _ | ⟨b3, r⟩⟩⟩ <;> rfl

theorem sampleUnescapeBytes_cons (c : Char) (rest : Str) :
    sampleUnescapeBytes (c :: rest) =
    if c = '%' then
      match rest with
      | h :: l :: rest' =>
        (match sampleUnhex h, sampleUnhex l, sampleUnescapeBytes rest' with
         | some a, some b, some bs => some ((16 * a + b) :: bs)
         | _, _, _ => none)
      | _ => none
    else if c = '+' then (sampleUnescapeBytes rest).map (fun bs => 32 :: bs)
    else (sampleUnescapeBytes rest).map (fun bs => sampleUtf8 c ++ bs) := by
  rcases rest with _ | ⟨h, _ | ⟨l, r⟩⟩ <;> rfl

theorem sampleUnescapeBytes_percent (b : Nat) (hb : b < 256) (rest : Str) :
    sampleUnescapeBytes (samplePercent b ++ rest) =
      (sampleUnescapeBytes rest).map (fun bs => b :: bs) := by
  show sampleUnescapeBytes ('%' :: sampleHex (b / 16) :: sampleHex (b % 16) :: rest) = _
  rw [sampleUnescapeBytes_cons, if_pos rfl]
  simp only
  rw [sampleUnhex_hex (b / 16) (by omega), sampleUnhex_hex (b % 16) (by omega)]
  have h : 16 * (b / 16) + b % 16 = b := by omega
  cases sampleUnescapeBytes rest with
  | none => rfl
  | some bs => simp [h]

theorem sampleUnescapeBytes_percents (rest : Str) :
    ∀ bs : List Nat, (∀ b ∈ bs, b < 256) →
      sampleUnescapeBytes (bs.flatMap samplePercent ++ rest) =
        (sampleUnescapeBytes rest).map (fun r => bs ++ r) := by
  intro bs
  induction bs with
  | nil =>
    intro _
    rw [List.flatMap_nil, List.nil_append]
    cases sampleUnescapeBytes rest <;> simp
  | cons b bs ih =>
    intro h
    rw [List.flatMap_cons, List.append_assoc,
      sampleUnescapeBytes_percent b (h b (List.mem_cons_self _ _)),
      ih (fun x hx => h x (List.mem_cons_of_mem _ hx))]
    cases sampleUnescapeBytes rest <;> simp

theorem sampleUtf8_lt (c : Char) : ∀ b ∈ sampleUtf8 c, b < 256 := by
  have hv := char_toNat_valid c
  intro b hb
  unfold sampleUtf8 at hb
  simp only at hb
  split_ifs at hb <;> simp at hb <;> omega

theorem sampleUnescapeBytes_escaped (c : Char) (rest : Str) :
    sampleUnescapeBytes
        ((if sampleUnreserved c = true then [c]
          else if c = ' ' then ['+']
          else (sampleUtf8 c).flatMap samplePercent) ++ rest) =
      (sampleUnescapeBytes rest).map (fun r => sampleUtf8 c ++ r) := by
  by_cases hu : sampleUnreserved c = true
  · rw [if_pos hu]
    have h1 : c ≠ '%' := by
      intro h
      rw [h] at hu
      exact absurd hu (by decide)
    have h2 : c ≠ '+' := by
      intro h
      rw [h] at hu
      exact absurd hu (by decide)
    show sampleUnescapeBytes (c :: rest) = _
    rw [sampleUnescapeBytes_cons, if_neg h1, if_neg h2]
  · rw [if_neg hu]
    by_cases hs : c = ' '
    · rw [if_pos hs, hs]
      show sampleUnescapeBytes ('+' :: rest) = _
      rw [sampleUnescapeBytes_cons, if_neg (by decide), if_pos rfl]
      rfl
    · rw [if_neg hs]
      exact sampleUnescapeBytes_percents rest _ (sampleUtf8_lt c)

theorem sampleUnescapeBytes_escape :
    ∀ s : Str, sampleUnescapeBytes (sampleQueryEscape s) = some (s.flatMap sampleUtf8) := by
  intro s
  induction s with
  | nil => rfl
  | cons c s ih =>
    show sampleUnescapeBytes ((c :: s).flatMap _) = _
    rw [List.flatMap_cons, sampleUnescapeBytes_escaped c]
    show Option.map _ (sampleUnescapeBytes (sampleQueryEscape s)) = _
    rw [ih]
    rfl

theorem sampleUtf8Decode_char (c : Char) (rest : List Nat) :
    sampleUtf8Decode (sampleUtf8 c ++ rest) =
      (sampleUtf8Decode rest).map (fun s => c :: s) := by
  have hv := char_toNat_valid c
  have hc := Char.ofNat_toNat c
  by_cases h1 : c.toNat < 0x80
  · have e : sampleUtf8 c = [c.toNat] := if_pos h1
    rw [e]
    show sampleUtf8Decode (c.toNat :: rest) = _
    rw [sampleUtf8Decode_cons, if_pos h1, hc]
  · by_cases h2 : c.toNat < 0x800
    · have e : sampleUtf8 c = [0xC0 + c.toNat / 64, 0x80 + c.toNat % 64] :=
        (if_neg h1).trans (if_pos h2)
      rw [e]
      show sampleUtf8Decode ((0xC0 + c.toNat / 64) :: (0x80 + c.toNat % 64) :: rest) = _
      rw [sampleUtf8Decode_cons, if_neg (by omega), if_neg (by omega), if_pos (by omega)]
      have : (0xC0 + c.toNat / 64 - 0xC0) * 64 + (0x80 + c.toNat % 64 - 0x80) = c.toNat := by
        omega
      simp only
      rw [this, hc]
    · by_cases h3 : c.toNat < 0x10000
      · have e : sampleUtf8 c =
            [0xE0 + c.toNat / 4096, 0x80 + c.toNat / 64 % 64, 0x80 + c.toNat % 64] :=
          (if_neg h1).trans ((if_neg h2).trans (if_pos h3))
        rw [e]
        show sampleUtf8Decode ((0xE0 + c.toNat / 4096) :: (0x80 + c.toNat / 64 % 64) ::
          (0x80 + c.toNat % 64) :: rest) = _
        rw [sampleUtf8Decode_cons, if_neg (by omega), if_neg (by omega), if_neg (by omega),
          if_pos (by omega)]
        have : (0xE0 + c.toNat / 4096 - 0xE0) * 4096 + (0x80 + c.toNat / 64 % 64 - 0x80) * 64 +
            (0x80 + c.toNat % 64 - 0x80) = c.toNat := by omega
        simp only
        rw [this, hc]
      · have e : sampleUtf8 c =
            [0xF0 + c.toNat / 262144, 0x80 + c.toNat / 4096 % 64, 0x80 + c.toNat / 64 % 64,
              0x80 + c.toNat % 64] :=
          (if_neg h1).trans ((if_neg h2).trans (if_neg h3))
        rw [e]
        show sampleUtf8Decode ((0xF0 + c.toNat / 262144) :: (0x80 + c.toNat / 4096 % 64) ::
          (0x80 + c.toNat / 64 % 64) :: (0x80 + c.toNat % 64) :: rest) = _
        rw [sampleUtf8Decode_cons, if_neg (by omega), if_neg (by omega), if_neg (by omega),
          if_neg (by omega)]
        have : (0xF0 + c.toNat / 262144 - 0xF0) * 262144 +
            (0x80 + c.toNat / 4096 % 64 - 0x80) * 4096 +
            (0x80 + c.toNat / 64 % 64 - 0x80) * 64 + (0x80 + c.toNat % 64 - 0x80) =
            c.toNat := by omega
        simp only
        rw [this, hc]

theorem sampleUtf8Decode_encode :
    ∀ s : Str, sampleUtf8Decode (s.flatMap sampleUtf8) = some s := by
  intro s
  induction s with
  | nil => rfl
  | cons c s ih =>
    rw [List.flatMap_cons, sampleUtf8Decode_char, ih]
    rfl

theorem sampleQueryUnescape_escape (s : Str) :
    sampleQueryUnescape (sampleQueryEscape s) = some s := by
  unfold sampleQueryUnescape
  rw [sampleUnescapeBytes_escape]
  exact sampleUtf8Decode_encode s

theorem sampleUnquoteBody_cons (c : Char) (rest : Str) :
    sampleUnquoteBody (c :: rest) =
    if c = '"' then (if rest = [] then some [] else none)
    else if c = '\\' then
      match rest with
      | e :: rest' =>
        if e = '"' then (sampleUnquoteBody rest').map (fun s => '"' :: s)
        else if e = '\\' then (sampleUnquoteBody rest').map (fun s => '\\' :: s)
        else if e = 'n' then (sampleUnquoteBody rest').map (fun s => '\n' :: s)
        else if e = 'r' then (sampleUnquoteBody rest').map (fun s => '\r' :: s)
        else if e = 't' then (sampleUnquoteBody rest').map (fun s => '\t' :: s)
        else none
      | [] => none
    else (sampleUnquoteBody rest).map (fun s => c :: s) := by
  rcases rest with _ | ⟨e, r⟩ <;> rfl

theorem sampleUnquoteBody_quoted (c : Char) (rest : Str) :
    sampleUnquoteBody
        ((if c = '"' then ['\\', '"']
          else if c = '\\' then ['\\', '\\']
          else if c = '\n' then ['\\', 'n']
          else if c = '\r' then ['\\', 'r']
          else if c = '\t' then ['\\', 't']
          else [c]) ++ rest) =
      (sampleUnquoteBody rest).map (fun s => c :: s) := by
  by_cases h1 : c = '"'
  · rw [if_pos h1, h1]
    show sampleUnquoteBody ('\\' :: '"' :: rest) = _
    rw [sampleUnquoteBody_cons, if_neg (by decide), if_pos rfl]
    rfl
  · rw [if_neg h1]
    by_cases h2 : c = '\\'
    · rw [if_pos h2, h2]
      show sampleUnquoteBody ('\\' :: '\\' :: rest) = _
      rw [sampleUnquoteBody_cons, if_neg (by decide), if_pos rfl]
      rfl
    · rw [if_neg h2]
      by_cases h3 : c = '\n'
      · rw [if_pos h3, h3]
        show sampleUnquoteBody ('\\' :: 'n' :: rest) = _
        rw [sampleUnquoteBody_cons, if_neg (by decide), if_pos rfl]
        rfl
      · rw [if_neg h3]
        by_cases h4 : c = '\r'
        · rw [if_pos h4, h4]
          show sampleUnquoteBody ('\\' :: 'r' :: rest) = _
          rw [sampleUnquoteBody_cons, if_neg (by decide), if_pos rfl]
          rfl
        · rw [if_neg h4]
          by_cases h5 : c = '\t'
          · rw [if_pos h5, h5]
            show sampleUnquoteBody ('\\' :: 't' :: rest) = _
            rw [sampleUnquoteBody_cons, if_neg (by decide), if_pos rfl]
            rfl
          · rw [if_neg h5]
            show sampleUnquoteBody (c :: rest) = _
            rw [sampleUnquoteBody_cons, if_neg h1, if_neg h2]

theorem sampleUnquote_quote (s : Str) : sampleUnquote (sampleQuote s) = some s := by
  show sampleUnquoteBody (s.flatMap _ ++ ['"']) = some s
  induction s with
  | nil => rfl
  | cons c s ih =>
    rw [List.flatMap_cons, List.append_assoc, sampleUnquoteBody_quoted c, ih]
    rfl

theorem sampleExpect_append (lit rest : Str) : sampleExpect lit (lit ++ rest) = some rest := by
  unfold sampleExpect strings.HasPrefix
  rw [if_pos (List.isPrefixOf_iff_prefix.mpr (List.prefix_append lit rest)),
    List.drop_left]

theorem sampleDigit_spec : ∀ d, d < 10 →
    (Char.ofNat (48 + d)).toNat - 48 = d ∧ utils.isDigit (Char.ofNat (48 + d)) = true := by
  decide

theorem sampleDigits_spec : ∀ (fuel n : Nat), n < 10 ^ fuel → 0 < fuel →
    (∀ c ∈ sampleDigits fuel n, utils.isDigit c = true) ∧
    utils.digitsValue (sampleDigits fuel n) = n ∧ sampleDigits fuel n ≠ [] := by
  intro fuel
  induction fuel with
  | zero => intro n _ h; exact absurd h (by decide)
  | succ f ih =>
    intro n hn _
    rw [sampleDigits]
    by_cases h10 : n < 10
    · rw [if_pos h10]
      obtain ⟨hv, hd⟩ := sampleDigit_spec n h10
      refine ⟨?_, ?_, by simp⟩
      · intro c hc
        rw [List.mem_singleton] at hc
        rw [hc]
        exact hd
      · rw [utils.digitsValue_cons, hv]
        simp [utils.digitsValue]
    · rw [if_neg h10]
      have hf : 0 < f := by
        rcases Nat.eq_zero_or_pos f with h0 | h0
        · rw [h0] at hn
          omega
        · exact h0
      have hq : n / 10 < 10 ^ f := by
        rw [pow_succ] at hn
        omega
      obtain ⟨hall, hval, hne⟩ := ih (n / 10) hq hf
      obtain ⟨hv, hd⟩ := sampleDigit_spec (n % 10) (by omega)
      refine ⟨?_, ?_, by simp⟩
      · intro c hc
        rw [List.mem_append, List.mem_singleton] at hc
        rcases hc with hc | hc
        · exact hall c hc
        · rw [hc]
          exact hd
      · rw [utils.digitsValue_append, hval, utils.digitsValue_cons, hv]
        simp [utils.digitsValue]
        omega

theorem sampleDigits_natAbs (n : Nat) :
    (∀ c ∈ sampleDigits (n + 1) n, utils.isDigit c = true) ∧
    utils.digitsValue (sampleDigits (n + 1) n) = n ∧ sampleDigits (n + 1) n ≠ [] := by
  apply sampleDigits_spec (n + 1) n _ (Nat.succ_pos n)
  calc n < 10 ^ n := Nat.lt_pow_self (by norm_num) n
    _ ≤ 10 ^ (n + 1) := Nat.pow_le_pow_right (by norm_num) (Nat.le_succ n)

theorem takeWhile_digits_append (ds rest : Str) (hds : ∀ c ∈ ds, utils.isDigit c = true)
    (hrest : rest.takeWhile utils.isDigit = []) :
    (ds ++ rest).takeWhile utils.isDigit = ds ∧ (ds ++ rest).dropWhile utils.isDigit = rest := by
  have hd : rest.dropWhile utils.isDigit = rest := by
    have := List.takeWhile_append_dropWhile utils.isDigit rest
    rw [hrest] at this
    exact this
  constructor
  · rw [List.takeWhile_append_of_pos hds, hrest, List.append_nil]
  · rw [List.dropWhile_append_of_pos hds, hd]

theorem sampleReadInt_itoa (i : Int) (rest : Str)
    (hrest : rest.takeWhile utils.isDigit = []) :
    sampleReadInt (sampleItoa i ++ rest) = some (i, rest) := by
  obtain ⟨hall, hval, hne⟩ := sampleDigits_natAbs i.natAbs
  obtain ⟨ht, hd⟩ := takeWhile_digits_append _ rest hall hrest
  unfold sampleItoa
  by_cases hi : i < 0
  · rw [if_pos hi]
    show sampleReadInt ('-' :: (sampleDigits (i.natAbs + 1) i.natAbs ++ rest)) = _
    unfold sampleReadInt
    simp only
    rw [if_pos trivial, ht, hd, if_neg hne, hval]
    congr 2
    omega
  · rw [if_neg hi]
    obtain ⟨d0, ds, hds⟩ := List.exists_cons_of_ne_nil hne
    have hd0 : d0 ≠ '-' := by
      intro h
      have := hall d0 (by rw [hds]; exact List.mem_cons_self _ _)
      rw [h] at this
      exact absurd this (by decide)
    rw [hds] at ht hd hval
    rw [hds]
    show sampleReadInt (d0 :: (ds ++ rest)) = _
    unfold sampleReadInt
    simp only
    rw [if_neg hd0]
    have ht' : (d0 :: (ds ++ rest)).takeWhile utils.isDigit = d0 :: ds := ht
    have hd' : (d0 :: (ds ++ rest)).dropWhile utils.isDigit = rest := hd
    rw [ht', hd', if_neg (by simp), hval]
    congr 2
    omega

theorem sampleReadString_plain (c : Char) (rest : Str) (h1 : c ≠ '"') (h2 : c ≠ '\\') :
    sampleReadString (c :: rest) =
      (sampleReadString rest).map (fun r => (c :: r.1, r.2)) := by
  have h : sampleReadString (c :: rest) =
      if c = '"' then some ([], rest)
      else if c = '\\' then none
      else (sampleReadString rest).map (fun r => (c :: r.1, r.2)) := by
    conv_lhs => unfold sampleReadString
    rw [if_neg h1, if_neg h2, if_neg h1, if_neg h2]
  rw [h, if_neg h1, if_neg h2]

theorem sampleReadString_escaped (c : Char) (rest : Str) :
    sampleReadString
        ((if c = '"' then ['\\', '"']
          else if c = '\\' then ['\\', '\\']
          else if c = '<' then "\\u003c".toList
          else if c = '>' then "\\u003e".toList
          else if c = '&' then "\\u0026".toList
          else [c]) ++ rest) =
      (sampleReadString rest).map (fun r => (c :: r.1, r.2)) := by
  by_cases h1 : c = '"'
  · rw [if_pos h1, h1]
    rfl
  · rw [if_neg h1]
    by_cases h2 : c = '\\'
    · rw [if_pos h2, h2]
      rfl
    · rw [if_neg h2]
      by_cases h3 : c = '<'
      · rw [if_pos h3, h3]
        rfl
      · rw [if_neg h3]
        by_cases h4 : c = '>'
        · rw [if_pos h4, h4]
          rfl
        · rw [if_neg h4]
          by_cases h5 : c = '&'
          · rw [if_pos h5, h5]
            rfl
          · rw [if_neg h5]
            exact sampleReadString_plain c rest h1 h2

theorem sampleReadString_string (s rest : Str) :
    sampleReadString
        (s.flatMap (fun c =>
          if c = '"' then ['\\', '"']
          else if c = '\\' then ['\\', '\\']
          else if c = '<' then "\\u003c".toList
          else if c = '>' then "\\u003e".toList
          else if c = '&' then "\\u0026".toList
          else [c]) ++ '"' :: rest) = some (s, rest) := by
  induction s with
  | nil =>
    rw [List.flatMap_nil, List.nil_append]
    conv_lhs => unfold sampleReadString
    rw [if_pos rfl]
  | cons c s ih =>
    rw [List.flatMap_cons, List.append_assoc, sampleReadString_escaped c, ih]
    rfl

theorem sampleMarshal_payload (d : Str) (a b c e : Int) :
    sampleMarshal (BuildDoubleEncodedDealsURL.payload d a b c e) =
      some
        ("\x7b\"state\":\x7b\"rangeRefinementFilters\":\x7b\"percentOff\":\x7b\"min\":".toList ++
          (sampleItoa c ++ (",\"max\":".toList ++ (sampleItoa e ++
          ("\x7d,\"price\":\x7b\"min\":".toList ++ (sampleItoa a ++ (",\"max\":".toList ++
          (sampleItoa b ++
          ("\x7d\x7d,\"refinementFilters\":\x7b\"departments\":[\"".toList ++
          (d.flatMap (fun c =>
            if c = '"' then ['\\', '"']
            else if c = '\\' then ['\\', '\\']
            else if c = '<' then "\\u003c".toList
            else if c = '>' then "\\u003e".toList
            else if c = '&' then "\\u0026".toList
            else [c]) ++ '"' :: "]\x7d\x7d,\"version\":1\x7d".toList)))))))))) := by
  unfold sampleMarshal BuildDoubleEncodedDealsURL.payload
  simp only [sampleJSONStrings, sampleJSONString, List.append_assoc]
  rfl

theorem sampleUnmarshal_marshal (d : Str) (a b c e : Int) :
    ∃ j, sampleMarshal (BuildDoubleEncodedDealsURL.payload d a b c e) = some j ∧
      sampleUnmarshal j = some (BuildDoubleEncodedDealsURL.payload d a b c e) := by
  refine ⟨_, sampleMarshal_payload d a b c e, ?_⟩
  unfold sampleUnmarshal
  rw [sampleExpect_append, Option.some_bind, sampleReadInt_itoa]
  swap
  · rfl
  rw [Option.some_bind]
  simp only
  rw [sampleExpect_append, Option.some_bind, sampleReadInt_itoa]
  swap
  · rfl
  rw [Option.some_bind]
  simp only
  rw [sampleExpect_append, Option.some_bind, sampleReadInt_itoa]
  swap
  · rfl
  rw [Option.some_bind]
  simp only
  rw [sampleExpect_append, Option.some_bind, sampleReadInt_itoa]
  swap
  · rfl
  rw [Option.some_bind]
  simp only
  rw [sampleExpect_append, Option.some_bind, sampleReadString_string, Option.some_bind]
  simp only
  rw [if_pos trivial]

/-- C19: for every department value and every four integer bounds, with libraries whose
decoders read back what their encoders write (`url.QueryUnescape` after `url.QueryEscape`,
`strconv.Unquote` after `strconv.Quote`, `json.Unmarshal` after `json.Marshal` on the
payloads built), `BuildDoubleEncodedDealsURL` returns, with no error, `BaseURL` followed by
`/deals?discounts-widget=` and a value `v`; percent-decoding `v` twice, unquoting and
decoding the JSON gives a payload with exactly that department in
`refinementFilters.departments`, the given bounds in `rangeRefinementFilters.price` and
`rangeRefinementFilters.percentOff`, and version 1. -/
theorem BuildDoubleEncodedDealsURL_reads_back (enc : Encoders) (dec : Decoders)
    (s : AmazonDealsScraper) (departmentValue : Str) (minPrice maxPrice minOff maxOff : Int)
    (hq : ∀ x, dec.QueryUnescape (enc.QueryEscape x) = some x)
    (hu : ∀ x, dec.Unquote (enc.Quote x) = some x)
    (hm : ∀ d a b c e, ∃ j,
      enc.Marshal (BuildDoubleEncodedDealsURL.payload d a b c e) = some j ∧
      dec.Unmarshal j = some (BuildDoubleEncodedDealsURL.payload d a b c e)) :
    ∃ v p,
      BuildDoubleEncodedDealsURL enc s departmentValue minPrice maxPrice minOff maxOff =
        (s.BaseURL ++ "/deals?discounts-widget=".toList ++ v, none) ∧
      dec.readWidget v = some p ∧
      p.state.refinementFilters.departments = [departmentValue] ∧
      p.state.rangeRefinementFilters.price = { Min := minPrice, Max := maxPrice } ∧
      p.state.rangeRefinementFilters.percentOff = { Min := minOff, Max := maxOff } ∧
      p.version = 1 := by
  obtain ⟨j, hj, hback⟩ := hm departmentValue minPrice maxPrice minOff maxOff
  refine ⟨enc.QueryEscape (enc.QueryEscape (enc.Quote j)),
    BuildDoubleEncodedDealsURL.payload departmentValue minPrice maxPrice minOff maxOff,
    ?_, ?_, rfl, rfl, rfl, rfl⟩
  · unfold BuildDoubleEncodedDealsURL
    simp only
    rw [hj]
  · unfold Decoders.readWidget
    rw [hq, Option.some_bind, hq, Option.some_bind, hu, Option.some_bind, hback]

set_option maxRecDepth 1000000 in
/-- C19 with the sample encoders, which the sample decoders read back on every input: the
URL built for the department `home & kitchen`, prices 0 to 500 and 20 to 90 percent off. -/
theorem BuildDoubleEncodedDealsURL_reads_back_witness :
    BuildDoubleEncodedDealsURL sampleEncoders sampleScraper "home & kitchen".toList 0 500 20 90 =
      ("https://www.amazon.ae/deals?discounts-widget=%2522%257B%255C%2522state%255C%2522%253A%257B%255C%2522rangeRefinementFilters%255C%2522%253A%257B%255C%2522percentOff%255C%2522%253A%257B%255C%2522min%255C%2522%253A20%252C%255C%2522max%255C%2522%253A90%257D%252C%255C%2522price%255C%2522%253A%257B%255C%2522min%255C%2522%253A0%252C%255C%2522max%255C%2522%253A500%257D%257D%252C%255C%2522refinementFilters%255C%2522%253A%257B%255C%2522departments%255C%2522%253A%255B%255C%2522home%2B%255C%255Cu0026%2Bkitchen%255C%2522%255D%257D%257D%252C%255C%2522version%255C%2522%253A1%257D%2522".toList,
        none) ∧
    ∃ v p,
      BuildDoubleEncodedDealsURL sampleEncoders sampleScraper "home & kitchen".toList
          0 500 20 90 =
        (sampleScraper.BaseURL ++ "/deals?discounts-widget=".toList ++ v, none) ∧
      sampleDecoders.readWidget v = some p ∧
      p.state.refinementFilters.departments = ["home & kitchen".toList] ∧
      p.state.rangeRefinementFilters.price = { Min := 0, Max := 500 } ∧
      p.state.rangeRefinementFilters.percentOff = { Min := 20, Max := 90 } ∧
      p.version = 1 :=
  ⟨by decide,
    BuildDoubleEncodedDealsURL_reads_back sampleEncoders sampleDecoders sampleScraper
      "home & kitchen".toList 0 500 20 90 sampleQueryUnescape_escape sampleUnquote_quote
      sampleUnmarshal_marshal⟩

/-! ## `extractBrand` -/

theorem strings.TrimPrefix_append (pre s : Str) : strings.TrimPrefix (pre ++ s) pre = s := by
  unfold strings.TrimPrefix strings.HasPrefix
  rw [if_pos (List.isPrefixOf_iff_prefix.mpr (List.prefix_append pre s)), List.drop_left]

theorem strings.TrimPrefix_of_not (s pre : Str) (h : strings.HasPrefix s pre = false) :
    strings.TrimPrefix s pre = s := by
  unfold strings.TrimPrefix
  rw [h]
  rfl

theorem strings.TrimSuffix_append (s suf : Str) : strings.TrimSuffix (s ++ suf) suf = s := by
  unfold strings.TrimSuffix strings.HasSuffix
  rw [if_pos (List.isSuffixOf_iff_suffix.mpr (List.suffix_append s suf)), List.length_append,
    Nat.add_sub_cancel, List.take_left]

theorem strings.TrimSuffix_of_not (s suf : Str) (h : strings.HasSuffix s suf = false) :
    strings.TrimSuffix s suf = s := by
  unfold strings.TrimSuffix
  rw [h]
  rfl

theorem dropWhile_of_head (p : Char → Bool) (l : Str) (h : ∀ c, l.head? = some c → p c = false) :
    l.dropWhile p = l := by
  cases l with
  | nil => rfl
  | cons c t => rw [List.dropWhile_cons, h c rfl]; rfl

theorem strings.TrimSpace_of_bare (X : Str)
    (hhead : ∀ c, X.head? = some c → strings.IsSpace c = false)
    (hlast : ∀ c, X.getLast? = some c → strings.IsSpace c = false) :
    strings.TrimSpace X = X := by
  unfold strings.TrimSpace
  rw [dropWhile_of_head _ X hhead, dropWhile_of_head _ X.reverse, List.reverse_reverse]
  intro c hc
  rw [List.head?_reverse] at hc
  exact hlast c hc

theorem hasPrefix_brand_store (X : Str) (hbrand : strings.HasPrefix X "Brand: ".toList = false)
    (hne : X ≠ "Brand:".toList) :
    strings.HasPrefix (X ++ " Store".toList) "Brand: ".toList = false := by
  by_contra hcon
  have hp : "Brand: ".toList <+: X ++ " Store".toList := by
    have : strings.HasPrefix (X ++ " Store".toList) "Brand: ".toList = true := by
      cases h : strings.HasPrefix (X ++ " Store".toList) "Brand: ".toList
      · exact absurd h hcon
      · rfl
    exact List.isPrefixOf_iff_prefix.mp this
  rcases List.prefix_or_prefix_of_prefix hp (List.prefix_append X _) with h | h
  · have : strings.HasPrefix X "Brand: ".toList = true := List.isPrefixOf_iff_prefix.mpr h
    rw [hbrand] at this
    cases this
  · have hmem : X ∈ "Brand: ".toList.inits := (List.mem_inits _ _).mpr h
    have key : ∀ Y ∈ "Brand: ".toList.inits, Y ≠ "Brand:".toList →
        strings.HasPrefix Y "Brand: ".toList = false →
        strings.HasPrefix (Y ++ " Store".toList) "Brand: ".toList = false := by decide
    exact hcon (key X hmem hne hbrand)

/-- C21, as the claim states it, fails for the brand name `Brand:`: it has no surrounding
white space, does not begin with `Visit the ` or `Brand: ` and does not end with ` Store`, yet
from the byline `Visit the Brand: Store` the second prefix trim removes `Brand: ` and
`extractBrand` returns `Store`. -/
theorem extractBrand_loses_brand_spelled_like_label :
    strings.TrimSpace "Brand:".toList = "Brand:".toList ∧
    strings.HasPrefix "Brand:".toList "Visit the ".toList = false ∧
    strings.HasPrefix "Brand:".toList "Brand: ".toList = false ∧
    strings.HasSuffix "Brand:".toList " Store".toList = false ∧
    extractBrand (samplePage [("#bylineInfo", "Visit the Brand: Store")] []) = "Store".toList ∧
    extractBrand (samplePage [("#bylineInfo", "Visit the Brand: Store")] []) ≠
      "Brand:".toList := by
  decide

/-- C21 amended: for every brand name `X` that has no surrounding white space, does not begin
with `Brand: `, does not end with ` Store` and is not `Brand:`, `extractBrand` returns `X`
when the byline text is `Visit the X Store` and when it is `Brand: X`. -/
theorem extractBrand_trims_byline (page : Page) (X : Str)
    (hhead : ∀ c, X.head? = some c → strings.IsSpace c = false)
    (hlast : ∀ c, X.getLast? = some c → strings.IsSpace c = false)
    (hbrand : strings.HasPrefix X "Brand: ".toList = false)
    (hstore : strings.HasSuffix X " Store".toList = false)
    (hne : X ≠ "Brand:".toList) :
    (elementText page "#bylineInfo" = some ("Visit the ".toList ++ X ++ " Store".toList) →
      extractBrand page = X) ∧
    (elementText page "#bylineInfo" = some ("Brand: ".toList ++ X) →
      extractBrand page = X) := by
  constructor
  · intro h
    unfold extractBrand
    rw [h]
    simp only
    rw [List.append_assoc, strings.TrimPrefix_append,
      strings.TrimPrefix_of_not _ _ (hasPrefix_brand_store X hbrand hne),
      strings.TrimSuffix_append, strings.TrimSpace_of_bare X hhead hlast]
  · intro h
    unfold extractBrand
    rw [h]
    simp only
    rw [strings.TrimPrefix_of_not ("Brand: ".toList ++ X) "Visit the ".toList rfl,
      strings.TrimPrefix_append, strings.TrimSuffix_of_not X _ hstore,
      strings.TrimSpace_of_bare X hhead hlast]

/-- C21 amended, on the brand `Sony`: both byline forms give `Sony`. -/
theorem extractBrand_trims_byline_witness :
    extractBrand (samplePage [("#bylineInfo", "Visit the Sony Store")] []) = "Sony".toList ∧
    extractBrand (samplePage [("#bylineInfo", "Brand: Sony")] []) = "Sony".toList :=
  ⟨(extractBrand_trims_byline (samplePage [("#bylineInfo", "Visit the Sony Store")] [])
      "Sony".toList (by decide) (by decide) (by decide) (by decide) (by decide)).1 (by decide),
    (extractBrand_trims_byline (samplePage [("#bylineInfo", "Brand: Sony")] [])
      "Sony".toList (by decide) (by decide) (by decide) (by decide) (by decide)).2 (by decide)⟩

/-- C22: when the byline element is present and its text is read, `extractBrand` returns the
trimmed byline, also when it is empty: the secondary brand location is not consulted, whatever
it holds. -/
theorem extractBrand_returns_empty_byline (page : Page) (text : Str)
    (hbyline : elementText page "#bylineInfo" = some text)
    (hempty : strings.TrimSpace
      (strings.TrimSuffix
        (strings.TrimPrefix (strings.TrimPrefix text "Visit the ".toList) "Brand: ".toList)
        " Store".toList) = []) :
    extractBrand page = [] := by
  unfold extractBrand
  rw [hbyline]
  exact hempty

/-- C22 on a page whose byline is `Visit the  Store` and whose secondary brand location holds
`Sony`: the result is empty, not `Sony`. -/
theorem extractBrand_returns_empty_byline_witness :
    elementText (samplePage [("#bylineInfo", "Visit the  Store"),
      (".po-brand .po-break-word", "Sony")] []) ".po-brand .po-break-word" =
      some "Sony".toList ∧
    extractBrand (samplePage [("#bylineInfo", "Visit the  Store"),
      (".po-brand .po-break-word", "Sony")] []) = [] :=
  ⟨by decide,
    extractBrand_returns_empty_byline (samplePage [("#bylineInfo", "Visit the  Store"),
      (".po-brand .po-break-word", "Sony")] []) "Visit the  Store".toList (by decide)
      (by decide)⟩

/-! ## `utils.UniqueStrings` and `utils.CreateSlug` -/

theorem UniqueStrings_loop_eq :
    ∀ (slice keys uniqueSlice : List Str),
      utils.UniqueStrings.loop slice keys uniqueSlice =
        uniqueSlice ++ (keepFirst slice).filter (fun u => u ∉ keys) := by
  intro slice
  induction slice with
  | nil => intro keys uniqueSlice; simp [utils.UniqueStrings.loop, keepFirst]
  | cons entry slice ih =>
    intro keys uniqueSlice
    unfold utils.UniqueStrings.loop
    by_cases hseen : entry ∈ keys
    · rw [if_pos hseen, ih]
      simp only [keepFirst]
      rw [List.filter_cons_of_neg (by simpa using hseen), List.filter_filter]
      congr 1
      apply List.filter_congr
      intro y _
      by_cases hy : y = entry
      · subst hy; simp [hseen]
      · simp [hy]
    · rw [if_neg hseen, ih]
      simp only [keepFirst]
      rw [List.filter_cons_of_pos (by simpa using hseen), List.filter_filter,
        List.append_assoc, List.singleton_append]
      congr 2
      apply List.filter_congr
      intro y _
      simp only [List.mem_cons, not_or, ne_eq, Bool.decide_and, Bool.and_comm]

/-- C24: for every slice of strings, `UniqueStrings` returns a slice in which no string
occurs twice and in which a string occurs if and only if it occurs in the input; it is the
input with every repetition after the first occurrence removed, in the input's order. -/
theorem UniqueStrings_has_each_member_once (slice : List Str) :
    (utils.UniqueStrings slice).Nodup ∧
    (∀ x, x ∈ utils.UniqueStrings slice ↔ x ∈ slice) ∧
    utils.UniqueStrings slice = keepFirst slice ∧
    (utils.UniqueStrings slice).Sublist slice := by
  have heq : utils.UniqueStrings slice = keepFirst slice := by
    unfold utils.UniqueStrings
    rw [UniqueStrings_loop_eq]
    simp
  have hsub : ∀ l : List Str, (keepFirst l).Sublist l := by
    intro l
    induction l with
    | nil => exact List.Sublist.slnil
    | cons x xs ih =>
      simp only [keepFirst]
      exact List.Sublist.cons₂ x ((List.filter_sublist _).trans ih)
  rw [heq]
  exact ⟨nodup_keepFirst slice, fun x => mem_keepFirst x slice, rfl, hsub slice⟩

theorem ReplaceAll_space (title : Str) :
    strings.ReplaceAll title " ".toList "-".toList =
      title.map (fun c => if c = ' ' then '-' else c) := by
  unfold strings.ReplaceAll
  rw [if_neg (by decide)]
  induction title with
  | nil => rfl
  | cons c s ih =>
    rw [strings.ReplaceAll.go, List.map_cons]
    by_cases hc : c = ' '
    · have hp : strings.HasPrefix (' ' :: s) " ".toList = true :=
        (strings.HasPrefix_iff _ _).mpr ⟨s, rfl⟩
      rw [hc, if_pos rfl, if_pos hp]
      exact congrArg (fun l => '-' :: l) ih
    · rw [if_neg hc, if_neg]
      · exact congrArg (fun l => c :: l) ih
      · intro h
        rw [strings.HasPrefix_iff] at h
        obtain ⟨r, hr⟩ := h
        injection hr with h1 _
        exact hc h1.symm

theorem slugRegexReplaceAllString_go_nil (t : UnicodeTables) :
    ∀ (src : Str) (inMatch : Bool),
      utils.slugRegexReplaceAllString.go t [] src inMatch =
        src.filter (fun c => !utils.slugRegexClass t c) := by
  intro src
  induction src with
  | nil => intro _; rfl
  | cons c s ih =>
    intro inMatch
    rw [utils.slugRegexReplaceAllString.go]
    by_cases hc : utils.slugRegexClass t c = true
    · rw [if_pos hc, List.filter_cons_of_neg (by simp [hc])]
      cases inMatch
      · rw [if_neg (by decide), List.nil_append, ih]
      · rw [if_pos rfl, ih]
    · rw [if_neg hc, List.filter_cons_of_pos (by simpa using hc), ih]

theorem CreateSlug_eq (t : UnicodeTables) (title : Str) :
    utils.CreateSlug t title =
      (((title.map (fun c => if c = ' ' then '-' else c)).filter
        (fun c => unicode.IsLetter t c || unicode.IsNumber t c || c = '-')).map
        (strings.lowerRune t.lower)) := by
  unfold utils.CreateSlug utils.slugRegexReplaceAllString strings.ToLower
  simp only
  rw [ReplaceAll_space, slugRegexReplaceAllString_go_nil]
  congr 1
  apply List.filter_congr
  intro c _
  unfold utils.slugRegexClass
  simp

theorem ofNat_add_32 : ∀ n, n < 91 → 65 ≤ n → (Char.ofNat (n + 32)).toNat = n + 32 := by
  decide

theorem lowerRune_ascii (table : Char → Char) (c : Char) (h : c.toNat < 128) :
    (strings.lowerRune table c).toNat < 128 ∧
    ¬ (65 ≤ (strings.lowerRune table c).toNat ∧ (strings.lowerRune table c).toNat ≤ 90) ∧
    ((65 ≤ c.toNat ∧ c.toNat ≤ 90) →
      (strings.lowerRune table c).toNat = c.toNat + 32) ∧
    (¬ (65 ≤ c.toNat ∧ c.toNat ≤ 90) → strings.lowerRune table c = c) := by
  unfold strings.lowerRune
  rw [if_pos h]
  by_cases hu : 65 ≤ c.toNat ∧ c.toNat ≤ 90
  · rw [if_pos hu]
    have := ofNat_add_32 c.toNat (by omega) hu.1
    refine ⟨by omega, by omega, fun _ => this, fun h' => absurd hu h'⟩
  · rw [if_neg hu]
    exact ⟨h, hu, fun h' => absurd h' hu, fun _ => rfl⟩

theorem lowerRune_keeps_class (t : UnicodeTables)
    (hL : ∀ c, 128 ≤ c.toNat → t.letter c = true → unicode.IsLetter t (t.lower c) = true)
    (hN : ∀ c, 128 ≤ c.toNat → t.number c = true → unicode.IsNumber t (t.lower c) = true)
    (c : Char)
    (hc : (unicode.IsLetter t c || unicode.IsNumber t c || c = '-') = true) :
    unicode.IsLetter t (strings.lowerRune t.lower c) = true ∨
    unicode.IsNumber t (strings.lowerRune t.lower c) = true ∨
    strings.lowerRune t.lower c = '-' := by
  by_cases h : c.toNat < 128
  · obtain ⟨h1, h2, h3, h4⟩ := lowerRune_ascii t.lower c h
    by_cases hu : 65 ≤ c.toNat ∧ c.toNat ≤ 90
    · left
      have := h3 hu
      unfold unicode.IsLetter
      rw [if_pos h1]
      simp
      omega
    · rw [h4 hu]
      simpa [or_assoc] using hc
  · have hge : 128 ≤ c.toNat := by omega
    have hlow : strings.lowerRune t.lower c = t.lower c := by
      unfold strings.lowerRune
      rw [if_neg h]
    have hne : c ≠ '-' := by
      intro he
      rw [he] at h
      exact h (by decide)
    rw [hlow]
    unfold unicode.IsLetter unicode.IsNumber at hc
    rw [if_neg h, if_neg h] at hc
    simp only [Bool.or_eq_true, decide_eq_true_eq, hne, or_false] at hc
    rcases hc with hl | hn
    · exact Or.inl (hL c hge hl)
    · exact Or.inr (Or.inl (hN c hge hn))

theorem lowerRune_idem (t : UnicodeTables)
    (hidem : ∀ c, 128 ≤ c.toNat →
      strings.lowerRune t.lower (t.lower c) = t.lower c) (c : Char) :
    strings.lowerRune t.lower (strings.lowerRune t.lower c) = strings.lowerRune t.lower c := by
  by_cases h : c.toNat < 128
  · obtain ⟨h1, h2, _, _⟩ := lowerRune_ascii t.lower c h
    exact (lowerRune_ascii t.lower _ h1).2.2.2 h2
  · have hlow : strings.lowerRune t.lower c = t.lower c := by
      unfold strings.lowerRune
      rw [if_neg h]
    rw [hlow]
    exact hidem c (by omega)

/-- C23: for every title, `CreateSlug` gives the title with every space turned into a hyphen,
every other character that is neither a Unicode letter, nor a Unicode number, nor a hyphen
removed, and what remains lowered. With Unicode tables in which the lower case of a letter is
a letter, that of a number a number, and lowering a lowered character changes nothing, the
result holds no space, holds only letters, numbers and hyphens, and lowering it again changes
nothing. -/
theorem CreateSlug_is_lowercase_letters_numbers_hyphens (t : UnicodeTables) (title : Str)
    (hL : ∀ c, 128 ≤ c.toNat → t.letter c = true → unicode.IsLetter t (t.lower c) = true)
    (hN : ∀ c, 128 ≤ c.toNat → t.number c = true → unicode.IsNumber t (t.lower c) = true)
    (hidem : ∀ c, 128 ≤ c.toNat →
      strings.lowerRune t.lower (t.lower c) = t.lower c) :
    utils.CreateSlug t title =
      (((title.map (fun c => if c = ' ' then '-' else c)).filter
        (fun c => unicode.IsLetter t c || unicode.IsNumber t c || c = '-')).map
        (strings.lowerRune t.lower)) ∧
    ' ' ∉ utils.CreateSlug t title ∧
    (∀ c ∈ utils.CreateSlug t title,
      unicode.IsLetter t c = true ∨ unicode.IsNumber t c = true ∨ c = '-') ∧
    strings.ToLower t.lower (utils.CreateSlug t title) = utils.CreateSlug t title := by
  have hall : ∀ c ∈ utils.CreateSlug t title,
      unicode.IsLetter t c = true ∨ unicode.IsNumber t c = true ∨ c = '-' := by
    intro c hc
    rw [CreateSlug_eq, List.mem_map] at hc
    obtain ⟨a, ha, hac⟩ := hc
    rw [← hac]
    exact lowerRune_keeps_class t hL hN a (List.mem_filter.mp ha).2
  refine ⟨CreateSlug_eq t title, ?_, hall, ?_⟩
  · intro hsp
    rcases hall ' ' hsp with h | h | h
    · unfold unicode.IsLetter at h
      rw [if_pos (by decide)] at h
      exact absurd h (by decide)
    · unfold unicode.IsNumber at h
      rw [if_pos (by decide)] at h
      exact absurd h (by decide)
    · exact absurd h (by decide)
  · rw [CreateSlug_eq]
    unfold strings.ToLower
    rw [List.map_map]
    apply List.map_congr_left
    intro c _
    exact lowerRune_idem t hidem c

/-- C23 on `Hello World!`, with tables that hold the Persian letters and digits and no case
pairs beyond ASCII: the slug is `hello-world`. -/
theorem CreateSlug_is_lowercase_letters_numbers_hyphens_witness :
    utils.CreateSlug sampleTables "Hello World!".toList = "hello-world".toList ∧
    ' ' ∉ utils.CreateSlug sampleTables "Hello World!".toList ∧
    strings.ToLower sampleTables.lower (utils.CreateSlug sampleTables "Hello World!".toList) =
      utils.CreateSlug sampleTables "Hello World!".toList :=
  have h := CreateSlug_is_lowercase_letters_numbers_hyphens sampleTables "Hello World!".toList
    (fun c hc hl => by
      unfold unicode.IsLetter
      rw [if_neg (by show ¬ (id c).toNat < 128; exact Nat.not_lt.mpr hc)]
      exact hl)
    (fun c hc hn => by
      unfold unicode.IsNumber
      rw [if_neg (by show ¬ (id c).toNat < 128; exact Nat.not_lt.mpr hc)]
      exact hn)
    (fun c hc => by
      unfold strings.lowerRune
      rw [if_neg (by show ¬ (id c).toNat < 128; exact Nat.not_lt.mpr hc)]
      rfl)
  ⟨h.1.trans (by decide), h.2.1, h.2.2.2⟩

/-! ## `ScrapeDealsGrid`: the URL built from a relative link -/

/-- C27: for every scraper built by `NewAmazonDealsScraper` and every card href that begins
with `/`, the `ProductURL` of the stub is the base URL without its trailing slashes followed
by the href without its leading slash: no `/` is put between them, so it is not the base URL
and the href joined by one `/`. An href that begins with `http` is kept unchanged. -/
theorem NewAmazonDealsScraper_stub_url_drops_slash (baseURL rest : Str) (card : Card) :
    (ScrapeDealsGrid.stub (NewAmazonDealsScraper baseURL) ('/' :: rest) card).ProductURL =
      strings.TrimRight baseURL "/".toList ++ rest ∧
    (ScrapeDealsGrid.stub (NewAmazonDealsScraper baseURL) ('/' :: rest) card).ProductURL ≠
      strings.TrimRight baseURL "/".toList ++ '/' :: rest ∧
    (∀ href, strings.HasPrefix href "http".toList = true →
      (ScrapeDealsGrid.stub (NewAmazonDealsScraper baseURL) href card).ProductURL = href) := by
  have h1 : (ScrapeDealsGrid.stub (NewAmazonDealsScraper baseURL) ('/' :: rest) card).ProductURL =
      strings.TrimRight baseURL "/".toList ++ rest := by
    rw [stub_url]
    unfold ScrapeDealsGrid.fullURL
    rw [if_neg (by rw [show strings.HasPrefix ('/' :: rest) "http".toList = false from rfl]
                   decide)]
    have : strings.TrimPrefix ('/' :: rest) "/".toList = rest :=
      strings.TrimPrefix_append "/".toList rest
    rw [this]
    rfl
  refine ⟨h1, ?_, ?_⟩
  · rw [h1]
    intro h
    have := congrArg List.length (List.append_cancel_left h)
    simp at this
  · intro href hhttp
    rw [stub_url]
    unfold ScrapeDealsGrid.fullURL
    rw [if_pos hhttp]

/-- C27 on the base `https://www.amazon.ae/` and the href `/dp/X`: the stub's URL is
`https://www.amazon.aedp/X`, and an absolute href is kept. -/
theorem NewAmazonDealsScraper_stub_url_drops_slash_witness :
    (ScrapeDealsGrid.stub (NewAmazonDealsScraper "https://www.amazon.ae/".toList)
      "/dp/X".toList (sampleCard "/dp/X")).ProductURL = "https://www.amazon.aedp/X".toList ∧
    (ScrapeDealsGrid.stub (NewAmazonDealsScraper "https://www.amazon.ae/".toList)
      "/dp/X".toList (sampleCard "/dp/X")).ProductURL ≠ "https://www.amazon.ae/dp/X".toList ∧
    (ScrapeDealsGrid.stub (NewAmazonDealsScraper "https://www.amazon.ae/".toList)
      "https://www.amazon.ae/dp/X".toList (sampleCard "https://www.amazon.ae/dp/X")).ProductURL =
      "https://www.amazon.ae/dp/X".toList :=
  ⟨(NewAmazonDealsScraper_stub_url_drops_slash "https://www.amazon.ae/".toList "dp/X".toList
      (sampleCard "/dp/X")).1.trans (by decide),
    by decide,
    (NewAmazonDealsScraper_stub_url_drops_slash "https://www.amazon.ae/".toList []
      (sampleCard "https://www.amazon.ae/dp/X")).2.2 _ (by decide)⟩

/-! ## The ASIN of a product URL -/

theorem Split_go_cons (c0 c : Char) (s cur : Str) :
    strings.Split.go [c0] (c :: s) 0 cur =
      if c = c0 then cur.reverse :: strings.Split.go [c0] s 0 []
      else strings.Split.go [c0] s 0 (c :: cur) := by
  rw [strings.Split.go]
  by_cases h : c = c0
  · have hp : strings.HasPrefix (c :: s) [c0] = true := by
      rw [h]
      exact (strings.HasPrefix_iff _ _).mpr ⟨s, rfl⟩
    rw [if_pos hp, if_pos h]
    rfl
  · rw [if_neg h, if_neg]
    intro hp
    rw [strings.HasPrefix_iff] at hp
    obtain ⟨r, hr⟩ := hp
    injection hr with h1 _
    exact h h1.symm

theorem Split_go_spec (c0 : Char) :
    ∀ (s cur : Str), c0 ∉ cur →
      (strings.Split.go [c0] s 0 cur).headD [] =
        cur.reverse ++ s.takeWhile (fun c => c != c0) ∧
      (∀ p ∈ strings.Split.go [c0] s 0 cur, c0 ∉ p) ∧
      List.intercalate [c0] (strings.Split.go [c0] s 0 cur) = cur.reverse ++ s ∧
      strings.Split.go [c0] s 0 cur ≠ [] := by
  intro s
  induction s with
  | nil =>
    intro cur hcur
    rw [strings.Split.go]
    refine ⟨by simp, ?_, by simp [List.intercalate], by simp⟩
    intro p hp
    rw [List.mem_singleton] at hp
    rw [hp]
    simpa using hcur
  | cons c s ih =>
    intro cur hcur
    rw [Split_go_cons]
    by_cases h : c = c0
    · rw [if_pos h]
      obtain ⟨_, h2, h3, h4⟩ := ih [] (by simp)
      refine ⟨?_, ?_, ?_, by simp⟩
      · rw [List.takeWhile_cons, h]
        simp
      · intro p hp
        rw [List.mem_cons] at hp
        rcases hp with hp | hp
        · rw [hp]
          simpa using hcur
        · exact h2 p hp
      · obtain ⟨x, xs, hx⟩ := List.exists_cons_of_ne_nil h4
        rw [hx] at h3
        rw [hx, h]
        simp only [List.intercalate, List.intersperse, List.flatten_cons] at h3 ⊢
        rw [h3]
        simp
    · rw [if_neg h]
      obtain ⟨h1, h2, h3, h4⟩ := ih (c :: cur) (by
        intro hm
        rw [List.mem_cons] at hm
        rcases hm with hm | hm
        · exact h hm.symm
        · exact hcur hm)
      refine ⟨?_, h2, ?_, h4⟩
      · rw [h1, List.takeWhile_cons]
        simp [h]
      · rw [h3]
        simp

theorem Split_char_spec (c0 : Char) (s : Str) :
    (strings.Split s [c0]).headD [] = s.takeWhile (fun c => c != c0) ∧
    (∀ p ∈ strings.Split s [c0], c0 ∉ p) ∧
    List.intercalate [c0] (strings.Split s [c0]) = s ∧
    strings.Split s [c0] ≠ [] := by
  unfold strings.Split
  rw [if_neg (by simp)]
  simpa using Split_go_spec c0 s [] (by simp)

theorem asinLoop_cut (next : Str) :
    (strings.Split next "?".toList).headD [] = next.takeWhile (fun c => c != '?') :=
  (Split_char_spec '?' next).1

theorem asinLoop_found (m next : Str) (post : List Str)
    (hm : m = "dp".toList ∨ m = "gp".toList) :
    ∀ pre : List Str, (∀ p ∈ pre, ¬ (p = "dp".toList ∨ p = "gp".toList)) →
      PublishCompletedProducts.asinLoop (pre ++ m :: next :: post) =
        next.takeWhile (fun c => c != '?') := by
  intro pre
  induction pre with
  | nil =>
    intro _
    rw [List.nil_append, PublishCompletedProducts.asinLoop, if_pos ⟨hm, by simp⟩]
    exact asinLoop_cut next
  | cons p pre ih =>
    intro hpre
    rw [List.cons_append, PublishCompletedProducts.asinLoop,
      if_neg (fun h => hpre p (List.mem_cons_self _ _) h.1)]
    exact ih (fun q hq => hpre q (List.mem_cons_of_mem _ hq))

theorem asinLoop_none :
    ∀ parts : List Str,
      (∀ pre m next post, parts = pre ++ m :: next :: post →
        ¬ (m = "dp".toList ∨ m = "gp".toList)) →
      PublishCompletedProducts.asinLoop parts = [] := by
  intro parts
  induction parts with
  | nil => intro _; rfl
  | cons p rest ih =>
    intro h
    rw [PublishCompletedProducts.asinLoop, if_neg]
    · apply ih
      intro pre m next post hrest
      exact h (p :: pre) m next post (by rw [hrest]; rfl)
    · rintro ⟨hp, hrest⟩
      obtain ⟨next, post, hnp⟩ := List.exists_cons_of_ne_nil hrest
      exact h [] p next post (by rw [hnp]; rfl) hp

theorem asinLoop_clean :
    ∀ parts : List Str, (∀ p ∈ parts, '/' ∉ p) →
      '/' ∉ PublishCompletedProducts.asinLoop parts ∧
      '?' ∉ PublishCompletedProducts.asinLoop parts := by
  intro parts
  induction parts with
  | nil => intro _; exact ⟨by simp [PublishCompletedProducts.asinLoop],
      by simp [PublishCompletedProducts.asinLoop]⟩
  | cons p rest ih =>
    intro h
    rw [PublishCompletedProducts.asinLoop]
    by_cases hc : (p = "dp".toList ∨ p = "gp".toList) ∧ rest ≠ []
    · rw [if_pos hc]
      obtain ⟨next, post, hnp⟩ := List.exists_cons_of_ne_nil hc.2
      rw [hnp]
      show '/' ∉ (strings.Split next "?".toList).headD [] ∧
        '?' ∉ (strings.Split next "?".toList).headD []
      rw [asinLoop_cut]
      constructor
      · intro hmem
        have hn : '/' ∉ next := h next (by rw [hnp]; simp)
        exact hn ((List.takeWhile_sublist _).subset hmem)
      · intro hmem
        have := List.mem_takeWhile_imp hmem
        simp at this
    · rw [if_neg hc]
      exact ih (fun q hq => h q (List.mem_cons_of_mem _ hq))

/-- C29: for every product URL, the ASIN computed in `PublishCompletedProducts` is read off
the `/`-separated segments of the URL: it is the segment that follows the first `dp` or `gp`
segment that has a successor, cut at its first `?`; it is empty when no `dp` or `gp` segment
has a successor; and it contains neither `/` nor `?`. -/
theorem asin_is_segment_after_first_dp_or_gp (ProductURL : Str) :
    List.intercalate "/".toList (strings.Split ProductURL "/".toList) = ProductURL ∧
    (∀ p ∈ strings.Split ProductURL "/".toList, '/' ∉ p) ∧
    (∀ pre m next post, strings.Split ProductURL "/".toList = pre ++ m :: next :: post →
      (m = "dp".toList ∨ m = "gp".toList) →
      (∀ p ∈ pre, ¬ (p = "dp".toList ∨ p = "gp".toList)) →
      PublishCompletedProducts.asin ProductURL = next.takeWhile (fun c => c != '?')) ∧
    ((∀ pre m next post, strings.Split ProductURL "/".toList = pre ++ m :: next :: post →
        ¬ (m = "dp".toList ∨ m = "gp".toList)) →
      PublishCompletedProducts.asin ProductURL = []) ∧
    '/' ∉ PublishCompletedProducts.asin ProductURL ∧
    '?' ∉ PublishCompletedProducts.asin ProductURL := by
  obtain ⟨_, h2, h3, _⟩ := Split_char_spec '/' ProductURL
  refine ⟨h3, h2, ?_, ?_, (asinLoop_clean _ h2).1, (asinLoop_clean _ h2).2⟩
  · intro pre m next post hparts hm hpre
    unfold PublishCompletedProducts.asin
    rw [hparts]
    exact asinLoop_found m next post hm pre hpre
  · intro h
    exact asinLoop_none _ h

/-- C29 on `https://www.amazon.ae/Title/dp/B0ABC123?th=1`: the segment after `dp` is
`B0ABC123?th=1` and the ASIN is `B0ABC123`; a URL that ends in `dp` has the empty ASIN. -/
theorem asin_is_segment_after_first_dp_or_gp_witness :
    PublishCompletedProducts.asin "https://www.amazon.ae/Title/dp/B0ABC123?th=1".toList =
      "B0ABC123".toList ∧
    PublishCompletedProducts.asin "https://www.amazon.ae/Title/dp".toList = [] :=
  ⟨((asin_is_segment_after_first_dp_or_gp
      "https://www.amazon.ae/Title/dp/B0ABC123?th=1".toList).2.2.1
      ["https:".toList, [], "www.amazon.ae".toList, "Title".toList] "dp".toList
      "B0ABC123?th=1".toList [] (by decide) (by decide) (by decide)).trans (by decide),
    by decide⟩

/-! ## `extractGallery`: what the bracket scan isolates -/

theorem bracketDepth_append (a b : Str) :
    bracketDepth (a ++ b) = bracketDepth a + bracketDepth b := by
  unfold bracketDepth
  rw [List.count_append, List.count_append]
  push_cast
  ring

theorem shortest_balanced_parts (pre : Str) (hhead : pre.head? = some '[')
    (hzero : bracketDepth pre = 0)
    (hpos : ∀ q, q <+: pre → q ≠ [] → q ≠ pre → 0 < bracketDepth q) :
    ∃ body, pre = '[' :: body ++ [']'] ∧ Balanced body := by
  obtain ⟨t, ht⟩ : ∃ t, pre = '[' :: t := by
    cases pre with
    | nil => cases hhead
    | cons c t =>
      injection hhead with hc
      exact ⟨t, by rw [hc]⟩
  have htne : t ≠ [] := by
    intro h
    rw [ht, h] at hzero
    exact absurd hzero (by decide)
  obtain ⟨body, x, hbx⟩ : ∃ body x, t = body ++ [x] :=
    ⟨t.dropLast, t.getLast htne, (List.dropLast_append_getLast htne).symm⟩
  have hq : ∀ k, 0 < bracketDepth ('[' :: body.take k) := by
    intro k
    apply hpos
    · rw [ht, hbx]
      exact ⟨body.drop k ++ [x], by
        rw [List.cons_append, ← List.append_assoc, List.take_append_drop]⟩
    · simp
    · intro h
      have := congrArg List.length h
      rw [ht, hbx] at this
      simp at this
      have := List.length_take_le k body
      omega
  have hbody : 0 ≤ bracketDepth body := by
    have := hq body.length
    rw [List.take_length, bracketDepth_cons, if_pos rfl] at this
    omega
  have hsum : 1 + (bracketDepth body + bracketDepth [x]) = 0 := by
    rw [ht, hbx, bracketDepth_cons, if_pos rfl, bracketDepth_append] at hzero
    exact hzero
  have hx : bracketDepth [x] = (if x = '[' then 1 else if x = ']' then -1 else 0) := by
    rw [bracketDepth_cons, bracketDepth_nil, add_zero]
  have hxc : x = ']' ∧ bracketDepth body = 0 := by
    by_cases h1 : x = '['
    · rw [hx, if_pos h1] at hsum
      omega
    · by_cases h2 : x = ']'
      · rw [hx, if_neg h1, if_pos h2] at hsum
        exact ⟨h2, by omega⟩
      · rw [hx, if_neg h1, if_neg h2] at hsum
        omega
  refine ⟨body, by rw [ht, hbx, hxc.1]; rfl, hxc.2, ?_⟩
  intro n
  have := hq n
  rw [bracketDepth_cons, if_pos rfl] at this
  omega

/-- C25, as the claim states it, fails: the array literal `[{"a":"]"},[1]]` is well-formed
JSON whose first string value is `]`, and the scan stops at that character: the isolated
text is `[{"a":"]`, shorter than the literal. -/
theorem extractGallery_scan_stops_at_bracket_in_string :
    extractGallery.jsonArrayStr
        "var d = \x7b 'initial':[\x7b\"a\":\"]\"\x7d,[1]], x: 0 \x7d;".toList =
      .ok "[\x7b\"a\":\"]".toList ∧
    "[\x7b\"a\":\"]".toList ≠ "[\x7b\"a\":\"]\"\x7d,[1]]".toList :=
  ⟨rfl, by decide⟩

theorem bracketDepth_take_succ (T : Str) (n : Nat) :
    bracketDepth (T.take n) - 1 ≤ bracketDepth (T.take (n + 1)) := by
  rw [List.take_succ, bracketDepth_append]
  cases T[n]? with
  | none =>
    show bracketDepth (T.take n) - 1 ≤ bracketDepth (T.take n) + bracketDepth []
    rw [bracketDepth_nil]
    omega
  | some c =>
    show bracketDepth (T.take n) - 1 ≤ bracketDepth (T.take n) + bracketDepth [c]
    rw [bracketDepth_cons, bracketDepth_nil]
    split_ifs <;> omega

theorem eq_take_length_of_initial (q T : Str) (h : q <+: T) : q = T.take q.length := by
  obtain ⟨r, hr⟩ := h
  rw [← hr, List.take_left]

theorem first_balanced_or_open (T : Str) (hhead : T.head? = some '[') :
    (∀ n, 1 ≤ n → 0 < bracketDepth (T.take n)) ∨
    ∃ pre, pre <+: T ∧ pre ≠ [] ∧ bracketDepth pre = 0 ∧
      ∀ q, q <+: pre → q ≠ [] → q ≠ pre → 0 < bracketDepth q := by
  obtain ⟨t, ht⟩ : ∃ t, T = '[' :: t := by
    cases T with
    | nil => cases hhead
    | cons c t =>
      injection hhead with hc
      exact ⟨t, by rw [hc]⟩
  by_cases hex : ∃ n, 1 ≤ n ∧ bracketDepth (T.take n) ≤ 0
  · right
    obtain ⟨N, ⟨h1, hle⟩, hmin'⟩ : ∃ N, (1 ≤ N ∧ bracketDepth (T.take N) ≤ 0) ∧
        ∀ m, m < N → ¬ (1 ≤ m ∧ bracketDepth (T.take m) ≤ 0) :=
      ⟨Nat.find hex, Nat.find_spec hex, fun m hm => Nat.find_min hex hm⟩
    have hmin : ∀ m, m < N → 1 ≤ m → 0 < bracketDepth (T.take m) := by
      intro m hm hm1
      by_contra hcon
      exact hmin' m hm ⟨hm1, by omega⟩
    have hone : bracketDepth (T.take 1) = 1 := by
      rw [ht]
      show bracketDepth ['['] = 1
      decide
    have h2 : 2 ≤ N := by
      by_contra hcon
      have hN : N = 1 := by omega
      rw [hN, hone] at hle
      omega
    have hlen : N ≤ T.length := by
      by_contra hcon
      have hT : 1 ≤ T.length := by rw [ht]; simp
      have hall : T.take N = T.take T.length := by
        rw [List.take_of_length_le (by omega), List.take_length]
      have hpos := hmin T.length (by omega) hT
      rw [← hall] at hpos
      omega
    have hzero : bracketDepth (T.take N) = 0 := by
      have hprev := hmin (N - 1) (by omega) (by omega)
      have hstep := bracketDepth_take_succ T (N - 1)
      rw [show N - 1 + 1 = N by omega] at hstep
      omega
    refine ⟨T.take N, List.take_prefix _ _, ?_, hzero, ?_⟩
    · intro h
      have hl := congrArg List.length h
      rw [List.length_take, List.length_nil] at hl
      omega
    · intro q hq hne hneq
      have hqT : q <+: T := hq.trans (List.take_prefix _ _)
      have hqlen : q.length < (T.take N).length := by
        rcases Nat.lt_or_ge q.length (T.take N).length with h | h
        · exact h
        · exact absurd (List.IsPrefix.eq_of_length hq (Nat.le_antisymm hq.length_le h)) hneq
      rw [List.length_take] at hqlen
      have hq1 : 1 ≤ q.length := List.length_pos.mpr hne
      rw [eq_take_length_of_initial q T hqT]
      exact hmin q.length (by omega) hq1
  · left
    intro n hn
    by_contra hcon
    exact hex ⟨n, hn, by omega⟩

theorem jsonArrayStr_never_closed (before mid t : Str)
    (hindex : strings.Index (before ++ ("'initial':".toList ++ (mid ++ '[' :: t)))
      "'initial':".toList = some before.length)
    (hmid : '[' ∉ mid)
    (hopen : ∀ n, 1 ≤ n → 0 < bracketDepth (('[' :: t).take n)) :
    extractGallery.jsonArrayStr (before ++ ("'initial':".toList ++ (mid ++ '[' :: t))) =
      .error .noClosingBracket := by
  have hbr : strings.Index ("'initial':".toList ++ (mid ++ '[' :: t))
      "[".toList = some ("'initial':".toList ++ mid).length := by
    rw [← List.append_assoc]
    apply Index_bracket_after
    intro hmem
    rcases List.mem_append.mp hmem with h | h
    · revert h; decide
    · exact hmid h
  have hdrop : (before ++ ("'initial':".toList ++ (mid ++ '[' :: t))).drop
      (("'initial':".toList ++ mid).length + before.length) = '[' :: t := by
    rw [Nat.add_comm, ← List.drop_drop, List.drop_left, ← List.append_assoc, List.drop_left]
  have hscan : extractGallery.scan ('[' :: t)
      (("'initial':".toList ++ mid).length + before.length) 0 = none :=
    scan_never_closed _ _ 0 (by intro n hn; have := hopen n hn; omega)
  unfold extractGallery.jsonArrayStr
  simp only [hindex, List.drop_left, hbr, hdrop, hscan]

/-- C25 amended: for every text `lit ++ post` placed after the `'initial':` marker and
beginning with `[`, the scan of `extractGallery` counts every `[` and `]`, inside string
values too, and isolates the shortest non-empty prefix of that text in which they balance.
The isolated text is the whole literal `lit` if and only if `lit` balances in this count and
no shorter prefix of it does; and when no prefix of the text balances, nothing is isolated. -/
theorem extractGallery_isolates_first_balanced_part (before mid lit post : Str)
    (hfirst : ∀ k, k < before.length → ¬ "'initial':".toList <+:
      (before ++ ("'initial':".toList ++ (mid ++ (lit ++ post)))).drop k)
    (hmid : '[' ∉ mid)
    (hhead : lit.head? = some '[') :
    (∀ pre, pre <+: lit ++ post → pre ≠ [] → bracketDepth pre = 0 →
      (∀ q, q <+: pre → q ≠ [] → q ≠ pre → 0 < bracketDepth q) →
      extractGallery.jsonArrayStr
        (before ++ ("'initial':".toList ++ (mid ++ (lit ++ post)))) = .ok pre) ∧
    (extractGallery.jsonArrayStr
        (before ++ ("'initial':".toList ++ (mid ++ (lit ++ post)))) = .ok lit ↔
      bracketDepth lit = 0 ∧ ∀ q, q <+: lit → q ≠ [] → q ≠ lit → 0 < bracketDepth q) ∧
    ((∀ q, q <+: lit ++ post → q ≠ [] → 0 < bracketDepth q) →
      extractGallery.jsonArrayStr
        (before ++ ("'initial':".toList ++ (mid ++ (lit ++ post)))) =
        .error .noClosingBracket) := by
  obtain ⟨t, ht⟩ : ∃ t, lit = '[' :: t := by
    cases lit with
    | nil => cases hhead
    | cons c t =>
      injection hhead with hc
      exact ⟨t, by rw [hc]⟩
  have hlitne : lit ≠ [] := by rw [ht]; simp
  have hTe : lit ++ post = '[' :: (t ++ post) := by rw [ht]; rfl
  have hThead : (lit ++ post).head? = some '[' := by rw [hTe]; rfl
  have hindex : strings.Index (before ++ ("'initial':".toList ++ (mid ++ (lit ++ post))))
      "'initial':".toList = some before.length := by
    apply strings.Index_eq_some _ _ _ _ hfirst
    rw [List.drop_left]
    exact ⟨_, rfl⟩
  have hone : ∀ pre, pre <+: lit ++ post → pre ≠ [] → bracketDepth pre = 0 →
      (∀ q, q <+: pre → q ≠ [] → q ≠ pre → 0 < bracketDepth q) →
      extractGallery.jsonArrayStr
        (before ++ ("'initial':".toList ++ (mid ++ (lit ++ post)))) = .ok pre := by
    intro pre hpre hne hzero hpos
    have hph : pre.head? = some '[' := by
      obtain ⟨r, hr⟩ := hpre
      cases pre with
      | nil => exact absurd rfl hne
      | cons c p =>
        rw [hTe] at hr
        injection hr with hc _
        rw [hc]
        rfl
    obtain ⟨body, hbody, hbal⟩ := shortest_balanced_parts pre hph hzero hpos
    obtain ⟨post', hpp⟩ := hpre
    have htext : lit ++ post = '[' :: (body ++ ']' :: post') := by
      rw [← hpp, hbody]
      simp
    rw [htext] at hindex ⊢
    rw [hbody]
    exact jsonArrayStr_of_parts before mid body post' hindex hmid hbal
  have hthree : (∀ q, q <+: lit ++ post → q ≠ [] → 0 < bracketDepth q) →
      extractGallery.jsonArrayStr
        (before ++ ("'initial':".toList ++ (mid ++ (lit ++ post)))) =
        .error .noClosingBracket := by
    intro hopen
    rw [hTe] at hindex hopen ⊢
    apply jsonArrayStr_never_closed before mid (t ++ post) hindex hmid
    intro n hn
    apply hopen _ (List.take_prefix _ _)
    intro h
    have hl := congrArg List.length h
    rw [List.length_take, List.length_nil, List.length_cons] at hl
    omega
  refine ⟨hone, ⟨?_, ?_⟩, hthree⟩
  · intro hok
    rcases first_balanced_or_open (lit ++ post) hThead with hopen | ⟨pre, hpre, hne, hzero, hpos⟩
    · have herr := hthree (by
        intro q hq hqne
        rw [eq_take_length_of_initial q _ hq]
        exact hopen q.length (List.length_pos.mpr hqne))
      rw [herr] at hok
      cases hok
    · have hres := hone pre hpre hne hzero hpos
      rw [hres] at hok
      injection hok with hpl
      rw [← hpl]
      exact ⟨hzero, hpos⟩
  · rintro ⟨hzero, hpos⟩
    exact hone lit (List.prefix_append lit post) hlitne hzero hpos

/-- C25 amended, on four scripts. In `[{"a":"]"},[1]]` the shortest balanced prefix is
`[{"a":"]`, which is what the scan isolates: less than the literal. The literal
`[{"a":[1,2]}]` balances and no shorter prefix of it does, so it is isolated whole. After the
literal `["["]` the count is still one: followed by `, x: 0] };` the scan runs on to the next
`]` and isolates `["["], x: 0]`, more than the literal, and followed by `, x: 0 };` the count
never returns to zero and nothing is isolated. -/
theorem extractGallery_isolates_first_balanced_part_witness :
    extractGallery.jsonArrayStr
        "var d = \x7b 'initial':[\x7b\"a\":\"]\"\x7d,[1]], x: 0 \x7d;".toList =
      .ok "[\x7b\"a\":\"]".toList ∧
    extractGallery.jsonArrayStr
        "var d = \x7b 'initial':[\x7b\"a\":[1,2]\x7d], x: [0] \x7d;".toList =
      .ok "[\x7b\"a\":[1,2]\x7d]".toList ∧
    extractGallery.jsonArrayStr "var d = \x7b 'initial':[\"[\"], x: 0] \x7d;".toList =
      .ok "[\"[\"], x: 0]".toList ∧
    extractGallery.jsonArrayStr "var d = \x7b 'initial':[\"[\"], x: 0 \x7d;".toList =
      .error .noClosingBracket :=
  ⟨(extractGallery_isolates_first_balanced_part "var d = \x7b ".toList []
      "[\x7b\"a\":\"]\"\x7d,[1]]".toList ", x: 0 \x7d;".toList
      (by
        intro k hk
        have hk' : k < 10 := hk
        interval_cases k <;> decide)
      (by decide) (by decide)).1 "[\x7b\"a\":\"]".toList
      ⟨"\"\x7d,[1]], x: 0 \x7d;".toList, by decide⟩ (by decide) (by decide)
      (by
        have key : ∀ q ∈ "[\x7b\"a\":\"]".toList.inits, q ≠ [] → q ≠ "[\x7b\"a\":\"]".toList →
            0 < bracketDepth q := by decide
        intro q hq
        exact key q ((List.mem_inits _ _).mpr hq)),
    (extractGallery_isolates_first_balanced_part "var d = \x7b ".toList []
      "[\x7b\"a\":[1,2]\x7d]".toList ", x: [0] \x7d;".toList
      (by
        intro k hk
        have hk' : k < 10 := hk
        interval_cases k <;> decide)
      (by decide) (by decide)).2.1.mpr
      ⟨by decide, by
        have key : ∀ q ∈ "[\x7b\"a\":[1,2]\x7d]".toList.inits, q ≠ [] →
            q ≠ "[\x7b\"a\":[1,2]\x7d]".toList → 0 < bracketDepth q := by decide
        intro q hq
        exact key q ((List.mem_inits _ _).mpr hq)⟩,
    (extractGallery_isolates_first_balanced_part "var d = \x7b ".toList []
      "[\"[\"]".toList ", x: 0] \x7d;".toList
      (by
        intro k hk
        have hk' : k < 10 := hk
        interval_cases k <;> decide)
      (by decide) (by decide)).1 "[\"[\"], x: 0]".toList
      ⟨" \x7d;".toList, by decide⟩ (by decide) (by decide)
      (by
        have key : ∀ q ∈ "[\"[\"], x: 0]".toList.inits, q ≠ [] →
            q ≠ "[\"[\"], x: 0]".toList → 0 < bracketDepth q := by decide
        intro q hq
        exact key q ((List.mem_inits _ _).mpr hq)),
    (extractGallery_isolates_first_balanced_part "var d = \x7b ".toList []
      "[\"[\"]".toList ", x: 0 \x7d;".toList
      (by
        intro k hk
        have hk' : k < 10 := hk
        interval_cases k <;> decide)
      (by decide) (by decide)).2.2
      (by
        have key : ∀ q ∈ ("[\"[\"]".toList ++ ", x: 0 \x7d;".toList).inits, q ≠ [] →
            0 < bracketDepth q := by decide
        intro q hq
        exact key q ((List.mem_inits _ _).mpr hq))⟩

/-! ## `ScrapeDealsGrid`: what the stuck counter counts -/

theorem loop_succ_counter (s : AmazonDealsScraper) (page : Nat → DealsRound) (n i : Nat)
    (st : DealsState) :
    ((ScrapeDealsGrid.loop s page (n + 1) i st).rounds = st.rounds + 1 ∧
      ((ScrapeDealsGrid.loop s page (n + 1) i st).stuckCounter = st.stuckCounter ∨
        ((page i).stuck ∧
          (ScrapeDealsGrid.loop s page (n + 1) i st).stuckCounter = st.stuckCounter + 1))) ∨
    ∃ c : DealsState,
      ScrapeDealsGrid.loop s page (n + 1) i st = ScrapeDealsGrid.loop s page n (i + 1) c ∧
      c.rounds = st.rounds + 1 ∧
      (((page i).loadMore ∧ c.stuckCounter = st.stuckCounter) ∨
        ((page i).stuck ∧ c.stuckCounter = st.stuckCounter + 1 ∧ st.stuckCounter + 1 < 3) ∨
        c.stuckCounter = 0) := by
  rw [ScrapeDealsGrid.loop]
  split
  · left
    exact ⟨rfl, Or.inl rfl⟩
  · rename_i x0 previousHeight hph
    simp only
    by_cases hsp : (page i).spacer = true
    · simp only [if_pos hsp]
      left
      exact ⟨trivial, Or.inl trivial⟩
    · simp only [if_neg hsp]
      have hsp' : (page i).spacer = false := by
        cases h : (page i).spacer
        · rfl
        · exact absurd h hsp
      by_cases hvm : (page i).viewMoreButton = true
      · simp only [if_pos hvm]
        right
        exact ⟨_, rfl, rfl, Or.inl ⟨⟨hsp', hvm, previousHeight, hph⟩, rfl⟩⟩
      · simp only [if_neg hvm]
        have hvm' : (page i).viewMoreButton = false := by
          cases h : (page i).viewMoreButton
          · rfl
          · exact absurd h hvm
        split
        · left
          exact ⟨rfl, Or.inl rfl⟩
        · rename_i x1 newHeight hnh
          by_cases hh : newHeight = previousHeight
          · have hstuck : (page i).stuck := ⟨hsp', hvm', previousHeight, hph, by rw [hnh, hh]⟩
            simp only [if_pos hh]
            by_cases hst : st.stuckCounter + 1 ≥ 3
            · simp only [if_pos hst]
              left
              exact ⟨trivial, Or.inr ⟨hstuck, trivial⟩⟩
            · simp only [if_neg hst]
              right
              exact ⟨_, rfl, rfl, Or.inr (Or.inl ⟨hstuck, rfl, by omega⟩)⟩
          · simp only [if_neg hh]
            right
            exact ⟨_, rfl, rfl, Or.inr (Or.inr rfl)⟩

theorem stuckChain_loadMore (page : Nat → DealsRound) (i : Nat)
    (hlm : (page i).loadMore) :
    ∀ k, stuckChain page k i → stuckChain page k (i + 1) := by
  intro k
  cases k with
  | zero => intro _; trivial
  | succ k =>
    rintro ⟨j, hj, hst, hbetween, hrest⟩
    refine ⟨j, by omega, hst, ?_, hrest⟩
    intro m h1 h2
    by_cases hm : m = i
    · rw [hm]; exact hlm
    · exact hbetween m h1 (by omega)

theorem stuckChain_stuck (page : Nat → DealsRound) (i k : Nat)
    (hst : (page i).stuck) (h : stuckChain page k i) : stuckChain page (k + 1) (i + 1) :=
  ⟨i, Nat.lt_succ_self i, hst, fun m h1 h2 => absurd h2 (by omega), h⟩

theorem loop_stuckChain (s : AmazonDealsScraper) (page : Nat → DealsRound) :
    ∀ (left i : Nat) (st : DealsState) (k : Nat),
      st.rounds = i → st.stuckCounter = (k : Int) → k ≤ 2 → stuckChain page k i →
      (ScrapeDealsGrid.loop s page left i st).stuckCounter ≤ 3 ∧
      (3 ≤ (ScrapeDealsGrid.loop s page left i st).stuckCounter →
        ∃ j, j + 1 = (ScrapeDealsGrid.loop s page left i st).rounds ∧ (page j).stuck ∧
          stuckChain page 2 j) := by
  intro left
  induction left with
  | zero =>
    intro i st k _ hk hk2 _
    rw [ScrapeDealsGrid.loop]
    exact ⟨by omega, fun h => absurd h (by omega)⟩
  | succ n ih =>
    intro i st k hr hk hk2 hchain
    rcases loop_succ_counter s page n i st with ⟨hr1, hsame | ⟨hst, hinc⟩⟩ | ⟨c, hc, hcr, hcase⟩
    · exact ⟨by omega, fun h => absurd h (by omega)⟩
    · refine ⟨by omega, fun h => ?_⟩
      have hk' : k = 2 := by omega
      rw [hk'] at hchain
      exact ⟨i, by omega, hst, hchain⟩
    · rw [hc]
      rcases hcase with ⟨hlm, hcs⟩ | ⟨hst, hcs, hlt⟩ | hzero
      · exact ih (i + 1) c k (by omega) (by omega) hk2 (stuckChain_loadMore page i hlm k hchain)
      · exact ih (i + 1) c (k + 1) (by omega) (by rw [hcs, hk]; push_cast; rfl) (by omega)
          (stuckChain_stuck page i k hst hchain)
      · exact ih (i + 1) c 0 (by omega) (by rw [hzero]; rfl) (by omega) trivial

/-- C26, as the claim states it, fails: in a crawl whose rounds 0 and 1 scroll with an
unchanged height, whose round 2 clicks the load-more button and whose round 3 scrolls with an
unchanged height, the crawler stops by stuck detection in round 3, after four rounds; of the
three most recently executed rounds, round 2 is not a scroll-based round. -/
theorem ScrapeDealsGrid_stuck_stop_with_button_round_between :
    (ScrapeDealsGrid.run sampleScraper sampleInterleaved).rounds = 4 ∧
    (ScrapeDealsGrid.run sampleScraper sampleInterleaved).stuckCounter = 3 ∧
    (sampleInterleaved.round 2).viewMoreButton = true ∧
    ¬ (sampleInterleaved.round 2).stuck := by
  refine ⟨by decide, by decide, by decide, ?_⟩
  rintro ⟨_, h, _⟩
  exact absurd h (by decide)

/-- C26 amended: the stuck counter counts the scroll-based rounds with an unchanged height
since the last scroll-based round whose height changed, load-more rounds not counted.
Whenever the crawler stops by stuck detection (the counter has reached 3), the round it stops
in and the two scroll-based rounds before it are rounds whose height was unchanged, and every
other round from the first of these three on is a load-more round: no round with a changed
height lies among them, since such a round resets the counter to 0. -/
theorem ScrapeDealsGrid_stuck_stop_after_three_unchanged_scroll_rounds
    (s : AmazonDealsScraper) (browser : DealsSession)
    (hstop : 3 ≤ (ScrapeDealsGrid.run s browser).stuckCounter) :
    (ScrapeDealsGrid.run s browser).stuckCounter = 3 ∧
    ∃ i1 i2 i3, i1 < i2 ∧ i2 < i3 ∧ i3 + 1 = (ScrapeDealsGrid.run s browser).rounds ∧
      (browser.round i1).stuck ∧ (browser.round i2).stuck ∧ (browser.round i3).stuck ∧
      ∀ j, i1 < j → j < i3 → j ≠ i2 → (browser.round j).loadMore := by
  obtain ⟨hle, hchain⟩ := loop_stuckChain s browser.round 100 0
    { seenProducts := [], products := [], stuckCounter := 0, rounds := 0, collected := 0 }
    0 rfl rfl (by omega) trivial
  refine ⟨le_antisymm hle hstop, ?_⟩
  obtain ⟨i3, hi3, hst3, i2, h23, hst2, hb2, i1, h12, hst1, hb1, _⟩ := hchain hstop
  refine ⟨i1, i2, i3, h12, h23, hi3, hst1, hst2, hst3, ?_⟩
  intro j h1 h3 hne
  rcases Nat.lt_or_ge j i2 with h | h
  · exact hb1 j h1 h
  · exact hb2 j (by omega) h3

/-- C26 amended, on the crawl with a load-more round between the unchanged scroll rounds:
the crawler stops by stuck detection with the counter at 3, the rounds counted being rounds
0, 1 and 3. -/
theorem ScrapeDealsGrid_stuck_stop_after_three_unchanged_scroll_rounds_witness :
    3 ≤ (ScrapeDealsGrid.run sampleScraper sampleInterleaved).stuckCounter ∧
    (ScrapeDealsGrid.run sampleScraper sampleInterleaved).stuckCounter = 3 :=
  ⟨by decide,
    (ScrapeDealsGrid_stuck_stop_after_three_unchanged_scroll_rounds sampleScraper
      sampleInterleaved (by decide)).1⟩

/-! ## `ScrapeProductList`: the department lookup -/

theorem Atoi_int_of_some (x : Str) (n : Int) (h : strconv.Atoi x = some n) :
    strconv.Atoi.int x = n := by
  unfold strconv.Atoi at h
  unfold strconv.Atoi.int
  simp only at h ⊢
  split_ifs at h ⊢ <;> cases h <;> rfl

theorem Atoi_int_of_nondigit (x : Str)
    (h : ∃ c ∈ x, utils.isDigit c = false ∧ c ≠ '-' ∧ c ≠ '+') :
    strconv.Atoi.int x = 0 := by
  obtain ⟨c, hc, hd, hm, hp⟩ := h
  have hall : ∀ ds : Str, c ∈ ds → ds.all utils.isDigit = false := by
    intro ds hds
    rw [List.all_eq_false]
    exact ⟨c, hds, by simp [hd]⟩
  have hmem : c ∈ (match x with
      | '-' :: r => r
      | '+' :: r => r
      | _ => x) := by
    cases x with
    | nil => cases hc
    | cons a t =>
      rw [List.mem_cons] at hc
      by_cases h1 : a = '-'
      · subst h1
        rcases hc with hc | hc
        · exact absurd hc hm
        · exact hc
      · by_cases h2 : a = '+'
        · subst h2
          rcases hc with hc | hc
          · exact absurd hc hp
          · exact hc
        · split
          · rename_i heq; injection heq with h _; exact absurd h h1
          · rename_i heq; injection heq with h _; exact absurd h h2
          · rw [List.mem_cons]
            exact hc
  unfold strconv.Atoi.int
  simp only
  rw [if_neg (List.ne_nil_of_mem hmem), if_pos (hall _ hmem)]

theorem chosenDept_spec (departments : List DepartmentOption) (depInput : Str)
    (hne : departments ≠ []) :
    (strconv.Atoi.int (strings.TrimSpace depInput) < 1 ∨
      (departments.length : Int) < strconv.Atoi.int (strings.TrimSpace depInput) →
      ScrapeProductList.chosenDept departments depInput = departments[0]?) ∧
    (1 ≤ strconv.Atoi.int (strings.TrimSpace depInput) ∧
      strconv.Atoi.int (strings.TrimSpace depInput) ≤ (departments.length : Int) →
      ScrapeProductList.chosenDept departments depInput =
        departments[(strconv.Atoi.int (strings.TrimSpace depInput) - 1).toNat]?) ∧
    ∃ d, ScrapeProductList.chosenDept departments depInput = some d := by
  have hlen : 0 < departments.length := List.length_pos.mpr hne
  have h1 : strconv.Atoi.int (strings.TrimSpace depInput) < 1 ∨
      (departments.length : Int) < strconv.Atoi.int (strings.TrimSpace depInput) →
      ScrapeProductList.chosenDept departments depInput = departments[0]? := by
    intro h
    unfold ScrapeProductList.chosenDept
    simp only
    rw [if_pos h]
    rfl
  have h2 : 1 ≤ strconv.Atoi.int (strings.TrimSpace depInput) ∧
      strconv.Atoi.int (strings.TrimSpace depInput) ≤ (departments.length : Int) →
      ScrapeProductList.chosenDept departments depInput =
        departments[(strconv.Atoi.int (strings.TrimSpace depInput) - 1).toNat]? := by
    intro h
    have hcond : ¬ (strconv.Atoi.int (strings.TrimSpace depInput) < 1 ∨
        strconv.Atoi.int (strings.TrimSpace depInput) > (departments.length : Int)) := by
      omega
    unfold ScrapeProductList.chosenDept
    simp only
    rw [if_neg hcond, if_pos (by omega)]
  refine ⟨h1, h2, ?_⟩
  by_cases h : strconv.Atoi.int (strings.TrimSpace depInput) < 1 ∨
      (departments.length : Int) < strconv.Atoi.int (strings.TrimSpace depInput)
  · rw [h1 h]
    exact ⟨departments[0], List.getElem?_eq_getElem hlen⟩
  · have h' : 1 ≤ strconv.Atoi.int (strings.TrimSpace depInput) ∧
        strconv.Atoi.int (strings.TrimSpace depInput) ≤ (departments.length : Int) := by omega
    rw [h2 h']
    have hlt : (strconv.Atoi.int (strings.TrimSpace depInput) - 1).toNat <
        departments.length := by omega
    exact ⟨departments[(strconv.Atoi.int (strings.TrimSpace depInput) - 1).toNat],
      List.getElem?_eq_getElem hlt⟩

/-- C30: in `ScrapeProductList` the lookup `departments[depIdx-1]` is always in bounds, so the
call never panics there: an empty department list returns an error before the lookup; with
`k` the integer `strconv.Atoi` reads from the trimmed line, a `k` outside
`1..len(departments)` selects the first department and a `k` within selects the `k`-th; a
line with a character that is neither a digit nor a sign reads as 0 and selects the first. -/
theorem ScrapeProductList_lookup_in_bounds (lib : Encoders) (BaseURL : Str)
    (collected : Option (List DepartmentOption)) (typed : TypedLines)
    (browser : DealsSession) :
    ScrapeProductList lib BaseURL collected typed browser ≠ .panic ∧
    (collected = some [] → ScrapeProductList lib BaseURL collected typed browser = .error) ∧
    (∀ departments, collected = some departments → departments ≠ [] →
      (∃ d, ScrapeProductList.chosenDept departments typed.depInput = some d) ∧
      (strconv.Atoi.int (strings.TrimSpace typed.depInput) < 1 ∨
        (departments.length : Int) < strconv.Atoi.int (strings.TrimSpace typed.depInput) →
        ScrapeProductList.chosenDept departments typed.depInput = departments[0]?) ∧
      (1 ≤ strconv.Atoi.int (strings.TrimSpace typed.depInput) ∧
        strconv.Atoi.int (strings.TrimSpace typed.depInput) ≤ (departments.length : Int) →
        ScrapeProductList.chosenDept departments typed.depInput =
          departments[(strconv.Atoi.int (strings.TrimSpace typed.depInput) - 1).toNat]?) ∧
      ((∃ c ∈ strings.TrimSpace typed.depInput,
          utils.isDigit c = false ∧ c ≠ '-' ∧ c ≠ '+') →
        ScrapeProductList.chosenDept departments typed.depInput = departments[0]?) ∧
      (∀ n : Int, strconv.Atoi (strings.TrimSpace typed.depInput) = some n →
        1 ≤ n → n ≤ (departments.length : Int) →
        ScrapeProductList.chosenDept departments typed.depInput =
          departments[(n - 1).toNat]?)) := by
  refine ⟨?_, ?_, ?_⟩
  · intro h
    unfold ScrapeProductList at h
    split at h
    · cases h
    · rename_i departments
      split_ifs at h with hlen
      · have hne : departments ≠ [] := by
          intro he
          rw [he] at hlen
          exact hlen rfl
        obtain ⟨d, hd⟩ := (chosenDept_spec departments typed.depInput hne).2.2
        rw [hd] at h
        simp only at h
        split at h
        · cases h
        · split at h
          · cases h
          · cases h
  · intro h
    rw [h]
    rfl
  · intro departments _ hne
    obtain ⟨h1, h2, h3⟩ := chosenDept_spec departments typed.depInput hne
    refine ⟨h3, h1, h2, ?_, ?_⟩
    · intro hnd
      apply h1
      left
      rw [Atoi_int_of_nondigit _ hnd]
      decide
    · intro n hn hn1 hn2
      have := Atoi_int_of_some _ n hn
      rw [← this]
      apply h2
      rw [this]
      exact ⟨hn1, hn2⟩

/-- C30 on three departments: the lines `2`, `abc`, `7` and `0` select the second, the
first, the first and the first department, and the call on the line `abc` does not panic. -/
theorem ScrapeProductList_lookup_in_bounds_witness :
    ScrapeProductList.chosenDept sampleDepartments "2\n".toList = sampleDepartments[1]? ∧
    ScrapeProductList.chosenDept sampleDepartments "abc\n".toList = sampleDepartments[0]? ∧
    ScrapeProductList.chosenDept sampleDepartments "7\n".toList = sampleDepartments[0]? ∧
    ScrapeProductList.chosenDept sampleDepartments "0\n".toList = sampleDepartments[0]? ∧
    ScrapeProductList sampleEncoders "https://www.amazon.ae/".toList (some sampleDepartments)
      { depInput := "abc\n".toList, minPriceStr := "0\n".toList, maxPriceStr := "500\n".toList,
        minOffStr := "20\n".toList, maxOffStr := "90\n".toList } sampleDeals ≠ .panic :=
  have h := fun line => (ScrapeProductList_lookup_in_bounds sampleEncoders
    "https://www.amazon.ae/".toList (some sampleDepartments)
    { depInput := line, minPriceStr := "0\n".toList, maxPriceStr := "500\n".toList,
      minOffStr := "20\n".toList, maxOffStr := "90\n".toList } sampleDeals)
  ⟨((h "2\n".toList).2.2 sampleDepartments rfl (by decide)).2.2.2.2 2 (by decide) (by decide)
      (by decide),
    ((h "abc\n".toList).2.2 sampleDepartments rfl (by decide)).2.2.2.1
      ⟨'a', by decide, by decide, by decide, by decide⟩,
    ((h "7\n".toList).2.2 sampleDepartments rfl (by decide)).2.1 (Or.inr (by decide)),
    ((h "0\n".toList).2.2 sampleDepartments rfl (by decide)).2.1 (Or.inl (by decide)),
    (h "abc\n".toList).1⟩

/-! ## `JSONStringSlice`: the database encoding -/

theorem sampleJSONString_eq (s : Str) :
    sampleJSONString s =
      '"' :: (s.flatMap (fun c =>
        if c = '"' then ['\\', '"']
        else if c = '\\' then ['\\', '\\']
        else if c = '<' then "\\u003c".toList
        else if c = '>' then "\\u003e".toList
        else if c = '&' then "\\u0026".toList
        else [c]) ++ ['"']) := rfl

theorem sampleJSONStrings_cons_cons (s r : Str) (rs : List Str) :
    sampleJSONStrings (s :: r :: rs) =
      sampleJSONString s ++ ',' :: sampleJSONStrings (r :: rs) := rfl

theorem sampleJSONStrings_length : ∀ l : List Str, l.length ≤ (sampleJSONStrings l).length := by
  intro l
  induction l with
  | nil => exact Nat.le_refl 0
  | cons s rest ih =>
    cases rest with
    | nil =>
      show 1 ≤ (sampleJSONString s).length
      rw [sampleJSONString_eq]
      simp
    | cons r rs =>
      rw [sampleJSONStrings_cons_cons]
      simp only [List.length_append, List.length_cons] at ih ⊢
      omega

theorem sampleReadStrings_succ (fuel : Nat) (c : Char) (t : Str) :
    sampleReadStrings (fuel + 1) (c :: t) =
      if c = '"' then
        match sampleReadString t with
        | some (s, rest) =>
          (match rest with
           | [] => none
           | d :: rest' =>
             if d = ']' then (if rest' = [] then some [s] else none)
             else if d = ',' then (sampleReadStrings fuel rest').map (fun l => s :: l)
             else none)
        | none => none
      else none := rfl

theorem sampleReadStrings_strings :
    ∀ (l : List Str), l ≠ [] → ∀ fuel, l.length ≤ fuel →
      sampleReadStrings fuel (sampleJSONStrings l ++ [']']) = some l := by
  intro l
  induction l with
  | nil => intro h; exact absurd rfl h
  | cons s rest ih =>
    intro _ fuel hfuel
    obtain ⟨f, hf⟩ : ∃ f, fuel = f + 1 := ⟨fuel - 1, by rw [List.length_cons] at hfuel; omega⟩
    rw [hf]
    cases rest with
    | nil =>
      show sampleReadStrings (f + 1) (sampleJSONString s ++ [']']) = _
      rw [sampleJSONString_eq]
      simp only [List.cons_append, List.append_assoc, List.singleton_append, List.nil_append]
      rw [sampleReadStrings_succ, if_pos rfl, sampleReadString_string]
      rfl
    | cons r rs =>
      rw [sampleJSONStrings_cons_cons, sampleJSONString_eq]
      simp only [List.cons_append, List.append_assoc, List.singleton_append, List.nil_append]
      rw [sampleReadStrings_succ, if_pos rfl, sampleReadString_string]
      simp only
      rw [if_pos trivial, ih (by simp) f (by rw [hf, List.length_cons] at hfuel; omega)]
      rfl

theorem sampleUnmarshalStrings_marshal (l : List Str) :
    ∃ text, sampleMarshalStrings l = some text ∧
      ∀ j0, sampleUnmarshalStrings text j0 = (some l, none) := by
  refine ⟨_, rfl, ?_⟩
  intro j0
  have hnull : ('[' :: sampleJSONStrings l ++ [']'] : Str) ≠ "null".toList := by
    intro h
    injection h with h1 _
    exact absurd h1 (by decide)
  unfold sampleUnmarshalStrings
  rw [if_neg hnull]
  show (if '[' = '[' then _ else _) = _
  rw [if_pos rfl]
  cases l with
  | nil => rfl
  | cons s rest =>
    have hne : sampleJSONStrings (s :: rest) ++ [']'] ≠ [']'] := by
      intro h
      have h2 := congrArg List.length h
      have := sampleJSONStrings_length (s :: rest)
      simp only [List.length_append, List.length_cons, List.length_nil] at h2 this
      omega
    show (if sampleJSONStrings (s :: rest) ++ [']'] = [']'] then _
      else
        match sampleReadStrings (sampleJSONStrings (s :: rest) ++ [']']).length
            (sampleJSONStrings (s :: rest) ++ [']']) with
        | some l => (some l, none)
        | none => (j0, some ())) = _
    rw [if_neg hne, sampleReadStrings_strings (s :: rest) (by simp) _ (by
      rw [List.length_append]
      have := sampleJSONStrings_length (s :: rest)
      omega)]

/-- C28: with a JSON library whose `Unmarshal` reads back, into any receiver, what its
`Marshal` writes for a slice of strings, `JSONStringSlice` round-trips through its database
encoding: `Value` returns no error, and `Scan` applied to the value it returns, given as
bytes or as a string, returns no error and leaves the receiver equal to the slice. The nil
slice encodes to the nil value and scans back to nil, and the empty slice scans back to the
empty slice. -/
theorem JSONStringSlice_scan_value (lib : JSONLib)
    (hlib : ∀ strings, ∃ text, lib.Marshal strings = some text ∧
      ∀ j0, lib.Unmarshal text j0 = (some strings, none))
    (j j0 : JSONStringSlice) :
    (JSONStringSlice.Value lib j).2 = none ∧
    JSONStringSlice.Scan lib j0 (JSONStringSlice.Value lib j).1 = (j, none) ∧
    (∀ text, (JSONStringSlice.Value lib j).1 = .bytes text →
      JSONStringSlice.Scan lib j0 (.string text) = (j, none)) ∧
    JSONStringSlice.Value lib none = (.null, none) ∧
    JSONStringSlice.Scan lib j0 .null = (none, none) ∧
    JSONStringSlice.Scan lib j0 (JSONStringSlice.Value lib (some [])).1 = (some [], none) := by
  have hsome : ∀ strings, ∃ text,
      JSONStringSlice.Value lib (some strings) = (.bytes text, none) ∧
      ∀ r, lib.Unmarshal text r = (some strings, none) := by
    intro strings
    obtain ⟨text, hm, hu⟩ := hlib strings
    refine ⟨text, ?_, hu⟩
    unfold JSONStringSlice.Value
    simp only
    rw [hm]
  have hempty : JSONStringSlice.Scan lib j0 (JSONStringSlice.Value lib (some [])).1 =
      (some [], none) := by
    obtain ⟨text, hv, hu⟩ := hsome []
    rw [hv]
    exact hu j0
  cases j with
  | none =>
    refine ⟨rfl, rfl, ?_, rfl, rfl, hempty⟩
    intro text h
    cases h
  | some strings =>
    obtain ⟨text, hv, hu⟩ := hsome strings
    refine ⟨by rw [hv], by rw [hv]; exact hu j0, ?_, rfl, rfl, hempty⟩
    intro text' h
    rw [hv] at h
    injection h with h
    rw [← h]
    exact hu j0

/-- C28 with the sample JSON library, which reads back what it writes for every slice: a
gallery of two URLs is written as a JSON array and scanned back, from bytes and from a
string, into a receiver that held something else. -/
theorem JSONStringSlice_scan_value_witness :
    JSONStringSlice.Value sampleJSONLib (some ["https://m.media/a.jpg".toList, "b\"c".toList]) =
      (.bytes "[\"https://m.media/a.jpg\",\"b\\\"c\"]".toList, none) ∧
    JSONStringSlice.Scan sampleJSONLib (some ["old".toList])
        (JSONStringSlice.Value sampleJSONLib
          (some ["https://m.media/a.jpg".toList, "b\"c".toList])).1 =
      (some ["https://m.media/a.jpg".toList, "b\"c".toList], none) ∧
    JSONStringSlice.Scan sampleJSONLib (some ["old".toList])
        (.string "[\"https://m.media/a.jpg\",\"b\\\"c\"]".toList) =
      (some ["https://m.media/a.jpg".toList, "b\"c".toList], none) :=
  have h := JSONStringSlice_scan_value sampleJSONLib sampleUnmarshalStrings_marshal
    (some ["https://m.media/a.jpg".toList, "b\"c".toList]) (some ["old".toList])
  ⟨by decide, h.2.1, h.2.2.1 _ (by decide)⟩

end AmazonScraper
